import Mathlib

/-!
# spe-poc: schedule expansion, embedding synthesis and the naive route simulation

A shallow embedding of `main.go` and `extended.go`.

* Go strings are modelled by `String` (sequences of Unicode code points): every string the
  program handles is decoded from JSON and is therefore valid UTF-8.
* Go `int` is modelled by `Int`; where the program's arithmetic can leave the 64-bit range the
  wrap-around is written out with `wrapInt64`.
* `float64` is modelled by an arbitrary linearly ordered field `F` together with the functions of
  package `math` (`MathFns F`); the theorems about numeric values instantiate `F` with `ℝ`.
* What the program obtains from outside its own source (the Unicode upper-case table, the clock
  and the `rrule-go` evaluator) is collected in `Runtime`.
* A run-time panic (negative `make` length, index out of range) is the result `none`.
-/

namespace SpePoc

/-! ## Package `strings` and `unicode` -/

/-- Go `unicode.ToUpper(r)`: ASCII runes are handled inline (`'a'..'z'` are shifted by `'a' - 'A'`),
every other rune is looked up in the Unicode case tables, `unicode.To(unicode.UpperCase, r)`,
which are the parameter `up`. -/
def toUpperRune (up : Char → Char) (c : Char) : Char :=
  if c.toNat ≤ 0x7F then
    if 'a'.toNat ≤ c.toNat ∧ c.toNat ≤ 'z'.toNat then Char.ofNat (c.toNat - ('a'.toNat - 'A'.toNat))
    else c
  else up c

/-- Go `strings.ToUpper(s)`: the string with every rune mapped by `unicode.ToUpper`. -/
def ToUpper (up : Char → Char) (s : String) : String := ⟨s.data.map (toUpperRune up)⟩

/-- Go `unicode.IsSpace(r)`, which is also the `isSpace` of package `fmt`: the Unicode White_Space
property, `'\t' '\n' '\v' '\f' '\r' ' '`, U+0085, U+00A0, U+1680, U+2000..U+200A, U+2028, U+2029,
U+202F, U+205F and U+3000. -/
def isSpace (c : Char) : Bool :=
  let r := c.toNat
  (0x09 ≤ r && r ≤ 0x0D) || r == 0x20 || r == 0x85 || r == 0xA0 || r == 0x1680 ||
    (0x2000 ≤ r && r ≤ 0x200A) || r == 0x2028 || r == 0x2029 || r == 0x202F || r == 0x205F ||
    r == 0x3000

/-- Go `strings.TrimSpace(s)`: `s` without its leading and trailing white space. -/
def TrimSpace (s : String) : String :=
  ⟨((s.data.dropWhile isSpace).reverse.dropWhile isSpace).reverse⟩

/-- Go `strings.HasPrefix(s, pre)`. -/
def HasPrefix (s pre : String) : Bool := pre.data.isPrefixOf s.data

/-! ## `fmt.Sscanf(str, "MONTHLY_%d", &n)` -/

/-- The scanner's read limit `hugeWid = 1 << 30`: no rune at or beyond this position is read. -/
def hugeWid : Nat := 1073741824

/-- Matching of the literal part of a format (no space, no `%`) against the input, rune by rune;
`none` when the input differs or ends first, otherwise the unread rest of the input. -/
def matchLiteral : List Char → List Char → Option (List Char)
  | [], inp => some inp
  | _ :: _, [] => none
  | f :: fs, c :: cs => if f = c then matchLiteral fs cs else none

/-- The scanner's `SkipSpace` in `Sscanf` mode (`nlIsSpace = false`): white space is skipped, a
newline is the error "unexpected newline" (`none`). -/
def SkipSpace : List Char → Option (List Char)
  | [] => some []
  | c :: cs => if c = '\n' then none else if isSpace c then SkipSpace cs else some (c :: cs)

/-- Membership in the scanner's `decimalDigits = "0123456789"`. -/
def isDecimalDigit (c : Char) : Bool := '0'.toNat ≤ c.toNat && c.toNat ≤ '9'.toNat

/-- The number a string of decimal digits denotes. -/
def digitsValue (ds : List Char) : Nat :=
  ds.foldl (fun acc c => acc * 10 + (c.toNat - '0'.toNat)) 0

/-- Go `strconv.ParseInt(tok, 10, 64)` for a token made of an optional sign (`neg` when it is `-`)
and the non-empty digit string `ds`: a magnitude of `2^63` or more (more than `2^63` after `-`)
is a range error (`none`). -/
def ParseInt (neg : Bool) (ds : List Char) : Option Int :=
  let un := digitsValue ds
  if !neg && un ≥ 2 ^ 63 then none
  else if neg && un > 2 ^ 63 then none
  else some (if neg then -(un : Int) else (un : Int))

/-- The scanner's `scanInt('d', 64)`: skip space, fail at end of input, accept one sign, accept
at least one decimal digit and then all that follow, convert with `strconv.ParseInt`. -/
def scanInt (inp : List Char) : Option Int :=
  match SkipSpace inp with
  | none => none
  | some [] => none
  | some (c :: cs) =>
    let neg := c == '-'
    let rest := if c == '+' || c == '-' then cs else c :: cs
    let ds := rest.takeWhile isDecimalDigit
    if ds.isEmpty then none else ParseInt neg ds

/-- The value of `n` after `n := 0; fmt.Sscanf(str, "MONTHLY_%d", &n)`: the scanned integer, and
`0` (the variable is left untouched, the error is discarded) when the scan fails. -/
def sscanfMonthly (str : String) : Int :=
  match matchLiteral "MONTHLY_".data (str.data.take hugeWid) with
  | none => 0
  | some rest => (scanInt rest).getD 0

/-! ## Schedule expansion (main.go, lines 339–385) -/

structure Schedule where
  Type' : String
  Anchor : String
  RRule : String

/-- Reduction of an integer to the 64-bit two's-complement range, as Go's `int` arithmetic does. -/
def wrapInt64 (x : Int) : Int := (x + 2 ^ 63) % 2 ^ 64 - 2 ^ 63

/-- Go `clampInt` (main.go, line 385). -/
def clampInt (x a b : Int) : Int := if x < a then a else if x > b then b else x

/-- The loop `for d := start; cond(d); d++ { if keep(d) { days = append(days, d) } }`, started
at `d` and run for at most `fuel` iterations; the callers pass the number of iterations the loop
can make. -/
def forAppend (cond keep : Int → Bool) : Nat → Int → List Int
  | 0, _ => []
  | fuel + 1, d =>
    if cond d then
      if keep d then d :: forAppend cond keep fuel (d + 1) else forAppend cond keep fuel (d + 1)
    else []

/-- Go `weekdayIndex` (main.go, lines 365–376). -/
def weekdayIndex (up : Char → Char) (anchor : String) : Int :=
  let a := ToUpper up (TrimSpace anchor)
  if a = "MON" then 0
  else if a = "TUE" then 1
  else if a = "WED" then 2
  else if a = "THU" then 3
  else if a = "FRI" then 4
  else if a = "SAT" then 5
  else if a = "SUN" then 6
  else 0

/-- Go `expandSchedule` (main.go, lines 339–363). `%` and `/` are Go's truncated remainder and
quotient; `n - 1` is computed in `int`. -/
def expandSchedule (up : Char → Char) (sch : Schedule) (cycleDays : Int) : List Int :=
  let anchorIdx := weekdayIndex up sch.Anchor
  if sch.Type' = "" ∧ sch.RRule ≠ "" then []
  else
    let t := ToUpper up sch.Type'
    if t = "WEEKLY" then
      forAppend (fun d => d < cycleDays) (fun d => d.tmod 7 == anchorIdx) cycleDays.toNat 0
    else if t = "BIWEEKLY_AC" then
      forAppend (fun d => d < cycleDays)
        (fun d => let w := d.tdiv 7; (w == 0 || w == 2) && d.tmod 7 == anchorIdx) cycleDays.toNat 0
    else if t = "BIWEEKLY_BD" then
      forAppend (fun d => d < cycleDays)
        (fun d => let w := d.tdiv 7; (w == 1 || w == 3) && d.tmod 7 == anchorIdx) cycleDays.toNat 0
    else if HasPrefix t "MONTHLY_" then
      let n := sscanfMonthly sch.Type'
      let week := clampInt (wrapInt64 (n - 1)) 0 3
      forAppend (fun d => d < (week + 1) * 7 && d < cycleDays) (fun d => d.tmod 7 == anchorIdx)
        7 (week * 7)
    else []

/-! ## Numeric model -/

/-- The functions and constants of package `math` that the program calls, over a scalar type `F`
standing for `float64`. -/
structure MathFns (F : Type) where
  Pi : F
  Sin : F → F
  Cos : F → F
  Asin : F → F
  Sqrt : F → F
  Pow : F → F → F

/-- Package `math` read over the real numbers. -/
noncomputable def realMath : MathFns ℝ :=
  ⟨Real.pi, Real.sin, Real.cos, Real.arcsin, Real.sqrt, fun x y => x ^ y⟩

/-! ## Data model (main.go, lines 22–117) -/

structure Agent (F : Type) where
  ID : String
  Name : String
  Lat : F
  Lng : F
  Schedule : Schedule

structure Account (F : Type) where
  ID : String
  Name : String
  Lat : F
  Lng : F
  EstimatedServiceMinutes : F
  ServiceWindowStartMin : F
  ServiceWindowDurationMin : F
  PinnedAgentID : String
  AgentsAvailableRatio : F
  Schedule : Schedule

structure Globals (F : Type) where
  MaxAgents : Int
  MaxWorkMinutesPerWeek : F
  MaxWorkMinutesPerDay : F
  MaxTravelMinutesPerDay : F

structure EmbeddingParams where
  ResServiceStopTime : Int
  ResServiceWindowStart : Int
  ResServiceWindowDuration : Int
  ResPinnedAccounts : Int
  ResAgentsAvailable : Int
  ResAgentStartLocations : Int
  H3Levels : List Int
  CycleDays : Int

structure Scenario (F : Type) where
  Name : String
  Agents : List (Agent F)
  Accounts : List (Account F)
  Globals : Globals F
  Params : EmbeddingParams

/-- The `Embedding.Resolutions` block of `ServerConfig`. -/
structure Resolutions where
  ServiceStopTime : Int
  ServiceWindowStart : Int
  ServiceWindowDuration : Int
  PinnedAccounts : Int
  AgentsAvailable : Int
  AgentStartLocations : Int

/-- The `Embedding` block of `ServerConfig`. -/
structure EmbeddingConfig (F : Type) where
  CycleDays : Int
  H3Levels : List Int
  Resolutions : Resolutions
  Overshoot : F
  BaseFrequency : F

/-- Go `ServerConfig`, reduced to the block the modelled functions read (`Server`, `Storage`, `Map`
and `UI` are not read by them). -/
structure ServerConfig (F : Type) where
  Embedding : EmbeddingConfig F

/-- The `Meta` map of an `EmbeddingResult`, with its three fixed keys. -/
structure EmbeddingMeta where
  h3_levels : List Int
  cycle_days : Int
  order : List String

/-- Go `EmbeddingResult`; the two maps are kept as association lists in insertion order (their keys
are six distinct constants). An offset entry is `(name, (start, end))`. -/
structure EmbeddingResult (F : Type) where
  Embedding : List F
  Components : List (String × List F)
  Offsets : List (String × (Int × Int))
  Meta : EmbeddingMeta

/-! ## What the program obtains from outside its source -/

/-- The environment of a call: `upper` is the Unicode upper-case table behind `strings.ToUpper`,
`now` the reading of `time.Now()` in nanoseconds since the zero time (taken as constant during one
call), and `rrule s` the outcome of `rrule.StrToRRule(s)`: `none` for a parse error, otherwise the
rule's `Between(t0, t1, true)`, the occurrence instants in the closed window. -/
structure Runtime where
  upper : Char → Char
  now : Int
  rrule : String → Option (Int → Int → List Int)

/-! ## Recurrence-rule expansion (extended.go, lines 135–149) -/

/-- Go `time.Hour` in nanoseconds. -/
def Hour : Int := 3600000000000

/-- Go `t.Truncate(24*time.Hour)`: rounding down to a multiple of 24 hours since the zero time. -/
def truncateDay (t : Int) : Int := t - t % (24 * Hour)

/-- Go `t.Sub(t0)`: the difference as a `time.Duration`, saturating at the ends of the 64-bit
range. -/
def timeSub (t t0 : Int) : Int :=
  if t - t0 < -(2 ^ 63) then -(2 ^ 63) else if t - t0 > 2 ^ 63 - 1 then 2 ^ 63 - 1 else t - t0

/-- Go `int(x)` for a number `x`: truncation toward zero. -/
def truncToInt (x : ℚ) : Int := if 0 ≤ x then ⌊x⌋ else ⌈x⌉

/-- Go `int(d.Hours()/24.0 + 0.00001)` for a duration of `d` nanoseconds, in exact arithmetic. -/
def dayOffset (d : Int) : Int := truncToInt ((d : ℚ) / (Hour : ℚ) / 24 + 1 / 100000)

/-- Go `expandScheduleRRULE` (extended.go, lines 135–149). -/
def expandScheduleRRULE (rt : Runtime) (sch : Schedule) (cycleDays : Int) : List Int :=
  if TrimSpace sch.RRule = "" then []
  else
    let start := truncateDay rt.now
    match rt.rrule sch.RRule with
    | none => []
    | some r =>
      let t0 := start
      let t1 := start + wrapInt64 (wrapInt64 (cycleDays * 24) * Hour)
      let occ := r t0 t1
      occ.filterMap (fun t =>
        let d := dayOffset (timeSub t t0)
        if d ≥ 0 ∧ d < cycleDays then some d else none)

/-! ## Active days of an account, as each caller computes them -/

/-- The active days of an account in `buildEmbedding` (main.go, lines 279–285). -/
def buildEmbedding_activeDays (rt : Runtime) (sch : Schedule) (cycleDays : Int) : List Int :=
  let activeDays := expandSchedule rt.upper sch cycleDays
  if activeDays.length = 0 then
    let more := expandScheduleRRULE rt sch cycleDays
    if more.length > 0 then more else activeDays
  else activeDays

/-- The active days of an account in `heatmapFor` (extended.go, lines 163–166). -/
def heatmapFor_active (rt : Runtime) (sch : Schedule) (cycle : Int) : List Int :=
  let active := expandSchedule rt.upper sch cycle
  if active.length = 0 then
    let more := expandScheduleRRULE rt sch cycle
    if more.length > 0 then more else active
  else active

/-- The active days of an account in `naiveSim` (extended.go, lines 284–285). -/
def naiveSim_ds (rt : Runtime) (sch : Schedule) (cycle : Int) : List Int :=
  let ds := expandSchedule rt.upper sch cycle
  if ds.length = 0 then expandScheduleRRULE rt sch cycle else ds

/-! ## Embedding core (main.go, lines 245–337 and 378–412) -/

section Numeric

variable {F : Type} [LinearOrderedField F]

/-- Go `normalize` (main.go, lines 378–383). -/
def normalize (x min max : F) : F :=
  if max ≤ min then 0
  else
    let t := (x - min) / (max - min)
    if t < 0 then 0 else if t > 1 then 1 else t

/-- Go `clamp` (main.go, line 384). -/
def clamp (x a b : F) : F := if x < a then a else if x > b then b else x

/-- The program's own `max` on `int` (main.go, line 412). -/
def goMax (a b : Int) : Int := if a > b then a else b

/-- Go `phShift` (main.go, lines 386–390). -/
def phShift (m : MathFns F) (latN lngN : F) (day cycle : Int) : F :=
  let phiSpace := (latN - 1 / 2) * m.Pi + (lngN - 1 / 2) * m.Pi
  let phiDay := 2 * m.Pi * (day : F) / ((goMax 1 cycle : Int) : F)
  phiSpace + phiDay

/-- Go `frequencyForLevel` (main.go, lines 391–395); `level - 5` is computed in `int`. In
`float64` the power overflows to `+Inf` for a shift of 1024 or more and the result is then 0. -/
def frequencyForLevel (m : MathFns F) (base : F) (level : Int) : F :=
  let shift : F := ((wrapInt64 (level - 5) : Int) : F)
  let scale := m.Pow 2 shift
  base / scale

/-- Go `amplitude` (main.go, line 396). -/
def amplitude (norm overshoot : F) : F := clamp (norm * (1 + overshoot)) 0 (1 + overshoot)

/-- Go `superimpose` (main.go, lines 397–406); the updated vector is returned. -/
def superimpose (m : MathFns F) (vec : List F) (amp baseFreq : F) (h3Levels : List Int)
    (phi : F) : List F :=
  let n : F := (vec.length : F)
  if n = 0 ∨ amp = 0 then vec
  else
    h3Levels.foldl (fun v lvl =>
      let f := frequencyForLevel m baseFreq lvl
      v.mapIdx (fun i x =>
        let theta := 2 * m.Pi * f * ((i : F) / n) + phi
        x + amp * m.Sin theta)) vec

/-- Go `l2Normalize` (main.go, lines 407–411); the updated vector is returned. -/
def l2Normalize (m : MathFns F) (v : List F) : List F :=
  let ss := v.foldl (fun s x => s + x * x) 0
  if ss = 0 then v
  else
    let inv := 1 / m.Sqrt ss
    v.map (fun x => x * inv)

/-- Go `make([]float64, n)`: a vector of `n` zeros; a negative length is a run-time panic. -/
def makeZeros (n : Int) : Option (List F) :=
  if n < 0 then none else some (List.replicate n.toNat 0)

/-- The parameters after the fall-back to the server defaults (main.go, lines 246–254). -/
def resolveParams (cfg : ServerConfig F) (p : EmbeddingParams) : EmbeddingParams :=
  { ResServiceStopTime :=
      if p.ResServiceStopTime = 0 then cfg.Embedding.Resolutions.ServiceStopTime
      else p.ResServiceStopTime
    ResServiceWindowStart :=
      if p.ResServiceWindowStart = 0 then cfg.Embedding.Resolutions.ServiceWindowStart
      else p.ResServiceWindowStart
    ResServiceWindowDuration :=
      if p.ResServiceWindowDuration = 0 then cfg.Embedding.Resolutions.ServiceWindowDuration
      else p.ResServiceWindowDuration
    ResPinnedAccounts :=
      if p.ResPinnedAccounts = 0 then cfg.Embedding.Resolutions.PinnedAccounts
      else p.ResPinnedAccounts
    ResAgentsAvailable :=
      if p.ResAgentsAvailable = 0 then cfg.Embedding.Resolutions.AgentsAvailable
      else p.ResAgentsAvailable
    ResAgentStartLocations :=
      if p.ResAgentStartLocations = 0 then cfg.Embedding.Resolutions.AgentStartLocations
      else p.ResAgentStartLocations
    H3Levels := if p.H3Levels.length = 0 then cfg.Embedding.H3Levels else p.H3Levels
    CycleDays := if p.CycleDays = 0 then cfg.Embedding.CycleDays else p.CycleDays }

/-- The five channel vectors the loop over the accounts updates. -/
structure AccountVecs (F : Type) where
  stopTimeVec : List F
  winStartVec : List F
  winDurVec : List F
  pinnedVec : List F
  agentsAvailVec : List F

/-- One iteration of the loop over `sc.Agents` (main.go, lines 259–264). -/
def buildEmbedding_agent (m : MathFns F) (p : EmbeddingParams) (overshoot baseFreq : F)
    (agentVec : List F) (ag : Agent F) : List F :=
  let latN := normalize ag.Lat (-90) 90
  let lngN := normalize ag.Lng (-180) 180
  let phi := phShift m latN lngN 0 p.CycleDays
  superimpose m agentVec (amplitude 1 overshoot) baseFreq p.H3Levels phi

/-- One iteration of the loop over `sc.Accounts` (main.go, lines 276–304); `nAgents` is
`len(sc.Agents)`. -/
def buildEmbedding_account (m : MathFns F) (rt : Runtime) (p : EmbeddingParams)
    (overshoot baseFreq : F) (nAgents : Nat) (maxAgents : Int) (vs : AccountVecs F)
    (acc : Account F) : AccountVecs F :=
  let latN := normalize acc.Lat (-90) 90
  let lngN := normalize acc.Lng (-180) 180
  let activeDays := buildEmbedding_activeDays rt acc.Schedule p.CycleDays
  let stAmp := clamp (acc.EstimatedServiceMinutes / 200) 0 1
  let swStartAmp := clamp (acc.ServiceWindowStartMin / 1440) 0 1
  let swDurAmp := clamp (acc.ServiceWindowDurationMin / 1440) 0 1
  let pinnedAmp : F := if TrimSpace acc.PinnedAgentID ≠ "" then 1 else 0
  let avail0 := acc.AgentsAvailableRatio
  let avail1 := if avail0 ≤ 0 then (nAgents : F) / (maxAgents : F) else avail0
  let avail := clamp avail1 0 1
  activeDays.foldl (fun v day =>
    let phi := phShift m latN lngN day p.CycleDays
    { stopTimeVec := superimpose m v.stopTimeVec (amplitude stAmp overshoot) baseFreq p.H3Levels phi
      winStartVec :=
        superimpose m v.winStartVec (amplitude swStartAmp overshoot) baseFreq p.H3Levels phi
      winDurVec := superimpose m v.winDurVec (amplitude swDurAmp overshoot) baseFreq p.H3Levels phi
      pinnedVec := superimpose m v.pinnedVec (amplitude pinnedAmp overshoot) baseFreq p.H3Levels phi
      agentsAvailVec :=
        superimpose m v.agentsAvailVec (amplitude avail overshoot) baseFreq p.H3Levels phi }) vs

/-- The closure `appendWithOffset` (main.go, lines 311–313) on the pair of the flat vector and
the offset map. -/
def appendWithOffset (st : List F × List (String × (Int × Int))) (name : String) (v : List F) :
    List F × List (String × (Int × Int)) :=
  let start := st.1.length
  let embedding := st.1 ++ v
  let stop := embedding.length
  (embedding, st.2 ++ [(name, ((start : Int), (stop : Int)))])

/-- The assembly of the result from the six normalised channel vectors (main.go, lines
309–336). -/
def buildEmbedding_result (p : EmbeddingParams)
    (stopTimeVec winStartVec winDurVec pinnedVec agentsAvailVec agentVec : List F) :
    EmbeddingResult F :=
  let s0 : List F × List (String × (Int × Int)) := ([], [])
  let s1 := appendWithOffset s0 "service_stop_time" stopTimeVec
  let s2 := appendWithOffset s1 "service_window_start" winStartVec
  let s3 := appendWithOffset s2 "service_window_duration" winDurVec
  let s4 := appendWithOffset s3 "pinned_accounts" pinnedVec
  let s5 := appendWithOffset s4 "agents_available" agentsAvailVec
  let s6 := appendWithOffset s5 "agent_start_locations" agentVec
  let components : List (String × List F) :=
    [("service_stop_time", stopTimeVec), ("service_window_start", winStartVec),
      ("service_window_duration", winDurVec), ("pinned_accounts", pinnedVec),
      ("agents_available", agentsAvailVec), ("agent_start_locations", agentVec)]
  let meta : EmbeddingMeta :=
    { h3_levels := p.H3Levels
      cycle_days := p.CycleDays
      order := ["service_stop_time", "service_window_start", "service_window_duration",
        "pinned_accounts", "agents_available", "agent_start_locations"] }
  { Embedding := s6.1, Components := components, Offsets := s6.2, Meta := meta }

/-- Go `buildEmbedding` (main.go, lines 245–337). -/
def buildEmbedding (m : MathFns F) (rt : Runtime) (cfg : ServerConfig F) (sc : Scenario F) :
    Option (EmbeddingResult F) := do
  let p := resolveParams cfg sc.Params
  let overshoot := cfg.Embedding.Overshoot
  let baseFreq := cfg.Embedding.BaseFrequency
  let agentVec0 ← makeZeros p.ResAgentStartLocations
  let agentVec1 := sc.Agents.foldl (buildEmbedding_agent m p overshoot baseFreq) agentVec0
  let agentVec := l2Normalize m agentVec1
  let pinnedVec0 ← makeZeros p.ResPinnedAccounts
  let agentsAvailVec0 ← makeZeros p.ResAgentsAvailable
  let stopTimeVec0 ← makeZeros p.ResServiceStopTime
  let winStartVec0 ← makeZeros p.ResServiceWindowStart
  let winDurVec0 ← makeZeros p.ResServiceWindowDuration
  let maxAgents :=
    if sc.Globals.MaxAgents ≤ 0 then goMax 1 sc.Agents.length else sc.Globals.MaxAgents
  let vs := sc.Accounts.foldl
    (buildEmbedding_account m rt p overshoot baseFreq sc.Agents.length maxAgents)
    ⟨stopTimeVec0, winStartVec0, winDurVec0, pinnedVec0, agentsAvailVec0⟩
  let stopTimeVec := l2Normalize m vs.stopTimeVec
  let winStartVec := l2Normalize m vs.winStartVec
  let winDurVec := l2Normalize m vs.winDurVec
  let pinnedVec := l2Normalize m vs.pinnedVec
  let agentsAvailVec := l2Normalize m vs.agentsAvailVec
  pure (buildEmbedding_result p stopTimeVec winStartVec winDurVec pinnedVec agentsAvailVec
    agentVec)

/-! ## Naive route simulation (extended.go, lines 275–343) -/

/-- The local type `veh` of `naiveSim`. -/
structure veh (F : Type) where
  lat : F
  lng : F
  drive : F
  service : F

structure SimStats (F : Type) where
  DrivingSec : List F
  ServiceSec : List F
  RepsUsed : List Int
  Unassigned : Int
  TotalTravelSec : F
  TotalServiceSec : F
  TotalIdleSec : F

/-- Go `havKM` (extended.go, lines 337–343), in the arithmetic of `F`. In `float64` the rounded
haversine term can fall outside `[0, 1]`, and `math.Sqrt` or `math.Asin` then returns NaN, which
no scalar of `F` stands for. -/
def havKM (m : MathFns F) (lat1 lon1 lat2 lon2 : F) : F :=
  let R : F := 6371
  let dLat := (lat2 - lat1) * m.Pi / 180
  let dLon := (lon2 - lon1) * m.Pi / 180
  let a := m.Sin (dLat / 2) * m.Sin (dLat / 2) +
    m.Cos (lat1 * m.Pi / 180) * m.Cos (lat2 * m.Pi / 180) * m.Sin (dLon / 2) * m.Sin (dLon / 2)
  2 * R * m.Asin (m.Sqrt a)

/-- The search for the nearest vehicle (extended.go, lines 291–295): the pair `(best, bestD)`
after the loop over the vehicle indices, started at `(0, 1e18)`. -/
def naiveSim_nearest (m : MathFns F) (vs : List (veh F)) (acc : Account F) : Nat × F :=
  vs.enum.foldl (fun b iv =>
    let d := havKM m iv.2.lat iv.2.lng acc.Lat acc.Lng
    if d < b.2 then (iv.1, d) else b) (0, 1000000000000000000)

/-- One iteration of the loop over the active accounts (extended.go, lines 289–300) on the
vehicle list; indexing `vs[best]` out of range is a run-time panic. -/
def naiveSim_assign (m : MathFns F) (vs : List (veh F)) (acc : Account F) :
    Option (List (veh F)) :=
  let speedKmh : F := 50
  let toSec := fun (km : F) => km / speedKmh * 3600
  let b := naiveSim_nearest m vs acc
  match vs[b.1]? with
  | none => none
  | some v =>
    some (vs.set b.1
      { lat := acc.Lat
        lng := acc.Lng
        drive := v.drive + toSec b.2
        service := v.service + clamp (acc.EstimatedServiceMinutes / 200) 0 1 * 200 * 60 })

/-- The accounts `naiveSim` serves on `day` (extended.go, lines 281–287), in input order. -/
def naiveSim_accs (rt : Runtime) (sc : Scenario F) (day : Int) : List (Account F) :=
  let cycle := if sc.Params.CycleDays = 0 then 28 else sc.Params.CycleDays
  sc.Accounts.filter (fun a => (naiveSim_ds rt a.Schedule cycle).contains day)

/-- Go `naiveSim` (extended.go, lines 275–313). -/
def naiveSim (m : MathFns F) (rt : Runtime) (sc : Scenario F) (day : Int) :
    Option (SimStats F) :=
  let vs0 : List (veh F) := sc.Agents.map (fun ag => ⟨ag.Lat, ag.Lng, 0, 0⟩)
  let accs := naiveSim_accs rt sc day
  match accs.foldlM (fun (st : List (veh F) × Int) acc =>
      (naiveSim_assign m st.1 acc).map (fun vs => (vs, st.2 + 1))) (vs0, 0) with
  | none => none
  | some (vs, assigned) =>
    some
      { DrivingSec := vs.map (fun v => v.drive)
        ServiceSec := vs.map (fun v => v.service)
        RepsUsed := [(sc.Agents.length : Int)]
        Unassigned := goMax 0 ((sc.Accounts.length : Int) - assigned)
        TotalTravelSec := vs.foldl (fun t v => t + v.drive) 0
        TotalServiceSec := vs.foldl (fun t v => t + v.service) 0
        TotalIdleSec := 0 }

end Numeric

/-! ## Vector store (extended.go, lines 83–132 and 367–374) -/

section Search

variable {F : Type} [LinearOrderedField F]

/-- Go `SearchHit` (extended.go, line 83). -/
structure SearchHit (F : Type) where
  Ref : String
  Distance : F

/-- A row of the table `embeddings` as `saveEmbedding` writes it; `vector_json` is the decoded
column, `none` when its text does not decode to a `[]float64`. -/
structure EmbeddingRow (F : Type) where
  id : String
  scenario_id : String
  dim : Int
  vector_json : Option (List F)
  created_at : String

/-- The database behind `s.db`, as far as `searchSimilar` reads it: `vecQuery dim query k` is the
outcome of the sqlite-vec statement on table `vec_embeddings_<dim>` (`none` for a query error,
otherwise the scanned rows `(rowid, d)`), and `embeddings` is the outcome of reading the table
`embeddings` (an error, or its rows in the order the driver returns them). -/
structure DB (F : Type) where
  vecQuery : Int → List F → Int → Option (List (Int × F))
  embeddings : Except String (List (EmbeddingRow F))

/-- The call `sort.Slice(buf, func(i, j int) bool { return buf[i].d < buf[j].d })` with the
contract of `sort.Slice`: the result is a rearrangement of the slice in which no element is
smaller than an earlier one; the order of equal elements is not specified. -/
structure SliceSorter (F : Type) [LinearOrderedField F] where
  sort : List (String × F) → List (String × F)
  perm : ∀ l, (sort l).Perm l
  sorted : ∀ l, (sort l).Pairwise (fun a b => a.2 ≤ b.2)

/-- Go `l2NormalizeCopy` (extended.go, line 130). -/
def l2NormalizeCopy (m : MathFns F) (v : List F) : List F :=
  let out := v
  let ss := out.foldl (fun s x => s + x * x) 0
  if ss = 0 then out
  else
    let inv := 1 / m.Sqrt ss
    out.map (fun x => x * inv)

/-- The loop `for i := range a { dot += a[i]*b[i] }` of `cosineDistance`, started with the
accumulator `dot`; indexing `b` beyond its end is a run-time panic. -/
def cosineDistance_loop : F → List F → List F → Option F
  | dot, [], _ => some dot
  | _, _ :: _, [] => none
  | dot, x :: xs, y :: ys => cosineDistance_loop (dot + x * y) xs ys

/-- Go `cosineDistance` (extended.go, line 131). -/
def cosineDistance (a b : List F) : Option F :=
  (cosineDistance_loop 0 a b).map (fun dot => 1 - dot)

/-- Go `minInt` (extended.go, line 132). -/
def minInt (a b : Int) : Int := if a < b then a else b

/-- The index path of `searchSimilar` (extended.go, lines 88–105): `none` is the panic of
`strings.Repeat` on a negative count, `some none` means that the path yields nothing (query
error or no row) and the fallback runs, `some (some out)` is the returned list. -/
def searchSimilar_index (db : DB F) (dim : Int) (query : List F) (k : Int) :
    Option (Option (List (SearchHit F))) :=
  let table := "vec_embeddings_" ++ toString dim
  if wrapInt64 (dim - 1) < 0 then none
  else
    match db.vecQuery dim query k with
    | none => some none
    | some rows =>
      let out := rows.map (fun r => (⟨table ++ ":" ++ toString r.1, r.2⟩ : SearchHit F))
      if out.length > 0 then some (some out) else some none

/-- One iteration of the loop over the rows of the fallback query (extended.go, lines 112–122)
on the buffer `buf`. -/
def searchSimilar_row (m : MathFns F) (dim : Int) (qn : List F) (buf : List (String × F))
    (row : EmbeddingRow F) : Option (List (String × F)) :=
  match row.vector_json with
  | none => some buf
  | some v =>
    if (v.length : Int) = dim then
      let vn := l2NormalizeCopy m v
      (cosineDistance qn vn).map (fun d => buf ++ [(row.id, d)])
    else some buf

/-- The fallback path of `searchSimilar` (extended.go, lines 106–126), `k` being the limit after
its defaulting; `none` is a run-time panic. -/
def searchSimilar_fallback (db : DB F) (sorter : SliceSorter F) (m : MathFns F) (dim : Int)
    (query : List F) (k : Int) : Option (Except String (List (SearchHit F))) :=
  match db.embeddings with
  | .error err2 => some (.error err2)
  | .ok table =>
    let rows2 := table.filter (fun row => row.dim == dim)
    let qn := l2NormalizeCopy m query
    match rows2.foldlM (searchSimilar_row m dim qn) [] with
    | none => none
    | some buf =>
      let sorted := sorter.sort buf
      let out := (sorted.take (minInt k buf.length).toNat).map
        (fun e => (⟨e.1, e.2⟩ : SearchHit F))
      some (.ok out)

/-- Go `searchSimilar` (extended.go, lines 85–127); `s.db` is `none` when it is nil. -/
def searchSimilar (db : Option (DB F)) (sorter : SliceSorter F) (m : MathFns F) (dim : Int)
    (query : List F) (k : Int) : Option (Except String (List (SearchHit F))) :=
  match db with
  | none => some (.error "db not initialized")
  | some db =>
    let k := if k ≤ 0 then 5 else k
    match searchSimilar_index db dim query k with
    | none => none
    | some (some out) => some (.ok out)
    | some none => searchSimilar_fallback db sorter m dim query k

/-- The reply of `handleSearch`: an error status with its message, or status 200 with the
hits. -/
inductive SearchReply (F : Type) where
  | failure (code : Int) (msg : String)
  | hits (hs : List (SearchHit F))

/-- Go `handleSearch` (extended.go, lines 367–374) on a decoded POST request with the fields
`vector` and `k`; `none` is a run-time panic inside the handler. -/
def handleSearch (db : Option (DB F)) (sorter : SliceSorter F) (m : MathFns F)
    (vector : List F) (k : Int) : Option (SearchReply F) :=
  match searchSimilar db sorter m vector.length vector k with
  | none => none
  | some (.error err) => some (.failure 500 err)
  | some (.ok hits) => some (.hits hits)

end Search

/-! ## Heatmap aggregation (extended.go, lines 151–199) -/

section Heatmap

variable {F : Type} [LinearOrderedField F]

/-- Go `HeatCell` (extended.go, lines 152–157). -/
structure HeatCell (F : Type) where
  H3Index : String
  Lat : F
  Lng : F
  Value : F

/-- The functions of the library `h3-go` that `heatmapFor` calls, a cell being its 64-bit index:
`LatLngToCell lat lng res` is `h3.LatLngToCell(h3.LatLng{Lat: lat, Lng: lng}, res)`, `CellString`
is `Cell.String`, `UnmarshalText` is `Cell.UnmarshalText` (`none` when it returns an error) and
`CellToLatLng` is `h3.CellToLatLng`, as the pair of latitude and longitude. -/
structure H3Lib (F : Type) where
  LatLngToCell : F → F → Int → Nat
  CellString : Nat → String
  UnmarshalText : String → Option Nat
  CellToLatLng : Nat → F × F

/-- The order in which `for hex, v := range m` visits the entries of a map, given the entries in
insertion order: some rearrangement of them, not specified by the language. -/
structure MapRange (F : Type) where
  order : List (String × F) → List (String × F)
  perm : ∀ l, (order l).Perm l

/-- The statement `m[h] += amp` on a `map[string]float64` kept as an association list in
insertion order: an absent key is inserted with `0 + amp`. -/
def mapAdd (m : List (String × F)) (h : String) (amp : F) : List (String × F) :=
  match m with
  | [] => [(h, 0 + amp)]
  | (k, v) :: rest => if k = h then (k, v + amp) :: rest else (k, v) :: mapAdd rest h amp

/-- The `switch feature` of `heatmapFor` (extended.go, lines 169–185): the amplitude of the
account, `none` for the `default` branch (`continue`). -/
def heatmapFor_amp (sc : Scenario F) (acc : Account F) (feature : String) : Option F :=
  if feature = "service_stop_time" then some (clamp (acc.EstimatedServiceMinutes / 200) 0 1)
  else if feature = "service_window_start" then
    some (clamp (acc.ServiceWindowStartMin / 1440) 0 1)
  else if feature = "service_window_duration" then
    some (clamp (acc.ServiceWindowDurationMin / 1440) 0 1)
  else if feature = "pinned_accounts" then
    some (if TrimSpace acc.PinnedAgentID ≠ "" then 1 else 0)
  else if feature = "agents_available" then
    let avail0 := acc.AgentsAvailableRatio
    let avail1 :=
      if avail0 ≤ 0 then
        let maxAgents :=
          if sc.Globals.MaxAgents ≤ 0 then goMax 1 sc.Agents.length else sc.Globals.MaxAgents
        (sc.Agents.length : F) / (maxAgents : F)
      else avail0
    some (clamp avail1 0 1)
  else none

/-- One iteration of the loop over `sc.Accounts` in `heatmapFor` (extended.go, lines 162–188)
on the map `m`. -/
def heatmapFor_account (rt : Runtime) (h3 : H3Lib F) (sc : Scenario F) (feature : String)
    (day h3Level cycle : Int) (m : List (String × F)) (acc : Account F) : List (String × F) :=
  let active := heatmapFor_active rt acc.Schedule cycle
  let ok := active.contains day
  if !ok then m
  else
    match heatmapFor_amp sc acc feature with
    | none => m
    | some amp =>
      let h := h3.CellString (h3.LatLngToCell acc.Lat acc.Lng h3Level)
      mapAdd m h amp

/-- Go `heatmapFor` (extended.go, lines 159–199). -/
def heatmapFor (rt : Runtime) (h3 : H3Lib F) (rng : MapRange F) (cfg : ServerConfig F)
    (sc : Scenario F) (feature : String) (day h3Level : Int) : List (HeatCell F) :=
  let cycle := if sc.Params.CycleDays = 0 then cfg.Embedding.CycleDays else sc.Params.CycleDays
  let m := sc.Accounts.foldl (heatmapFor_account rt h3 sc feature day h3Level cycle) []
  (rng.order m).filterMap (fun e =>
    match h3.UnmarshalText e.1 with
    | none => none
    | some cell =>
      let geo := h3.CellToLatLng cell
      some { H3Index := e.1, Lat := geo.1, Lng := geo.2, Value := e.2 })

end Heatmap


/-! ## The feature vector of a simulation (extended.go, lines 315–335) -/

section FeatureVector

variable {F : Type} [LinearOrderedField F] [FloorRing F]

/-- Go `sort.Float64s`: the values in ascending order. -/
def sortFloat64s (vals : List F) : List F := vals.insertionSort (fun a b => a ≤ b)

/-- Go `int(x)` for a `float64` `x`: truncation toward zero. -/
def truncFloat (x : F) : Int := if 0 ≤ x then ⌊x⌋ else ⌈x⌉

/-- Go `cp[i]` for a Go `int` index `i`; `none` is the index-out-of-range panic. -/
def sliceAt (cp : List F) (i : Int) : Option F := if 0 ≤ i then cp[i.toNat]? else none

/-- Go closure `p` inside `push` of `simToVector` (extended.go, lines 322–326), on the sorted
copy `cp`. -/
def simToVector_p (cp : List F) (q : F) : Option F :=
  if cp.length = 1 then sliceAt cp 0
  else
    let n : F := (cp.length : F)
    let pos := q * (n - 1)
    let i := truncFloat pos
    if i ≥ (cp.length : Int) - 1 then sliceAt cp ((cp.length : Int) - 1)
    else do
      let f := pos - (i : F)
      let a ← sliceAt cp i
      let b ← sliceAt cp (i + 1)
      some (a * (1 - f) + b * f)

/-- Go closure `push` of `simToVector` (extended.go, lines 317–328): the block it appends to
`out`. -/
def simToVector_push (vals : List F) : Option (List F) :=
  if vals.length = 0 then some (List.replicate 6 0)
  else
    let cp := sortFloat64s vals
    let n : F := (cp.length : F)
    let sum := cp.foldl (fun s v => s + v) 0
    let avg := sum / n
    do
      let minv ← sliceAt cp 0
      let maxv ← sliceAt cp ((cp.length : Int) - 1)
      let p50 ← simToVector_p cp (1 / 2)
      let p75 ← simToVector_p cp (3 / 4)
      let p95 ← simToVector_p cp (19 / 20)
      some [minv, maxv, avg, p50, p75, p95]

/-- Go `simToVector` (extended.go, lines 315–335). -/
def simToVector (stats : SimStats F) : Option (List F) := do
  let b1 ← simToVector_push stats.DrivingSec
  let b2 ← simToVector_push stats.ServiceSec
  let b3 ← simToVector_push (stats.RepsUsed.map (fun x => (x : F)))
  let b4 ← simToVector_push [(stats.Unassigned : F)]
  some (b1 ++ b2 ++ b3 ++ b4 ++
    [stats.TotalTravelSec, stats.TotalServiceSec, stats.TotalIdleSec, (stats.Unassigned : F)])

end FeatureVector

/-! ## The optimizer input (extended.go, lines 201–253) -/

section Vroom

variable {F : Type} [LinearOrderedField F] [FloorRing F]

/-- Go `VroomJob` (extended.go, lines 206–211); an absent `TimeWindows` is the empty list. -/
structure VroomJob (F : Type) where
  Id : Int
  Service : Int
  Location : List F
  TimeWindows : List (List Int)

/-- Go `VroomVehicle` (extended.go, lines 212–216). -/
structure VroomVehicle (F : Type) where
  Id : Int
  Start : List F
  End : List F

/-- Go `VroomInput` (extended.go, lines 202–205). -/
structure VroomInput (F : Type) where
  Jobs : List (VroomJob F)
  Vehicles : List (VroomVehicle F)

/-- The active days of an account in `buildVroom` (extended.go, lines 238–241). -/
def buildVroom_days (rt : Runtime) (sch : Schedule) (cycle : Int) : List Int :=
  let days := expandSchedule rt.upper sch cycle
  if days.length = 0 then
    let more := expandScheduleRRULE rt sch cycle
    if more.length > 0 then more else days
  else days

omit [FloorRing F] in
/-- The list `active` of `buildVroom` (extended.go, lines 235–243), in input order. -/
def buildVroom_active (rt : Runtime) (sc : Scenario F) (day : Int) : List (Account F) :=
  let cycle := if sc.Params.CycleDays = 0 then 28 else sc.Params.CycleDays
  sc.Accounts.filter (fun acc => (buildVroom_days rt acc.Schedule cycle).contains day)

/-- The job made of the `i`-th active account (extended.go, lines 244–253); the products by 60
are computed in `int`, and `int(x)` is the truncation of `x` (for an `x` in the range of
`int`). -/
def buildVroom_job (i : Nat) (acc : Account F) : VroomJob F :=
  let start := wrapInt64 (truncFloat acc.ServiceWindowStartMin * 60)
  let stop := wrapInt64
    (truncFloat (acc.ServiceWindowStartMin + acc.ServiceWindowDurationMin) * 60)
  { Id := (i : Int) + 1
    Service := wrapInt64 (truncFloat (clamp (acc.EstimatedServiceMinutes / 200) 0 1 * 200) * 60)
    Location := [acc.Lng, acc.Lat]
    TimeWindows := if stop > start then [[start, stop]] else [] }

/-- Go `buildVroom` (extended.go, lines 228–255). -/
def buildVroom (rt : Runtime) (sc : Scenario F) (day : Int) : VroomInput F :=
  { Vehicles := sc.Agents.enum.map (fun ia =>
      { Id := (ia.1 : Int) + 1, Start := [ia.2.Lng, ia.2.Lat], End := [ia.2.Lng, ia.2.Lat] })
    Jobs := (buildVroom_active rt sc day).enum.map (fun ia => buildVroom_job ia.1 ia.2) }

end Vroom
/-! ## Specification-side vocabulary -/

/-- The offsets `lo, lo + 1, …` below `hi`, in increasing order, that satisfy `keep`. -/
def offsetsFrom (lo hi : Int) (keep : Int → Bool) : List Int :=
  ((List.range (hi - lo).toNat).map (fun i : Nat => lo + (i : Int))).filter keep

/-- The type tag `MONTHLY_<n>`: the prefix followed by `n` in decimal. -/
def monthlyTag (n : Int) : String := "MONTHLY_" ++ toString n

/-- The instant 2026-01-05T00:00:00Z (a Monday): day 739620 since the zero time, in
nanoseconds. -/
def jan5 : Int := 739620 * (24 * Hour)

/-- A recurrence rule with a single occurrence, at `jan5`. -/
def oneShotRule : String := "DTSTART:20260105T000000Z\nRRULE:FREQ=DAILY;COUNT=1"

/-- An evaluator that knows the rule `oneShotRule`, whose only occurrence is the instant `jan5`,
and rejects every other string as a parse error. -/
def oneShotEvaluator (s : String) : Option (Int → Int → List Int) :=
  if s = oneShotRule then some (fun t0 t1 => if t0 ≤ jan5 ∧ jan5 ≤ t1 then [jan5] else [])
  else none

/-- The environment of a call made at the instant `now`, with the ASCII-only case table and the
evaluator `oneShotEvaluator`. -/
def runtimeAt (now : Int) : Runtime := ⟨fun c => c, now, oneShotEvaluator⟩

/-- The scenario of the specification's end-to-end example: one agent at (0,0) and one account
at (0,0) with a `WEEKLY` schedule anchored on Monday, 100 service minutes and a 7-day cycle. -/
def exampleScenario (F : Type) [LinearOrderedField F] : Scenario F :=
  { Name := "example"
    Agents := [⟨"agent-1", "agent", 0, 0, ⟨"", "", ""⟩⟩]
    Accounts := [⟨"account-1", "account", 0, 0, 100, 0, 0, "", 0, ⟨"WEEKLY", "Mon", ""⟩⟩]
    Globals := ⟨0, 0, 0, 0⟩
    Params := ⟨0, 0, 0, 0, 0, 0, [], 7⟩ }

/-- The documented order of the six channels in the flat vector. -/
def channelOrder : List String :=
  ["service_stop_time", "service_window_start", "service_window_duration",
    "pinned_accounts", "agents_available", "agent_start_locations"]

/-- A server configuration for the examples: 28 cycle days, the reference level 5, four entries
per channel, no overshoot and base frequency 1. -/
def exampleConfig (F : Type) [LinearOrderedField F] : ServerConfig F :=
  { Embedding :=
      { CycleDays := 28
        H3Levels := [5]
        Resolutions := ⟨4, 4, 4, 4, 4, 4⟩
        Overshoot := 0
        BaseFrequency := 1 } }

/-- A server configuration without default dimensions: cycle of 4 days, the reference level 5,
no overshoot and base frequency 1. -/
def bareConfig (F : Type) [LinearOrderedField F] : ServerConfig F :=
  { Embedding :=
      { CycleDays := 4
        H3Levels := [5]
        Resolutions := ⟨0, 0, 0, 0, 0, 0⟩
        Overshoot := 0
        BaseFrequency := 1 } }

/-- A scenario whose single account, at (0,0) with 200 service minutes, is scheduled by the raw
rule `oneShotRule` and has no type tag; only the service-stop-time channel is requested, with one
entry. -/
def rruleScenario (F : Type) [LinearOrderedField F] : Scenario F :=
  { Name := "rrule"
    Agents := []
    Accounts := [⟨"account-1", "account", 0, 0, 200, 0, 0, "", 0, ⟨"", "", oneShotRule⟩⟩]
    Globals := ⟨0, 0, 0, 0⟩
    Params := ⟨1, 0, 0, 0, 0, 0, [], 0⟩ }

section SearchVocabulary

variable {F : Type} [LinearOrderedField F]

/-- The dot product of two vectors. -/
def dot (a b : List F) : F := (List.zipWith (fun x y => x * y) a b).sum

/-- The stored vectors of length `dim`, with the identifiers of their rows, in table order. -/
def storedVectors (table : List (EmbeddingRow F)) (dim : Int) : List (String × List F) :=
  table.filterMap (fun row =>
    match row.vector_json with
    | some v => if (v.length : Int) = dim then some (row.id, v) else none
    | none => none)

/-- The distances as the fallback loop computes them: for every stored vector of length `dim`
its identifier and `1 - dot(l2NormalizeCopy(query), l2NormalizeCopy(candidate))`, with the
program's own `l2NormalizeCopy`. -/
def bruteForce (m : MathFns F) (table : List (EmbeddingRow F)) (dim : Int) (query : List F) :
    List (String × F) :=
  (storedVectors table dim).map (fun c =>
    (c.1, 1 - dot (l2NormalizeCopy m query) (l2NormalizeCopy m c.2)))

/-- A sorter that meets the contract of `sort.Slice`: insertion sort by distance. -/
def insertionSorter (F : Type) [LinearOrderedField F] : SliceSorter F where
  sort := List.insertionSort (fun a b => a.2 ≤ b.2)
  perm := fun l => List.perm_insertionSort _ l
  sorted := fun l => by
    haveI : IsTotal (String × F) (fun a b => a.2 ≤ b.2) := ⟨fun a b => le_total a.2 b.2⟩
    haveI : IsTrans (String × F) (fun a b => a.2 ≤ b.2) := ⟨fun _ _ _ h₁ h₂ => le_trans h₁ h₂⟩
    exact List.sorted_insertionSort _ l

/-- A table `embeddings` with the three vectors `[1,0]`, `[0,1]` and `[1,1,1]`. -/
def exampleTable (F : Type) [LinearOrderedField F] : List (EmbeddingRow F) :=
  [⟨"e1", "s1", 2, some [1, 0], "2026-01-05T00:00:00Z"⟩,
   ⟨"e2", "s1", 2, some [0, 1], "2026-01-05T00:00:00Z"⟩,
   ⟨"e3", "s2", 3, some [1, 1, 1], "2026-01-05T00:00:00Z"⟩]

/-- A database without a usable similarity index that stores `exampleTable`. -/
def exampleDB (F : Type) [LinearOrderedField F] : DB F where
  vecQuery := fun _ _ _ => none
  embeddings := .ok (exampleTable F)

end SearchVocabulary

section HeatmapVocabulary

variable {F : Type} [LinearOrderedField F]

/-- The five feature names `heatmapFor` recognises. -/
def recognisedFeatures : List String :=
  ["service_stop_time", "service_window_start", "service_window_duration", "pinned_accounts",
    "agents_available"]

/-- The raw clamped amplitude of a feature for an account, in the words of the specification:
`clamp(minutes/200,0,1)`, `clamp(start/1440,0,1)`, `clamp(duration/1440,0,1)`, `pinned ? 1 : 0`
and `clamp(availability ratio,0,1)`, the ratio being the account's own when it is positive and
`len(agents)/maxAgents` otherwise; 0 for any other name. -/
def featureAmplitude (sc : Scenario F) (feature : String) (acc : Account F) : F :=
  if feature = "service_stop_time" then clamp (acc.EstimatedServiceMinutes / 200) 0 1
  else if feature = "service_window_start" then clamp (acc.ServiceWindowStartMin / 1440) 0 1
  else if feature = "service_window_duration" then
    clamp (acc.ServiceWindowDurationMin / 1440) 0 1
  else if feature = "pinned_accounts" then (if TrimSpace acc.PinnedAgentID ≠ "" then 1 else 0)
  else if feature = "agents_available" then
    clamp (if acc.AgentsAvailableRatio ≤ 0 then
        (sc.Agents.length : F) /
          ((if sc.Globals.MaxAgents ≤ 0 then goMax 1 sc.Agents.length
            else sc.Globals.MaxAgents : Int) : F)
      else acc.AgentsAvailableRatio) 0 1
  else 0

/-- The accounts of a scenario that are active on `day` in `heatmapFor`, in input order. -/
def heatmapAccounts (rt : Runtime) (cfg : ServerConfig F) (sc : Scenario F) (day : Int) :
    List (Account F) :=
  sc.Accounts.filter (fun a =>
    (heatmapFor_active rt a.Schedule
      (if sc.Params.CycleDays = 0 then cfg.Embedding.CycleDays else sc.Params.CycleDays)).contains
      day)

/-- The cell identifier of an account at a resolution. -/
def cellOf (h3 : H3Lib F) (h3Level : Int) (acc : Account F) : String :=
  h3.CellString (h3.LatLngToCell acc.Lat acc.Lng h3Level)

/-- A map iteration that visits the entries in insertion order. -/
def insertionOrder (F : Type) : MapRange F where
  order := fun l => l
  perm := fun l => List.Perm.refl l

/-- A one-cell model of `h3-go`: at the resolutions 0 to 15 every coordinate lies in the cell
with index 1, whose centre is (0,0); an out-of-range resolution gives the null index 0, and
`UnmarshalText` rejects every text but that of the cell 1. -/
def oneCellH3 (F : Type) [LinearOrderedField F] : H3Lib F where
  LatLngToCell := fun _ _ res => if 0 ≤ res ∧ res ≤ 15 then 1 else 0
  CellString := fun c => toString c
  UnmarshalText := fun s => if s = "1" then some 1 else none
  CellToLatLng := fun _ => (0, 0)

end HeatmapVocabulary


/-! ## Vocabulary of the statements about the feature vector -/

section FeatureVectorVocabulary

variable {F : Type} [LinearOrderedField F] [FloorRing F]

/-- The linear-interpolation percentile of the statement: on ascending values `s` of length
`n`, `s[0]` if `n = 1`, and otherwise, with `pos = q * (n - 1)`, `i = ⌊pos⌋` and `f = pos - i`,
`s[n-1]` when `i ≥ n - 1` and `s[i] * (1 - f) + s[i+1] * f` when not. -/
def percentile (s : List F) (q : F) : F :=
  if s.length = 1 then s.getD 0 0
  else
    let pos := q * ((s.length : F) - 1)
    let i := ⌊pos⌋
    let f := pos - (i : F)
    if i ≥ (s.length : Int) - 1 then s.getD (s.length - 1) 0
    else s.getD i.toNat 0 * (1 - f) + s.getD (i.toNat + 1) 0 * f

end FeatureVectorVocabulary

/-- The example scenario with a negative dimension requested for the service-stop-time
channel. -/
def negativeDimScenario (F : Type) [LinearOrderedField F] : Scenario F :=
  { exampleScenario F with Params := ⟨-1, 0, 0, 0, 0, 0, [], 7⟩ }

/-! ## Vocabulary of the statements about the route simulation -/

section SimulationVocabulary

variable {F : Type} [LinearOrderedField F]

/-- The great-circle distance, in kilometres, from the current position of the vehicle `v` to
the account `acc`. -/
def distanceTo (m : MathFns F) (acc : Account F) (v : veh F) : F :=
  havKM m v.lat v.lng acc.Lat acc.Lng

/-- The vehicle `v` after serving the account `acc` from the distance `d`. -/
def served (acc : Account F) (v : veh F) (d : F) : veh F :=
  { lat := acc.Lat
    lng := acc.Lng
    drive := v.drive + d / 50 * 3600
    service := v.service + clamp (acc.EstimatedServiceMinutes / 200) 0 1 * 200 * 60 }

/-- The statistics `naiveSim` reports for the final vehicle list `vs`. -/
def statsOf (sc : Scenario F) (assigned : Int) (vs : List (veh F)) : SimStats F :=
  { DrivingSec := vs.map (fun v => v.drive)
    ServiceSec := vs.map (fun v => v.service)
    RepsUsed := [(sc.Agents.length : Int)]
    Unassigned := goMax 0 ((sc.Accounts.length : Int) - assigned)
    TotalTravelSec := vs.foldl (fun t v => t + v.drive) 0
    TotalServiceSec := vs.foldl (fun t v => t + v.service) 0
    TotalIdleSec := 0 }

end SimulationVocabulary

/-- The example scenario without its agent. -/
def noAgentScenario (F : Type) [LinearOrderedField F] : Scenario F :=
  { exampleScenario F with Agents := [] }

/-! ## Vocabulary of the statements about the agent channel and the active accounts -/

section AgentChannelVocabulary

variable {F : Type} [LinearOrderedField F]

/-- The day-0 phase of an agent in the words of the statement:
`(latN - 0.5) * π + (lngN - 0.5) * π`, with the normalised coordinates of the agent. -/
def agentPhase (m : MathFns F) (ag : Agent F) : F :=
  (normalize ag.Lat (-90) 90 - 1 / 2) * m.Pi + (normalize ag.Lng (-180) 180 - 1 / 2) * m.Pi

/-- The agent channel in the words of the statement: starting from zeros, every agent is
superimposed once with the amplitude `1 + overshoot` and its day-0 phase, and the result is
normalised. -/
def agentChannel (m : MathFns F) (cfg : ServerConfig F) (p : EmbeddingParams)
    (agents : List (Agent F)) : List F :=
  l2Normalize m (agents.foldl (fun v ag =>
    superimpose m v (1 + cfg.Embedding.Overshoot) cfg.Embedding.BaseFrequency p.H3Levels
      (agentPhase m ag)) (List.replicate p.ResAgentStartLocations.toNat 0))

/-- The agent channel as the loop of `buildEmbedding` computes it. -/
def agentChannelOfLoop (m : MathFns F) (cfg : ServerConfig F) (p : EmbeddingParams)
    (agents : List (Agent F)) : List F :=
  l2Normalize m (agents.foldl
    (buildEmbedding_agent m p cfg.Embedding.Overshoot cfg.Embedding.BaseFrequency)
    (List.replicate p.ResAgentStartLocations.toNat 0))

/-- The component of a result with the given name. -/
def componentOf (r : EmbeddingResult F) (name : String) : Option (List F) :=
  r.Components.lookup name

end AgentChannelVocabulary

/-- The example scenario with other accounts and globals: no account and a limit of three
agents. -/
def otherAccountsScenario (F : Type) [LinearOrderedField F] : Scenario F :=
  { exampleScenario F with Accounts := [], Globals := ⟨3, 0, 0, 0⟩ }

/-- The example configuration with the overshoot -2. -/
def negativeOvershootConfig (F : Type) [LinearOrderedField F] : ServerConfig F :=
  { Embedding := { (exampleConfig F).Embedding with Overshoot := -2 } }

/-- The example scenario without a cycle length of its own. -/
def zeroCycleScenario (F : Type) [LinearOrderedField F] : Scenario F :=
  { exampleScenario F with Params := ⟨0, 0, 0, 0, 0, 0, [], 0⟩ }

/-! ## Vocabulary of the statement about the fallback search -/

section NormalisedVocabulary

variable {F : Type} [LinearOrderedField F]

/-- The sum of the squares of the entries of a vector. -/
def sumSquares (v : List F) : F := (v.map (fun x => x ^ 2)).sum

/-- The L2-normalised vector, for a square-root function `sqrt`: every entry divided by the
norm `sqrt (sumSquares v)`; the zero vector is left as it is. -/
def unitVector (sqrt : F → F) (v : List F) : List F :=
  if sumSquares v = 0 then v else v.map (fun x => x / sqrt (sumSquares v))

/-- The brute-force list of the statement: for every stored vector of length `dim`, in table
order, its identifier and one minus the dot product of the normalised query and the normalised
vector. -/
def normalisedDistances (sqrt : F → F) (table : List (EmbeddingRow F)) (dim : Int)
    (query : List F) : List (String × F) :=
  (storedVectors table dim).map (fun c =>
    (c.1, 1 - dot (unitVector sqrt query) (unitVector sqrt c.2)))

end NormalisedVocabulary
/-! ## Lemmas on the counting loop -/

theorem forAppend_lt (hi : Int) (keep : Int → Bool) :
    ∀ (fuel : Nat) (d : Int), (hi - d).toNat ≤ fuel →
      forAppend (fun x => decide (x < hi)) keep fuel d = offsetsFrom d hi keep := by
  intro fuel
  induction fuel with
  | zero =>
    intro d h
    have h0 : (hi - d).toNat = 0 := Nat.le_zero.mp h
    simp [forAppend, offsetsFrom, h0]
  | succ k ih =>
    intro d h
    by_cases hd : d < hi
    · have hk : (hi - (d + 1)).toNat ≤ k := by omega
      have hs : (hi - d).toNat = (hi - (d + 1)).toNat + 1 := by omega
      have hmap : (List.range (hi - d).toNat).map (fun i : Nat => d + (i : Int)) =
          d :: (List.range (hi - (d + 1)).toNat).map (fun i : Nat => d + 1 + (i : Int)) := by
        rw [hs, List.range_succ_eq_map]
        simp only [List.map_cons, List.map_map]
        congr 1
        · simp
        · apply List.map_congr_left
          intro i _
          simp only [Function.comp, Nat.succ_eq_add_one]
          push_cast
          ring
      simp only [forAppend, hd, decide_True, if_true, ih (d + 1) hk]
      unfold offsetsFrom
      rw [hmap, List.filter_cons]
    · have h0 : (hi - d).toNat = 0 := by omega
      simp [forAppend, offsetsFrom, h0, hd]

theorem mem_offsetsFrom {lo hi : Int} {keep : Int → Bool} {x : Int} :
    x ∈ offsetsFrom lo hi keep ↔ lo ≤ x ∧ x < hi ∧ keep x = true := by
  unfold offsetsFrom
  simp only [List.mem_filter, List.mem_map, List.mem_range]
  constructor
  · rintro ⟨⟨i, hi', rfl⟩, hk⟩
    exact ⟨by omega, by omega, hk⟩
  · rintro ⟨h1, h2, hk⟩
    exact ⟨⟨(x - lo).toNat, by omega, by omega⟩, hk⟩

theorem offsetsFrom_sorted (lo hi : Int) (keep : Int → Bool) :
    (offsetsFrom lo hi keep).Pairwise (· < ·) := by
  unfold offsetsFrom
  apply List.Pairwise.filter
  rw [List.pairwise_map]
  exact (List.pairwise_lt_range _).imp (by intro a b h; omega)

theorem offsetsFrom_empty {lo hi : Int} (keep : Int → Bool) (h : hi ≤ lo) :
    offsetsFrom lo hi keep = [] := by
  have h0 : (hi - lo).toNat = 0 := by omega
  simp [offsetsFrom, h0]

/-! ## Lemmas on `expandSchedule` -/

theorem toUpper_WEEKLY (up : Char → Char) : ToUpper up "WEEKLY" = "WEEKLY" := rfl

theorem toUpper_BIWEEKLY_AC (up : Char → Char) : ToUpper up "BIWEEKLY_AC" = "BIWEEKLY_AC" := rfl

theorem toUpper_BIWEEKLY_BD (up : Char → Char) : ToUpper up "BIWEEKLY_BD" = "BIWEEKLY_BD" := rfl

theorem weekdayIndex_range (up : Char → Char) (anchor : String) :
    0 ≤ weekdayIndex up anchor ∧ weekdayIndex up anchor < 7 := by
  unfold weekdayIndex
  simp only []
  split_ifs <;> omega

theorem clampInt_range (x : Int) : 0 ≤ clampInt x 0 3 ∧ clampInt x 0 3 ≤ 3 := by
  unfold clampInt
  split_ifs <;> omega

theorem expandSchedule_WEEKLY_eq (up : Char → Char) (anchor rrule : String) (cycleDays : Int) :
    expandSchedule up ⟨"WEEKLY", anchor, rrule⟩ cycleDays =
      offsetsFrom 0 cycleDays (fun d => d.tmod 7 == weekdayIndex up anchor) := by
  have h1 : ¬ ("WEEKLY" = "" ∧ rrule ≠ "") := by rintro ⟨h, _⟩; exact absurd h (by decide)
  simp only [expandSchedule, h1, if_false, toUpper_WEEKLY, if_true]
  exact forAppend_lt cycleDays _ _ 0 (by simp)

theorem expandSchedule_AC_eq (up : Char → Char) (anchor rrule : String) (cycleDays : Int) :
    expandSchedule up ⟨"BIWEEKLY_AC", anchor, rrule⟩ cycleDays =
      offsetsFrom 0 cycleDays
        (fun d => (d.tdiv 7 == 0 || d.tdiv 7 == 2) && d.tmod 7 == weekdayIndex up anchor) := by
  have h1 : ¬ ("BIWEEKLY_AC" = "" ∧ rrule ≠ "") := by rintro ⟨h, _⟩; exact absurd h (by decide)
  have h2 : ¬ ("BIWEEKLY_AC" = "WEEKLY") := by decide
  simp only [expandSchedule, h1, if_false, toUpper_BIWEEKLY_AC, h2, if_true]
  exact forAppend_lt cycleDays _ _ 0 (by simp)

theorem expandSchedule_BD_eq (up : Char → Char) (anchor rrule : String) (cycleDays : Int) :
    expandSchedule up ⟨"BIWEEKLY_BD", anchor, rrule⟩ cycleDays =
      offsetsFrom 0 cycleDays
        (fun d => (d.tdiv 7 == 1 || d.tdiv 7 == 3) && d.tmod 7 == weekdayIndex up anchor) := by
  have h1 : ¬ ("BIWEEKLY_BD" = "" ∧ rrule ≠ "") := by rintro ⟨h, _⟩; exact absurd h (by decide)
  have h2 : ¬ ("BIWEEKLY_BD" = "WEEKLY") := by decide
  have h3 : ¬ ("BIWEEKLY_BD" = "BIWEEKLY_AC") := by decide
  simp only [expandSchedule, h1, if_false, toUpper_BIWEEKLY_BD, h2, h3, if_true]
  exact forAppend_lt cycleDays _ _ 0 (by simp)

/-- C1. With the tag `WEEKLY`, `expandSchedule` returns exactly the offsets `d` with
`0 ≤ d < cycleDays` and `d mod 7 = weekdayIndex anchor`, each once and in increasing order;
`weekdayIndex` maps the trimmed, upper-cased anchors MON … SUN to 0 … 6 and every other string
to 0; for the anchor `Mon` and 28 cycle days the result is `[0, 7, 14, 21]`. -/
theorem expandSchedule_weekly (up : Char → Char) (anchor rrule : String) (cycleDays : Int) :
    (∀ d : Int, d ∈ expandSchedule up ⟨"WEEKLY", anchor, rrule⟩ cycleDays ↔
        0 ≤ d ∧ d < cycleDays ∧ d % 7 = weekdayIndex up anchor) ∧
    (expandSchedule up ⟨"WEEKLY", anchor, rrule⟩ cycleDays).Pairwise (· < ·) ∧
    ((ToUpper up (TrimSpace anchor) = "MON" → weekdayIndex up anchor = 0) ∧
     (ToUpper up (TrimSpace anchor) = "TUE" → weekdayIndex up anchor = 1) ∧
     (ToUpper up (TrimSpace anchor) = "WED" → weekdayIndex up anchor = 2) ∧
     (ToUpper up (TrimSpace anchor) = "THU" → weekdayIndex up anchor = 3) ∧
     (ToUpper up (TrimSpace anchor) = "FRI" → weekdayIndex up anchor = 4) ∧
     (ToUpper up (TrimSpace anchor) = "SAT" → weekdayIndex up anchor = 5) ∧
     (ToUpper up (TrimSpace anchor) = "SUN" → weekdayIndex up anchor = 6) ∧
     (ToUpper up (TrimSpace anchor) ∉ ["MON", "TUE", "WED", "THU", "FRI", "SAT", "SUN"] →
        weekdayIndex up anchor = 0)) ∧
    expandSchedule up ⟨"WEEKLY", "Mon", rrule⟩ 28 = [0, 7, 14, 21] := by
  refine ⟨?_, ?_, ?_, ?_⟩
  · intro d
    rw [expandSchedule_WEEKLY_eq, mem_offsetsFrom]
    constructor
    · rintro ⟨h0, h1, hk⟩
      refine ⟨h0, h1, ?_⟩
      rw [← Int.tmod_eq_emod h0 (by norm_num)]
      simpa using hk
    · rintro ⟨h0, h1, hk⟩
      refine ⟨h0, h1, ?_⟩
      rw [← Int.tmod_eq_emod h0 (by norm_num)] at hk
      simpa using hk
  · rw [expandSchedule_WEEKLY_eq]
    exact offsetsFrom_sorted _ _ _
  · unfold weekdayIndex
    simp only [List.mem_cons, List.mem_singleton, List.not_mem_nil, or_false, not_or]
    refine ⟨?_, ?_, ?_, ?_, ?_, ?_, ?_, ?_⟩
    · intro h; rw [h]; rfl
    · intro h; rw [h]; rfl
    · intro h; rw [h]; rfl
    · intro h; rw [h]; rfl
    · intro h; rw [h]; rfl
    · intro h; rw [h]; rfl
    · intro h; rw [h]; rfl
    · rintro ⟨h1, h2, h3, h4, h5, h6, h7⟩
      simp [h1, h2, h3, h4, h5, h6, h7]
  · rw [expandSchedule_WEEKLY_eq]
    have : weekdayIndex up "Mon" = 0 := rfl
    rw [this]
    decide

/-- C2. With the tag `BIWEEKLY_AC`, `expandSchedule` returns exactly the offsets `d` with
`0 ≤ d < cycleDays`, `d mod 7 = weekdayIndex anchor` and week number `d div 7` in `{0, 2}`, with
`BIWEEKLY_BD` exactly those with `d div 7` in `{1, 3}`, for every `cycleDays`, each once and in
increasing order; `BIWEEKLY_AC` with the anchor `Wed` and 28 cycle days gives `[2, 16]`. -/
theorem expandSchedule_biweekly (up : Char → Char) (anchor rrule : String) (cycleDays : Int) :
    (∀ d : Int, d ∈ expandSchedule up ⟨"BIWEEKLY_AC", anchor, rrule⟩ cycleDays ↔
        0 ≤ d ∧ d < cycleDays ∧ d % 7 = weekdayIndex up anchor ∧ (d / 7 = 0 ∨ d / 7 = 2)) ∧
    (expandSchedule up ⟨"BIWEEKLY_AC", anchor, rrule⟩ cycleDays).Pairwise (· < ·) ∧
    (∀ d : Int, d ∈ expandSchedule up ⟨"BIWEEKLY_BD", anchor, rrule⟩ cycleDays ↔
        0 ≤ d ∧ d < cycleDays ∧ d % 7 = weekdayIndex up anchor ∧ (d / 7 = 1 ∨ d / 7 = 3)) ∧
    (expandSchedule up ⟨"BIWEEKLY_BD", anchor, rrule⟩ cycleDays).Pairwise (· < ·) ∧
    expandSchedule up ⟨"BIWEEKLY_AC", "Wed", rrule⟩ 28 = [2, 16] := by
  refine ⟨?_, ?_, ?_, ?_, ?_⟩
  · intro d
    rw [expandSchedule_AC_eq, mem_offsetsFrom]
    constructor
    · rintro ⟨h0, h1, hk⟩
      rw [Int.tmod_eq_emod h0 (by norm_num), Int.tdiv_eq_ediv h0 (by norm_num)] at hk
      simp only [Bool.and_eq_true, Bool.or_eq_true, beq_iff_eq] at hk
      exact ⟨h0, h1, hk.2, hk.1⟩
    · rintro ⟨h0, h1, hm, hw⟩
      refine ⟨h0, h1, ?_⟩
      rw [Int.tmod_eq_emod h0 (by norm_num), Int.tdiv_eq_ediv h0 (by norm_num)]
      simp only [Bool.and_eq_true, Bool.or_eq_true, beq_iff_eq]
      exact ⟨hw, hm⟩
  · rw [expandSchedule_AC_eq]
    exact offsetsFrom_sorted _ _ _
  · intro d
    rw [expandSchedule_BD_eq, mem_offsetsFrom]
    constructor
    · rintro ⟨h0, h1, hk⟩
      rw [Int.tmod_eq_emod h0 (by norm_num), Int.tdiv_eq_ediv h0 (by norm_num)] at hk
      simp only [Bool.and_eq_true, Bool.or_eq_true, beq_iff_eq] at hk
      exact ⟨h0, h1, hk.2, hk.1⟩
    · rintro ⟨h0, h1, hm, hw⟩
      refine ⟨h0, h1, ?_⟩
      rw [Int.tmod_eq_emod h0 (by norm_num), Int.tdiv_eq_ediv h0 (by norm_num)]
      simp only [Bool.and_eq_true, Bool.or_eq_true, beq_iff_eq]
      exact ⟨hw, hm⟩
  · rw [expandSchedule_BD_eq]
    exact offsetsFrom_sorted _ _ _
  · rw [expandSchedule_AC_eq]
    have : weekdayIndex up "Wed" = 2 := rfl
    rw [this]
    decide

theorem monthly_cond (a b : Int) :
    (fun d : Int => decide (d < a) && decide (d < b)) = fun d : Int => decide (d < min a b) := by
  funext d
  by_cases h1 : d < a <;> by_cases h2 : d < b <;> simp [h1, h2]

/-- Every result of `expandSchedule` is the list of offsets of some window inside the cycle
that pass some test. -/
theorem expandSchedule_offsets (up : Char → Char) (sch : Schedule) (cycleDays : Int) :
    ∃ (lo hi : Int) (keep : Int → Bool), 0 ≤ lo ∧ hi ≤ cycleDays ∧
      expandSchedule up sch cycleDays = offsetsFrom lo hi keep := by
  have hnil : ∃ (lo hi : Int) (keep : Int → Bool), 0 ≤ lo ∧ hi ≤ cycleDays ∧
      ([] : List Int) = offsetsFrom lo hi keep :=
    ⟨0, min 0 cycleDays, fun _ => true, le_refl _, min_le_right _ _,
      (offsetsFrom_empty _ (min_le_left _ _)).symm⟩
  unfold expandSchedule
  simp only []
  split_ifs
  · exact hnil
  · exact ⟨0, cycleDays, _, le_refl _, le_refl _, forAppend_lt cycleDays _ _ 0 (by simp)⟩
  · exact ⟨0, cycleDays, _, le_refl _, le_refl _, forAppend_lt cycleDays _ _ 0 (by simp)⟩
  · exact ⟨0, cycleDays, _, le_refl _, le_refl _, forAppend_lt cycleDays _ _ 0 (by simp)⟩
  · have hw := clampInt_range (wrapInt64 (sscanfMonthly sch.Type' - 1))
    generalize clampInt (wrapInt64 (sscanfMonthly sch.Type' - 1)) 0 3 = w at hw
    refine ⟨w * 7, min ((w + 1) * 7) cycleDays, fun d => d.tmod 7 == weekdayIndex up sch.Anchor,
      by omega, min_le_right _ _, ?_⟩
    rw [monthly_cond]
    apply forAppend_lt
    have := min_le_left ((w + 1) * 7) cycleDays
    omega
  · exact hnil

/-- C4. Every offset `expandSchedule` returns lies in `[0, cycleDays)`, the returned list is
strictly increasing (no offset is returned twice), and it is empty when `cycleDays ≤ 0`. -/
theorem expandSchedule_range (up : Char → Char) (sch : Schedule) (cycleDays : Int) :
    (∀ d ∈ expandSchedule up sch cycleDays, 0 ≤ d ∧ d < cycleDays) ∧
    (expandSchedule up sch cycleDays).Pairwise (· < ·) ∧
    (cycleDays ≤ 0 → expandSchedule up sch cycleDays = []) := by
  obtain ⟨lo, hi, keep, hlo, hhi, he⟩ := expandSchedule_offsets up sch cycleDays
  rw [he]
  refine ⟨?_, offsetsFrom_sorted _ _ _, ?_⟩
  · intro d hd
    rw [mem_offsetsFrom] at hd
    omega
  · intro hc
    exact offsetsFrom_empty _ (by omega)

/-- C7. When the upper-cased tag is none of `WEEKLY`, `BIWEEKLY_AC`, `BIWEEKLY_BD` and does not
start with `MONTHLY_`, `expandSchedule` returns the empty list for every `cycleDays`; it also
returns the empty list when the tag is empty and a raw rule string is present. -/
theorem expandSchedule_unknown (up : Char → Char) (sch : Schedule) (cycleDays : Int) :
    (ToUpper up sch.Type' ≠ "WEEKLY" ∧ ToUpper up sch.Type' ≠ "BIWEEKLY_AC" ∧
      ToUpper up sch.Type' ≠ "BIWEEKLY_BD" ∧ HasPrefix (ToUpper up sch.Type') "MONTHLY_" = false →
        expandSchedule up sch cycleDays = []) ∧
    (sch.Type' = "" ∧ sch.RRule ≠ "" → expandSchedule up sch cycleDays = []) := by
  constructor
  · rintro ⟨h1, h2, h3, h4⟩
    unfold expandSchedule
    simp [h1, h2, h3, h4]
  · intro h
    unfold expandSchedule
    simp only [h, ne_eq, not_false_eq_true, and_self, if_true]

theorem expandSchedule_unknown_witness :
    expandSchedule (fun c => c) ⟨"DAILY", "Mon", "FREQ=DAILY"⟩ 28 = [] ∧
    expandSchedule (fun c => c) ⟨"", "Mon", "FREQ=DAILY"⟩ 28 = [] :=
  ⟨(expandSchedule_unknown (fun c => c) ⟨"DAILY", "Mon", "FREQ=DAILY"⟩ 28).1 (by decide),
   (expandSchedule_unknown (fun c => c) ⟨"", "Mon", "FREQ=DAILY"⟩ 28).2 (by decide)⟩

/-! ## Lemmas on decimal rendering and scanning -/

theorem digitChar_spec (k : Nat) (h : k < 10) :
    isDecimalDigit (Nat.digitChar k) = true ∧ (Nat.digitChar k).toNat - '0'.toNat = k := by
  interval_cases k <;> decide

theorem digitsValue_foldl (ds : List Char) :
    ∀ acc : Nat, ds.foldl (fun acc c => acc * 10 + (c.toNat - '0'.toNat)) acc =
      acc * 10 ^ ds.length + digitsValue ds := by
  induction ds with
  | nil => intro acc; simp [digitsValue]
  | cons c cs ih =>
    intro acc
    simp only [List.foldl_cons, digitsValue, List.length_cons]
    rw [ih, ih (0 * 10 + _)]
    ring

theorem digitsValue_cons (c : Char) (cs : List Char) :
    digitsValue (c :: cs) = (c.toNat - '0'.toNat) * 10 ^ cs.length + digitsValue cs := by
  unfold digitsValue
  rw [List.foldl_cons, digitsValue_foldl]
  simp [digitsValue]

theorem toDigitsCore_value :
    ∀ (fuel n : Nat) (ds : List Char), n < fuel →
      digitsValue (Nat.toDigitsCore 10 fuel n ds) = n * 10 ^ ds.length + digitsValue ds := by
  intro fuel
  induction fuel with
  | zero => intro n ds h; omega
  | succ k ih =>
    intro n ds h
    have hd := (digitChar_spec (n % 10) (Nat.mod_lt _ (by norm_num))).2
    simp only [Nat.toDigitsCore]
    split_ifs with h0
    · rw [digitsValue_cons, hd]
      have : n % 10 = n := by omega
      rw [this]
    · rw [ih (n / 10) _ (by omega), digitsValue_cons, hd, List.length_cons, pow_succ]
      have : n = n / 10 * 10 + n % 10 := by omega
      nth_rewrite 3 [this]
      ring

theorem toDigitsCore_digits :
    ∀ (fuel n : Nat) (ds : List Char), (∀ c ∈ ds, isDecimalDigit c = true) →
      ∀ c ∈ Nat.toDigitsCore 10 fuel n ds, isDecimalDigit c = true := by
  intro fuel
  induction fuel with
  | zero => intro n ds h; simpa [Nat.toDigitsCore] using h
  | succ k ih =>
    intro n ds h
    have hd := (digitChar_spec (n % 10) (Nat.mod_lt _ (by norm_num))).1
    have hcons : ∀ c ∈ Nat.digitChar (n % 10) :: ds, isDecimalDigit c = true := by
      intro c hc
      rcases List.mem_cons.mp hc with rfl | hc
      · exact hd
      · exact h c hc
    simp only [Nat.toDigitsCore]
    split_ifs with h0
    · exact hcons
    · exact ih _ _ hcons

theorem toDigitsCore_ne_nil (k n : Nat) (ds : List Char) :
    Nat.toDigitsCore 10 (k + 1) n ds ≠ [] := by
  induction k generalizing n ds with
  | zero => simp [Nat.toDigitsCore]
  | succ k ih =>
    rw [Nat.toDigitsCore]
    split_ifs
    · simp
    · exact ih _ _

theorem toDigits_value (n : Nat) : digitsValue (Nat.toDigits 10 n) = n := by
  unfold Nat.toDigits
  rw [toDigitsCore_value _ _ _ (Nat.lt_succ_self n)]
  simp [digitsValue]

theorem toDigits_digits (n : Nat) : ∀ c ∈ Nat.toDigits 10 n, isDecimalDigit c = true :=
  toDigitsCore_digits _ _ _ (by simp)

theorem toDigits_ne_nil (n : Nat) : Nat.toDigits 10 n ≠ [] := toDigitsCore_ne_nil _ _ _

theorem toDigits_length (n : Nat) (h : n ≤ 2 ^ 63) : (Nat.toDigits 10 n).length ≤ 19 :=
  Nat.toDigitsCore_length 10 (by norm_num) _ _ 19 (by norm_num at h ⊢; omega) (by norm_num)

theorem digit_not_special (c : Char) (h : isDecimalDigit c = true) :
    c ≠ '\n' ∧ isSpace c = false ∧ (c == '+') = false ∧ (c == '-') = false := by
  have hb : 48 ≤ c.toNat ∧ c.toNat ≤ 57 := by
    simpa [isDecimalDigit] using h
  have hne : ∀ k : Char, (k.toNat < 48 ∨ 57 < k.toNat) → c ≠ k := by
    intro k hk hck
    rw [hck] at hb
    omega
  refine ⟨hne _ (by decide), ?_, ?_, ?_⟩
  · unfold isSpace
    simp only [Bool.or_eq_false_iff, Bool.and_eq_false_iff, decide_eq_false_iff_not, beq_eq_false_iff_ne]
    omega
  · exact beq_eq_false_iff_ne.mpr (hne _ (by decide))
  · exact beq_eq_false_iff_ne.mpr (hne _ (by decide))

theorem matchLiteral_append (l r : List Char) : matchLiteral l (l ++ r) = some r := by
  induction l with
  | nil => cases r <;> rfl
  | cons c cs ih => simp [matchLiteral, ih]

theorem scanInt_digits (ds : List Char) (hne : ds ≠ []) (hd : ∀ c ∈ ds, isDecimalDigit c = true) :
    scanInt ds = ParseInt false ds ∧ scanInt ('-' :: ds) = ParseInt true ds := by
  have htw : ds.takeWhile isDecimalDigit = ds := List.takeWhile_eq_self_iff.mpr hd
  have hemp : ds.isEmpty = false := by cases ds <;> simp_all
  constructor
  · obtain ⟨c, cs, rfl⟩ := List.exists_cons_of_ne_nil hne
    obtain ⟨h1, h2, h3, h4⟩ := digit_not_special c (hd c (List.mem_cons_self _ _))
    simp only [scanInt, SkipSpace, h1, h2, h3, h4, if_false, Bool.or_self, Bool.false_eq_true,
      htw, hemp]
  · have s1 : SkipSpace ('-' :: ds) = some ('-' :: ds) := by
      simp only [SkipSpace]
      rw [if_neg (by decide), if_neg (by decide)]
    have e2 : (('-' : Char) == '-') = true := by decide
    unfold scanInt
    rw [s1]
    simp only [e2, Bool.or_true, if_true, htw, hemp, Bool.false_eq_true, if_false]

theorem toString_int_data (n : Int) :
    (toString n).data =
      if n < 0 then '-' :: Nat.toDigits 10 n.natAbs else Nat.toDigits 10 n.natAbs := by
  cases n with
  | ofNat m =>
    have h : ¬ (Int.ofNat m < 0) := by simp
    rw [if_neg h]
    rfl
  | negSucc m =>
    have h : Int.negSucc m < 0 := Int.negSucc_lt_zero m
    rw [if_pos h]
    rfl

theorem sscanfMonthly_monthlyTag (n : Int) (hlo : -(2 ^ 63) < n) (hhi : n < 2 ^ 63) :
    sscanfMonthly (monthlyTag n) = n := by
  have hlen : (Nat.toDigits 10 n.natAbs).length ≤ 19 := toDigits_length _ (by omega)
  have hdata : (monthlyTag n).data = "MONTHLY_".data ++ (toString n).data := by
    simp [monthlyTag]
  have htake : (monthlyTag n).data.take hugeWid = "MONTHLY_".data ++ (toString n).data := by
    rw [hdata]
    apply List.take_of_length_le
    rw [List.length_append, toString_int_data]
    have h8 : "MONTHLY_".data.length = 8 := rfl
    rw [h8]
    unfold hugeWid
    split_ifs
    · simp only [List.length_cons]; omega
    · omega
  have hsc := scanInt_digits _ (toDigits_ne_nil n.natAbs) (toDigits_digits n.natAbs)
  unfold sscanfMonthly
  rw [htake, matchLiteral_append]
  simp only []
  rw [toString_int_data]
  by_cases hn : n < 0
  · rw [if_pos hn, hsc.2]
    have hv : ¬ (n.natAbs > 2 ^ 63) := by omega
    simp only [ParseInt, toDigits_value, hv, Bool.not_true, Bool.false_and, Bool.true_and,
      decide_False, Bool.false_eq_true, if_false, if_true, Option.getD_some]
    omega
  · rw [if_neg hn, hsc.1]
    have hv : ¬ (n.natAbs ≥ 2 ^ 63) := by omega
    simp only [ParseInt, toDigits_value, hv, Bool.not_false, Bool.true_and, Bool.false_and,
      decide_False, Bool.false_eq_true, if_false, Option.getD_some]
    omega

theorem digitsValue_append (xs ys : List Char) :
    digitsValue (xs ++ ys) = digitsValue xs * 10 ^ ys.length + digitsValue ys := by
  unfold digitsValue
  rw [List.foldl_append, digitsValue_foldl]
  rfl

theorem digitsValue_lt (ds : List Char) (hd : ∀ c ∈ ds, isDecimalDigit c = true) :
    digitsValue ds < 10 ^ ds.length := by
  induction ds with
  | nil => simp [digitsValue]
  | cons c cs ih =>
    have hc : 48 ≤ c.toNat ∧ c.toNat ≤ 57 := by
      simpa [isDecimalDigit] using hd c (List.mem_cons_self _ _)
    have hcs := ih (fun x hx => hd x (List.mem_cons_of_mem _ hx))
    rw [digitsValue_cons, List.length_cons, pow_succ]
    have h0 : ('0' : Char).toNat = 48 := rfl
    rw [h0]
    have h9 : c.toNat - 48 ≤ 9 := by omega
    have := Nat.mul_le_mul_right (10 ^ cs.length) h9
    omega

theorem toDigits_take_value (m K : Nat) (hm : 2 ^ 63 < m) (hK : 20 ≤ K) :
    2 ^ 63 < digitsValue ((Nat.toDigits 10 m).take K) := by
  by_cases hlen : (Nat.toDigits 10 m).length ≤ K
  · rw [List.take_of_length_le hlen, toDigits_value]
    exact hm
  · have hsplit := digitsValue_append ((Nat.toDigits 10 m).take K) ((Nat.toDigits 10 m).drop K)
    rw [List.take_append_drop, toDigits_value] at hsplit
    have hdrop := digitsValue_lt ((Nat.toDigits 10 m).drop K)
      (fun c hc => toDigits_digits m c (List.mem_of_mem_drop hc))
    have hr : ((Nat.toDigits 10 m).drop K).length = (Nat.toDigits 10 m).length - K :=
      List.length_drop _ _
    have hbig : 10 ^ ((Nat.toDigits 10 m).length - 1) ≤ m := by
      by_contra hcon
      have := Nat.toDigitsCore_length 10 (by norm_num) (m + 1) m ((Nat.toDigits 10 m).length - 1)
        (by omega) (by omega)
      unfold Nat.toDigits at hlen this
      omega
    have hexp : (Nat.toDigits 10 m).length - 1 = 19 + (K - 20) + ((Nat.toDigits 10 m).length - K) := by
      omega
    rw [hexp, pow_add, pow_add] at hbig
    rw [hr] at hsplit hdrop
    generalize 10 ^ ((Nat.toDigits 10 m).length - K) = P at hsplit hdrop hbig
    generalize digitsValue ((Nat.toDigits 10 m).drop K) = vd at hsplit hdrop
    generalize digitsValue ((Nat.toDigits 10 m).take K) = vt at hsplit ⊢
    have hone : 1 ≤ 10 ^ (K - 20) := Nat.one_le_pow _ _ (by norm_num)
    by_contra hcon
    have hvt : vt + 1 ≤ 10 ^ 19 := by norm_num at hcon ⊢; omega
    have h1 : (vt + 1) * P ≤ 10 ^ 19 * P := Nat.mul_le_mul_right P hvt
    have h2 : 10 ^ 19 * P ≤ 10 ^ 19 * 10 ^ (K - 20) * P := by
      have := Nat.mul_le_mul_left (10 ^ 19 * P) hone
      calc 10 ^ 19 * P = 10 ^ 19 * P * 1 := by ring
        _ ≤ 10 ^ 19 * P * 10 ^ (K - 20) := this
        _ = 10 ^ 19 * 10 ^ (K - 20) * P := by ring
    have h3 : (vt + 1) * P = vt * P + P := by ring
    omega

theorem sscanfMonthly_monthlyTag_neg (n : Int) (hn : n < -(2 ^ 63)) :
    sscanfMonthly (monthlyTag n) = 0 := by
  have hdata : (monthlyTag n).data = "MONTHLY_".data ++ '-' :: Nat.toDigits 10 n.natAbs := by
    simp only [monthlyTag, String.data_append, toString_int_data]
    rw [if_pos (by omega)]
  have htake : (monthlyTag n).data.take hugeWid =
      "MONTHLY_".data ++ '-' :: (Nat.toDigits 10 n.natAbs).take (hugeWid - 9) := by
    rw [hdata, List.take_append_eq_append_take]
    have h8 : "MONTHLY_".data.length = 8 := rfl
    have ht : List.take hugeWid "MONTHLY_".data = "MONTHLY_".data :=
      List.take_of_length_le (by rw [h8]; decide)
    rw [h8, ht]
    have hk : hugeWid - 8 = (hugeWid - 9) + 1 := by decide
    rw [hk, List.take_succ_cons]
  have hval := toDigits_take_value n.natAbs (hugeWid - 9) (by omega) (by decide)
  have hne : (Nat.toDigits 10 n.natAbs).take (hugeWid - 9) ≠ [] := by
    intro h
    rw [h] at hval
    simp [digitsValue] at hval
  have hsc := scanInt_digits _ hne (fun c hc => toDigits_digits n.natAbs c (List.mem_of_mem_take hc))
  unfold sscanfMonthly
  rw [htake, matchLiteral_append]
  simp only []
  rw [hsc.2]
  simp only [ParseInt, Bool.not_true, Bool.false_and, Bool.false_eq_true, if_false, Bool.true_and,
    gt_iff_lt, hval, decide_True, if_true, Option.getD_none]

theorem wrapInt64_id (x : Int) (hlo : -(2 ^ 63) ≤ x) (hhi : x < 2 ^ 63) : wrapInt64 x = x := by
  unfold wrapInt64
  omega

theorem hasPrefix_monthlyTag (up : Char → Char) (n : Int) :
    HasPrefix (ToUpper up (monthlyTag n)) "MONTHLY_" = true := by
  have h : (ToUpper up (monthlyTag n)).data =
      "MONTHLY_".data ++ (toString n).data.map (toUpperRune up) := by
    simp only [ToUpper, monthlyTag, String.data_append, List.map_append]
    rfl
  unfold HasPrefix
  rw [h]
  simp

theorem expandSchedule_MONTHLY_eq (up : Char → Char) (sch : Schedule) (cycleDays : Int)
    (h : HasPrefix (ToUpper up sch.Type') "MONTHLY_" = true) :
    expandSchedule up sch cycleDays =
      offsetsFrom (clampInt (wrapInt64 (sscanfMonthly sch.Type' - 1)) 0 3 * 7)
        (min ((clampInt (wrapInt64 (sscanfMonthly sch.Type' - 1)) 0 3 + 1) * 7) cycleDays)
        (fun d => d.tmod 7 == weekdayIndex up sch.Anchor) := by
  have h0 : ¬ (sch.Type' = "" ∧ sch.RRule ≠ "") := by
    rintro ⟨he, _⟩
    have e : ToUpper up "" = "" := rfl
    rw [he, e] at h
    exact absurd h (by decide)
  have h1 : ToUpper up sch.Type' ≠ "WEEKLY" := by
    intro he; rw [he] at h; exact absurd h (by decide)
  have h2 : ToUpper up sch.Type' ≠ "BIWEEKLY_AC" := by
    intro he; rw [he] at h; exact absurd h (by decide)
  have h3 : ToUpper up sch.Type' ≠ "BIWEEKLY_BD" := by
    intro he; rw [he] at h; exact absurd h (by decide)
  have hw := clampInt_range (wrapInt64 (sscanfMonthly sch.Type' - 1))
  unfold expandSchedule
  simp only [h0, h1, h2, h3, h, if_false, if_true]
  rw [monthly_cond]
  apply forAppend_lt
  have := min_le_left ((clampInt (wrapInt64 (sscanfMonthly sch.Type' - 1)) 0 3 + 1) * 7) cycleDays
  omega

theorem eq_of_sorted_of_mem {l₁ l₂ : List Int} (h₁ : l₁.Pairwise (· < ·))
    (h₂ : l₂.Pairwise (· < ·)) (h : ∀ x, x ∈ l₁ ↔ x ∈ l₂) : l₁ = l₂ := by
  have n₁ : l₁.Nodup := h₁.imp (fun hab => ne_of_lt hab)
  have n₂ : l₂.Nodup := h₂.imp (fun hab => ne_of_lt hab)
  exact List.eq_of_perm_of_sorted ((List.perm_ext_iff_of_nodup n₁ n₂).mpr h) h₁ h₂

theorem monthly_week (n : Int) (hhi : n < 2 ^ 63) (hmin : n ≠ -(2 ^ 63)) :
    clampInt (wrapInt64 (sscanfMonthly (monthlyTag n) - 1)) 0 3 = clampInt (n - 1) 0 3 := by
  by_cases hn : n < -(2 ^ 63)
  · rw [sscanfMonthly_monthlyTag_neg n hn, wrapInt64_id (0 - 1) (by norm_num) (by norm_num)]
    unfold clampInt
    rw [if_pos (by norm_num), if_pos (by omega)]
  · rw [sscanfMonthly_monthlyTag n (by omega) hhi, wrapInt64_id (n - 1) (by omega) (by omega)]

/-- C3 (amended). For every integer `n` below `2^63` other than `-2^63`, the tag `MONTHLY_<n>`
makes `expandSchedule` return exactly the offsets `d` with `w*7 ≤ d < w*7 + 7`, `d < cycleDays`
and `d mod 7 = weekdayIndex anchor`, where `w = clamp(n-1, 0, 3)`: the single offset
`w*7 + weekdayIndex anchor` when it is below `cycleDays`, and nothing otherwise. -/
theorem expandSchedule_monthly (up : Char → Char) (n : Int) (anchor rrule : String)
    (cycleDays : Int) (hhi : n < 2 ^ 63) (hmin : n ≠ -(2 ^ 63)) :
    (∀ d : Int, d ∈ expandSchedule up ⟨monthlyTag n, anchor, rrule⟩ cycleDays ↔
        clampInt (n - 1) 0 3 * 7 ≤ d ∧ d < clampInt (n - 1) 0 3 * 7 + 7 ∧ d < cycleDays ∧
          d % 7 = weekdayIndex up anchor) ∧
    expandSchedule up ⟨monthlyTag n, anchor, rrule⟩ cycleDays =
      if clampInt (n - 1) 0 3 * 7 + weekdayIndex up anchor < cycleDays then
        [clampInt (n - 1) 0 3 * 7 + weekdayIndex up anchor]
      else [] := by
  have heq := expandSchedule_MONTHLY_eq up ⟨monthlyTag n, anchor, rrule⟩ cycleDays
    (hasPrefix_monthlyTag up n)
  simp only [monthly_week n hhi hmin] at heq
  have hw := clampInt_range (n - 1)
  have hi := weekdayIndex_range up anchor
  generalize clampInt (n - 1) 0 3 = w at heq hw ⊢
  generalize weekdayIndex up anchor = i at heq hi ⊢
  have hmem : ∀ d : Int, d ∈ expandSchedule up ⟨monthlyTag n, anchor, rrule⟩ cycleDays ↔
      w * 7 ≤ d ∧ d < w * 7 + 7 ∧ d < cycleDays ∧ d % 7 = i := by
    intro d
    rw [heq, mem_offsetsFrom]
    constructor
    · rintro ⟨h1, h2, hk⟩
      have hd0 : 0 ≤ d := by omega
      rw [Int.tmod_eq_emod hd0 (by norm_num)] at hk
      have hk' : d % 7 = i := by simpa using hk
      have := lt_min_iff.mp h2
      omega
    · rintro ⟨h1, h2, h3, h4⟩
      have hd0 : 0 ≤ d := by omega
      refine ⟨h1, lt_min_iff.mpr ⟨by omega, h3⟩, ?_⟩
      rw [Int.tmod_eq_emod hd0 (by norm_num)]
      simpa using h4
  refine ⟨hmem, ?_⟩
  apply eq_of_sorted_of_mem
  · rw [heq]; exact offsetsFrom_sorted _ _ _
  · split_ifs <;> simp
  · intro x
    rw [hmem]
    split_ifs with hc
    · simp only [List.mem_singleton]
      omega
    · simp only [List.not_mem_nil, iff_false]
      omega

theorem expandSchedule_monthly_witness :
    (∀ d : Int, d ∈ expandSchedule (fun c => c) ⟨monthlyTag 3, "Fri", ""⟩ 28 ↔
        clampInt (3 - 1) 0 3 * 7 ≤ d ∧ d < clampInt (3 - 1) 0 3 * 7 + 7 ∧ d < 28 ∧
          d % 7 = weekdayIndex (fun c => c) "Fri") ∧
    expandSchedule (fun c => c) ⟨monthlyTag 3, "Fri", ""⟩ 28 =
      if clampInt (3 - 1) 0 3 * 7 + weekdayIndex (fun c => c) "Fri" < 28 then
        [clampInt (3 - 1) 0 3 * 7 + weekdayIndex (fun c => c) "Fri"]
      else [] :=
  expandSchedule_monthly (fun c => c) 3 "Fri" "" 28 (by norm_num) (by norm_num)

/-- C3, as stated, fails at the ends of the 64-bit range: for `n = 2^63` the scan of the tag
overflows, `n` stays 0 and the first week is used although `clamp(n-1, 0, 3) = 3`; for
`n = -2^63` the subtraction `n - 1` wraps around and the fourth week is used although
`clamp(n-1, 0, 3) = 0`. -/
theorem expandSchedule_monthly_counterexample :
    monthlyTag 9223372036854775808 = "MONTHLY_9223372036854775808" ∧
    expandSchedule (fun c => c) ⟨"MONTHLY_9223372036854775808", "Mon", ""⟩ 28 = [0] ∧
    clampInt (9223372036854775808 - 1) 0 3 * 7 + weekdayIndex (fun c => c) "Mon" = 21 ∧
    monthlyTag (-9223372036854775808) = "MONTHLY_-9223372036854775808" ∧
    expandSchedule (fun c => c) ⟨"MONTHLY_-9223372036854775808", "Mon", ""⟩ 28 = [21] ∧
    clampInt (-9223372036854775808 - 1) 0 3 * 7 + weekdayIndex (fun c => c) "Mon" = 0 := by
  refine ⟨by decide, by decide, by decide, by decide, by decide, by decide⟩

theorem truncToInt_div (a : Int) (b : Nat) (hb : 0 < b) :
    truncToInt ((a : ℚ) / (b : ℚ)) = a.tdiv b := by
  have hbq : (0 : ℚ) < (b : ℚ) := by exact_mod_cast hb
  unfold truncToInt
  by_cases ha : 0 ≤ a
  · have hq : (0 : ℚ) ≤ (a : ℚ) / (b : ℚ) := div_nonneg (by exact_mod_cast ha) hbq.le
    rw [if_pos hq, Rat.floor_intCast_div_natCast, Int.tdiv_eq_ediv ha (by omega)]
  · have hq : ¬ (0 : ℚ) ≤ (a : ℚ) / (b : ℚ) := by
      rw [not_le]
      exact div_neg_of_neg_of_pos (by exact_mod_cast (not_le.mp ha)) hbq
    rw [if_neg hq]
    have h1 : ⌈(a : ℚ) / (b : ℚ)⌉ = -⌊((-a : Int) : ℚ) / (b : ℚ)⌋ := by
      have : ((-a : Int) : ℚ) / (b : ℚ) = -((a : ℚ) / (b : ℚ)) := by push_cast; ring
      rw [this, Int.floor_neg, neg_neg]
    rw [h1, Rat.floor_intCast_div_natCast, ← Int.tdiv_eq_ediv (by omega) (by omega),
      Int.neg_tdiv, neg_neg]

theorem dayOffset_eq (d : Int) : dayOffset d = (d + 864000000).tdiv 86400000000000 := by
  have h := truncToInt_div (d + 864000000) 86400000000000 (by norm_num)
  have e : ((86400000000000 : Nat) : Int) = 86400000000000 := by norm_num
  rw [e] at h
  rw [← h]
  unfold dayOffset Hour
  congr 1
  push_cast
  ring


theorem expandScheduleRRULE_eq (rt : Runtime) (sch : Schedule) (cycleDays : Int) :
    expandScheduleRRULE rt sch cycleDays =
      if TrimSpace sch.RRule = "" then []
      else
        match rt.rrule sch.RRule with
        | none => []
        | some r =>
          (r (truncateDay rt.now)
              (truncateDay rt.now + wrapInt64 (wrapInt64 (cycleDays * 24) * Hour))).filterMap
            (fun t =>
              if (timeSub t (truncateDay rt.now) + 864000000).tdiv 86400000000000 ≥ 0 ∧
                  (timeSub t (truncateDay rt.now) + 864000000).tdiv 86400000000000 < cycleDays then
                some ((timeSub t (truncateDay rt.now) + 864000000).tdiv 86400000000000)
              else none) := by
  unfold expandScheduleRRULE
  simp only [dayOffset_eq]

/-! ## Active days -/

theorem expandSchedule_rrule_irrelevant (up : Char → Char) (ty anchor r₁ r₂ : String)
    (cycleDays : Int) (h : ty ≠ "") :
    expandSchedule up ⟨ty, anchor, r₁⟩ cycleDays = expandSchedule up ⟨ty, anchor, r₂⟩ cycleDays := by
  unfold expandSchedule
  simp only [h, false_and, if_false]

theorem expandScheduleRRULE_blank (rt : Runtime) (sch : Schedule) (cycleDays : Int)
    (h : TrimSpace sch.RRule = "") : expandScheduleRRULE rt sch cycleDays = [] := by
  unfold expandScheduleRRULE
  rw [if_pos h]

theorem buildEmbedding_activeDays_eq (rt : Runtime) (sch : Schedule) (cycle : Int) :
    buildEmbedding_activeDays rt sch cycle =
      if expandSchedule rt.upper sch cycle = [] then expandScheduleRRULE rt sch cycle
      else expandSchedule rt.upper sch cycle := by
  unfold buildEmbedding_activeDays
  simp only [List.length_eq_zero, gt_iff_lt, List.length_pos]
  by_cases h : expandSchedule rt.upper sch cycle = []
  · simp only [h, if_true]
    by_cases h2 : expandScheduleRRULE rt sch cycle = []
    · simp [h2]
    · simp [h2]
  · simp only [h, if_false]

theorem heatmapFor_active_eq (rt : Runtime) (sch : Schedule) (cycle : Int) :
    heatmapFor_active rt sch cycle = buildEmbedding_activeDays rt sch cycle := rfl

theorem naiveSim_ds_eq (rt : Runtime) (sch : Schedule) (cycle : Int) :
    naiveSim_ds rt sch cycle = buildEmbedding_activeDays rt sch cycle := by
  rw [buildEmbedding_activeDays_eq]
  unfold naiveSim_ds
  simp only [List.length_eq_zero]

/-- C6 (amended). The recurrence-rule evaluator is consulted whenever `expandSchedule` returns
no offset, whatever the tag: the active days that `buildEmbedding`, `heatmapFor` and `naiveSim`
use for an account equal `expandSchedule`'s result when it is non-empty and
`expandScheduleRRULE`'s result otherwise. `expandScheduleRRULE` returns nothing for a blank rule
string, and for a non-empty tag `expandSchedule` does not depend on the rule string; so for a
non-empty tag the active days equal `expandSchedule`'s result whenever that result is non-empty
or the rule string is blank. -/
theorem activeDays_fallback (rt : Runtime) (sch : Schedule) (cycle : Int) :
    (buildEmbedding_activeDays rt sch cycle =
      if expandSchedule rt.upper sch cycle = [] then expandScheduleRRULE rt sch cycle
      else expandSchedule rt.upper sch cycle) ∧
    (heatmapFor_active rt sch cycle =
      if expandSchedule rt.upper sch cycle = [] then expandScheduleRRULE rt sch cycle
      else expandSchedule rt.upper sch cycle) ∧
    (naiveSim_ds rt sch cycle =
      if expandSchedule rt.upper sch cycle = [] then expandScheduleRRULE rt sch cycle
      else expandSchedule rt.upper sch cycle) ∧
    (TrimSpace sch.RRule = "" → expandScheduleRRULE rt sch cycle = []) ∧
    (sch.Type' ≠ "" → ∀ r : String,
      expandSchedule rt.upper ⟨sch.Type', sch.Anchor, r⟩ cycle =
        expandSchedule rt.upper sch cycle) ∧
    (sch.Type' ≠ "" → (expandSchedule rt.upper sch cycle ≠ [] ∨ TrimSpace sch.RRule = "") →
      buildEmbedding_activeDays rt sch cycle = expandSchedule rt.upper sch cycle ∧
      heatmapFor_active rt sch cycle = expandSchedule rt.upper sch cycle ∧
      naiveSim_ds rt sch cycle = expandSchedule rt.upper sch cycle) := by
  have hb := buildEmbedding_activeDays_eq rt sch cycle
  refine ⟨hb, ?_, ?_, expandScheduleRRULE_blank rt sch cycle, ?_, ?_⟩
  · rw [heatmapFor_active_eq]; exact hb
  · rw [naiveSim_ds_eq]; exact hb
  · intro h r
    exact expandSchedule_rrule_irrelevant rt.upper sch.Type' sch.Anchor r sch.RRule cycle h
  · intro _ h
    have key : buildEmbedding_activeDays rt sch cycle = expandSchedule rt.upper sch cycle := by
      rw [hb]
      rcases h with h | h
      · rw [if_neg h]
      · split_ifs with h0
        · rw [expandScheduleRRULE_blank rt sch cycle h, h0]
        · rfl
    exact ⟨key, by rw [heatmapFor_active_eq]; exact key, by rw [naiveSim_ds_eq]; exact key⟩

theorem activeDays_fallback_witness :
    buildEmbedding_activeDays (runtimeAt jan5) ⟨"WEEKLY", "Mon", oneShotRule⟩ 28 =
        expandSchedule (runtimeAt jan5).upper ⟨"WEEKLY", "Mon", oneShotRule⟩ 28 ∧
    heatmapFor_active (runtimeAt jan5) ⟨"WEEKLY", "Mon", oneShotRule⟩ 28 =
        expandSchedule (runtimeAt jan5).upper ⟨"WEEKLY", "Mon", oneShotRule⟩ 28 ∧
    naiveSim_ds (runtimeAt jan5) ⟨"WEEKLY", "Mon", oneShotRule⟩ 28 =
        expandSchedule (runtimeAt jan5).upper ⟨"WEEKLY", "Mon", oneShotRule⟩ 28 :=
  (activeDays_fallback (runtimeAt jan5) ⟨"WEEKLY", "Mon", oneShotRule⟩ 28).2.2.2.2.2
    (by decide) (Or.inl (by decide))

theorem expandScheduleRRULE_oneShot_jan5 (ty anchor : String) :
    expandScheduleRRULE (runtimeAt jan5) ⟨ty, anchor, oneShotRule⟩ 28 = [0] := by
  rw [expandScheduleRRULE_eq]
  dsimp only
  decide

/-- C6, as stated, fails: with the non-empty unknown tag `FOO` and a raw rule string the
evaluator is used: `expandSchedule` returns nothing, yet all three callers take the rule's day
0 as active, and the active days change with the rule string. -/
theorem activeDays_counterexample :
    expandSchedule (runtimeAt jan5).upper ⟨"FOO", "Mon", oneShotRule⟩ 28 = [] ∧
    buildEmbedding_activeDays (runtimeAt jan5) ⟨"FOO", "Mon", oneShotRule⟩ 28 = [0] ∧
    heatmapFor_active (runtimeAt jan5) ⟨"FOO", "Mon", oneShotRule⟩ 28 = [0] ∧
    naiveSim_ds (runtimeAt jan5) ⟨"FOO", "Mon", oneShotRule⟩ 28 = [0] ∧
    buildEmbedding_activeDays (runtimeAt jan5) ⟨"FOO", "Mon", ""⟩ 28 = [] := by
  have h0 : expandSchedule (runtimeAt jan5).upper ⟨"FOO", "Mon", oneShotRule⟩ 28 = [] := by
    decide
  have h1 : buildEmbedding_activeDays (runtimeAt jan5) ⟨"FOO", "Mon", oneShotRule⟩ 28 = [0] := by
    rw [buildEmbedding_activeDays_eq, if_pos h0, expandScheduleRRULE_oneShot_jan5]
  refine ⟨h0, h1, ?_, ?_, ?_⟩
  · rw [heatmapFor_active_eq]; exact h1
  · rw [naiveSim_ds_eq]; exact h1
  · rw [buildEmbedding_activeDays_eq, expandScheduleRRULE_blank _ _ _ (by decide)]
    decide

/-! ## Naive simulation -/

section Sim

variable {F : Type} [LinearOrderedField F]

omit [LinearOrderedField F] in
theorem foldl_index_lt {α : Type} (n : Nat) (f : Nat × F → Nat × α → Nat × F)
    (hf : ∀ b iv, f b iv = b ∨ (f b iv).1 = iv.1) :
    ∀ (l : List (Nat × α)) (b : Nat × F), (∀ iv ∈ l, iv.1 < n) → b.1 < n →
      (l.foldl f b).1 < n := by
  intro l
  induction l with
  | nil => intro b _ hb; simpa using hb
  | cons x xs ih =>
    intro b hl hb
    rw [List.foldl_cons]
    apply ih
    · intro iv hiv
      exact hl iv (List.mem_cons_of_mem _ hiv)
    · rcases hf b x with h | h
      · rw [h]; exact hb
      · rw [h]; exact hl x (List.mem_cons_self _ _)

theorem naiveSim_nearest_lt (m : MathFns F) (vs : List (veh F)) (acc : Account F)
    (h : vs ≠ []) : (naiveSim_nearest m vs acc).1 < vs.length := by
  unfold naiveSim_nearest
  apply foldl_index_lt
  · intro b iv
    simp only []
    split_ifs
    · right; rfl
    · left; rfl
  · intro iv hiv
    exact List.fst_lt_of_mem_enum hiv
  · exact List.length_pos.mpr h

theorem naiveSim_assign_some (m : MathFns F) (vs : List (veh F)) (acc : Account F)
    (h : vs ≠ []) : ∃ vs', naiveSim_assign m vs acc = some vs' ∧ vs'.length = vs.length := by
  have hlt := naiveSim_nearest_lt m vs acc h
  unfold naiveSim_assign
  simp only [List.getElem?_eq_getElem hlt]
  exact ⟨_, rfl, List.length_set _ _ _⟩

theorem naiveSim_assign_nil (m : MathFns F) (acc : Account F) :
    naiveSim_assign m ([] : List (veh F)) acc = none := by
  simp [naiveSim_assign]

theorem naiveSim_loop_some (m : MathFns F) :
    ∀ (accs : List (Account F)) (st : List (veh F) × Int), st.1 ≠ [] →
      ∃ vs', accs.foldlM (fun (st : List (veh F) × Int) acc =>
          (naiveSim_assign m st.1 acc).map (fun vs => (vs, st.2 + 1))) st =
            some (vs', st.2 + accs.length) ∧ vs'.length = st.1.length := by
  intro accs
  induction accs with
  | nil => intro st _; exact ⟨st.1, by simp, rfl⟩
  | cons a as ih =>
    intro st hst
    obtain ⟨vs1, h1, hl1⟩ := naiveSim_assign_some m st.1 a hst
    have hne : vs1 ≠ [] := by
      intro h
      rw [h] at hl1
      exact hst (List.length_eq_zero.mp hl1.symm)
    obtain ⟨vs2, h2, hl2⟩ := ih (vs1, st.2 + 1) hne
    refine ⟨vs2, ?_, by rw [hl2, hl1]⟩
    rw [List.foldlM_cons, h1]
    simp only [Option.map_some', Option.bind_eq_bind, Option.some_bind]
    rw [h2]
    simp only [List.length_cons]
    push_cast
    congr 2
    ring

theorem goMax_zero_sub_filter {α : Type} (l : List α) (p : α → Bool) :
    goMax 0 ((l.length : Int) - (0 + ((l.filter p).length : Int))) =
      (l.length : Int) - ((l.filter p).length : Int) := by
  have := List.length_filter_le p l
  unfold goMax
  split_ifs <;> omega

/-- C5 (amended). For every scenario with at least one agent and every day, `naiveSim` returns
statistics whose `Unassigned` is the number of accounts minus the number of accounts active on
that day (each of which is assigned to a vehicle); it is zero exactly when every account of the
scenario is active on that day. -/
theorem naiveSim_unassigned (m : MathFns F) (rt : Runtime) (sc : Scenario F) (day : Int)
    (h : sc.Agents ≠ []) :
    ∃ st, naiveSim m rt sc day = some st ∧
      st.Unassigned = (sc.Accounts.length : Int) - ((naiveSim_accs rt sc day).length : Int) ∧
      (st.Unassigned = 0 ↔ ∀ a ∈ sc.Accounts,
        day ∈ naiveSim_ds rt a.Schedule
          (if sc.Params.CycleDays = 0 then 28 else sc.Params.CycleDays)) := by
  have hvs : (sc.Agents.map (fun ag => (⟨ag.Lat, ag.Lng, 0, 0⟩ : veh F))) ≠ [] := by
    simpa using h
  obtain ⟨vs', hloop, _⟩ := naiveSim_loop_some m (naiveSim_accs rt sc day) (_, 0) hvs
  have hU : goMax 0 ((sc.Accounts.length : Int) - (0 + ((naiveSim_accs rt sc day).length : Int))) =
      (sc.Accounts.length : Int) - ((naiveSim_accs rt sc day).length : Int) :=
    goMax_zero_sub_filter _ _
  have hex : ∃ st, naiveSim m rt sc day = some st ∧ st.Unassigned =
      goMax 0 ((sc.Accounts.length : Int) - (0 + ((naiveSim_accs rt sc day).length : Int))) := by
    unfold naiveSim
    simp only [hloop]
    exact ⟨_, rfl, rfl⟩
  obtain ⟨st, hst, hun⟩ := hex
  rw [hU] at hun
  refine ⟨st, hst, hun, ?_⟩
  · rw [hun]
    unfold naiveSim_accs
    simp only []
    constructor
    · intro h0
      have hlen : (sc.Accounts.filter (fun a => (naiveSim_ds rt a.Schedule
          (if sc.Params.CycleDays = 0 then 28 else sc.Params.CycleDays)).contains day)).length =
            sc.Accounts.length := by omega
      have := List.filter_length_eq_length.mp hlen
      intro a ha
      simpa using this a ha
    · intro hall
      have hlen : (sc.Accounts.filter (fun a => (naiveSim_ds rt a.Schedule
          (if sc.Params.CycleDays = 0 then 28 else sc.Params.CycleDays)).contains day)).length =
            sc.Accounts.length := by
        apply List.filter_length_eq_length.mpr
        intro a ha
        simpa using hall a ha
      omega

end Sim

theorem exampleScenario_accs_day0 :
    naiveSim_accs (runtimeAt 0) (exampleScenario ℝ) 0 = (exampleScenario ℝ).Accounts := by
  rfl

theorem exampleScenario_accs_day1 :
    naiveSim_accs (runtimeAt 0) (exampleScenario ℝ) 1 = [] := by
  rfl

/-- The specification's example over the reals: on day 0 the single account is assigned to the
single agent (6000 service seconds, no driving) and nothing is left unassigned. -/
theorem naiveSim_example :
    naiveSim realMath (runtimeAt 0) (exampleScenario ℝ) 0 =
      some { DrivingSec := [0], ServiceSec := [6000], RepsUsed := [1], Unassigned := 0,
             TotalTravelSec := 0, TotalServiceSec := 6000, TotalIdleSec := 0 } := by
  unfold naiveSim
  rw [exampleScenario_accs_day0]
  simp [exampleScenario, naiveSim_assign, naiveSim_nearest, havKM, realMath, clamp, goMax,
    List.enum, List.enumFrom]
  norm_num

theorem naiveSim_unassigned_witness :
    (exampleScenario ℝ).Agents ≠ [] ∧
    ∃ st, naiveSim realMath (runtimeAt 0) (exampleScenario ℝ) 0 = some st ∧
      st.Unassigned = 0 ∧ st.ServiceSec = [6000] ∧
      ∀ a ∈ (exampleScenario ℝ).Accounts,
        (0 : Int) ∈ naiveSim_ds (runtimeAt 0) a.Schedule
          (if (exampleScenario ℝ).Params.CycleDays = 0 then 28
            else (exampleScenario ℝ).Params.CycleDays) := by
  have hag : (exampleScenario ℝ).Agents ≠ [] := by simp [exampleScenario]
  obtain ⟨st, hst, hun, hiff⟩ :=
    naiveSim_unassigned realMath (runtimeAt 0) (exampleScenario ℝ) 0 hag
  have h0 : st.Unassigned = 0 := by
    rw [hun, exampleScenario_accs_day0]
    exact sub_self _
  have hex := naiveSim_example
  rw [hst] at hex
  have hst' := Option.some.inj hex
  refine ⟨hag, st, hst, h0, ?_, hiff.mp h0⟩
  rw [hst']

/-- C5, as stated, fails: in the specification's example (one agent, one account scheduled on
Mondays) `naiveSim` for day 1, a Tuesday, serves no account and reports `Unassigned = 1`. -/
theorem naiveSim_unassigned_counterexample :
    naiveSim_accs (runtimeAt 0) (exampleScenario ℝ) 1 = [] ∧
    (naiveSim realMath (runtimeAt 0) (exampleScenario ℝ) 1).map (fun st => st.Unassigned) =
      some 1 := by
  refine ⟨exampleScenario_accs_day1, ?_⟩
  unfold naiveSim
  rw [exampleScenario_accs_day1]
  rfl

/-! ## Embedding: shape of the result -/

section Embed

variable {F : Type} [LinearOrderedField F]

theorem makeZeros_some (n : Int) (h : 0 ≤ n) :
    (makeZeros n : Option (List F)) = some (List.replicate n.toNat 0) := by
  unfold makeZeros
  rw [if_neg (not_lt.mpr h)]

theorem makeZeros_eq_some (n : Int) (v : List F) (h : makeZeros n = some v) : 0 ≤ n := by
  unfold makeZeros at h
  by_contra hn
  rw [if_pos (not_le.mp hn)] at h
  exact Option.noConfusion h

theorem buildEmbedding_of_nonneg (m : MathFns F) (rt : Runtime) (cfg : ServerConfig F)
    (sc : Scenario F)
    (h1 : 0 ≤ (resolveParams cfg sc.Params).ResServiceStopTime)
    (h2 : 0 ≤ (resolveParams cfg sc.Params).ResServiceWindowStart)
    (h3 : 0 ≤ (resolveParams cfg sc.Params).ResServiceWindowDuration)
    (h4 : 0 ≤ (resolveParams cfg sc.Params).ResPinnedAccounts)
    (h5 : 0 ≤ (resolveParams cfg sc.Params).ResAgentsAvailable)
    (h6 : 0 ≤ (resolveParams cfg sc.Params).ResAgentStartLocations) :
    ∃ v1 v2 v3 v4 v5 v6 : List F,
      buildEmbedding m rt cfg sc = some (buildEmbedding_result (resolveParams cfg sc.Params)
        (l2Normalize m v1) (l2Normalize m v2) (l2Normalize m v3) (l2Normalize m v4)
        (l2Normalize m v5) (l2Normalize m v6)) := by
  unfold buildEmbedding
  simp only [makeZeros_some _ h1, makeZeros_some _ h2, makeZeros_some _ h3, makeZeros_some _ h4,
    makeZeros_some _ h5, makeZeros_some _ h6, Option.pure_def, Option.bind_eq_bind,
    Option.some_bind]
  exact ⟨_, _, _, _, _, _, rfl⟩

theorem buildEmbedding_of_some (m : MathFns F) (rt : Runtime) (cfg : ServerConfig F)
    (sc : Scenario F) (r : EmbeddingResult F) (h : buildEmbedding m rt cfg sc = some r) :
    ∃ v1 v2 v3 v4 v5 v6 : List F,
      r = buildEmbedding_result (resolveParams cfg sc.Params)
        (l2Normalize m v1) (l2Normalize m v2) (l2Normalize m v3) (l2Normalize m v4)
        (l2Normalize m v5) (l2Normalize m v6) := by
  unfold buildEmbedding at h
  simp only [Option.pure_def, Option.bind_eq_bind, Option.bind_eq_some] at h
  obtain ⟨a1, _, a2, _, a3, _, a4, _, a5, _, a6, _, hr⟩ := h
  exact ⟨_, _, _, _, _, _, (Option.some.inj hr).symm⟩

omit [LinearOrderedField F] in
theorem slice_mid (a b c : List F) :
    (((a ++ b) ++ c).drop a.length).take ((a ++ b).length - a.length) = b := by
  rw [List.append_assoc, List.drop_left, List.length_append, Nat.add_sub_cancel_left,
    List.take_left]

omit [LinearOrderedField F] in
/-- The partition laid down by `buildEmbedding_result`, for arbitrary channel vectors. -/
theorem buildEmbedding_result_partition (p : EmbeddingParams) (c1 c2 c3 c4 c5 c6 : List F) :
    let r := buildEmbedding_result p c1 c2 c3 c4 c5 c6
    r.Embedding.length = (r.Components.map (fun c => c.2.length)).sum ∧
    r.Components.map (fun c => c.1) = channelOrder ∧
    r.Offsets.map (fun o => o.1) = channelOrder ∧
    r.Meta.order = channelOrder ∧
    r.Offsets.head?.map (fun o => o.2.1) = some 0 ∧
    r.Offsets.Chain' (fun a b => a.2.2 = b.2.1) ∧
    r.Offsets.getLast?.map (fun o => o.2.2) = some (r.Embedding.length : Int) ∧
    List.Forall₂ (fun o c => o.1 = c.1 ∧ 0 ≤ o.2.1 ∧ o.2.1 ≤ o.2.2 ∧
      o.2.2 ≤ (r.Embedding.length : Int) ∧
      (r.Embedding.drop o.2.1.toNat).take (o.2.2 - o.2.1).toNat = c.2) r.Offsets r.Components := by
  intro r
  have hE : r.Embedding = c1 ++ c2 ++ c3 ++ c4 ++ c5 ++ c6 := by
    simp [r, buildEmbedding_result, appendWithOffset]
  have hC : r.Components = [("service_stop_time", c1), ("service_window_start", c2),
      ("service_window_duration", c3), ("pinned_accounts", c4), ("agents_available", c5),
      ("agent_start_locations", c6)] := rfl
  have hO : r.Offsets = [("service_stop_time", ((0 : Int), (c1.length : Int))),
      ("service_window_start", ((c1.length : Int), ((c1 ++ c2).length : Int))),
      ("service_window_duration", (((c1 ++ c2).length : Int), ((c1 ++ c2 ++ c3).length : Int))),
      ("pinned_accounts", (((c1 ++ c2 ++ c3).length : Int), ((c1 ++ c2 ++ c3 ++ c4).length : Int))),
      ("agents_available",
        (((c1 ++ c2 ++ c3 ++ c4).length : Int), ((c1 ++ c2 ++ c3 ++ c4 ++ c5).length : Int))),
      ("agent_start_locations",
        (((c1 ++ c2 ++ c3 ++ c4 ++ c5).length : Int),
          ((c1 ++ c2 ++ c3 ++ c4 ++ c5 ++ c6).length : Int)))] := by
    simp [r, buildEmbedding_result, appendWithOffset]
  rw [hE, hC, hO]
  refine ⟨?_, rfl, rfl, rfl, rfl, ?_, rfl, ?_⟩
  · simp only [List.length_append, List.map_cons, List.map_nil, List.sum_cons, List.sum_nil]
    omega
  · simp [List.Chain']
  · have s1 : ((c1 ++ (c2 ++ (c3 ++ (c4 ++ (c5 ++ c6))))).drop 0).take c1.length = c1 := by
      simp
    have s2 := slice_mid c1 c2 (c3 ++ c4 ++ c5 ++ c6)
    have s3 := slice_mid (c1 ++ c2) c3 (c4 ++ c5 ++ c6)
    have s4 := slice_mid (c1 ++ c2 ++ c3) c4 (c5 ++ c6)
    have s5 := slice_mid (c1 ++ c2 ++ c3 ++ c4) c5 c6
    have s6 := slice_mid (c1 ++ c2 ++ c3 ++ c4 ++ c5) c6 []
    simp only [List.append_assoc, List.append_nil] at s2 s3 s4 s5 s6
    simp only [List.append_assoc]
    refine List.Forall₂.cons ⟨rfl, ?_, ?_, ?_, ?_⟩
      (List.Forall₂.cons ⟨rfl, ?_, ?_, ?_, ?_⟩
        (List.Forall₂.cons ⟨rfl, ?_, ?_, ?_, ?_⟩
          (List.Forall₂.cons ⟨rfl, ?_, ?_, ?_, ?_⟩
            (List.Forall₂.cons ⟨rfl, ?_, ?_, ?_, ?_⟩
              (List.Forall₂.cons ⟨rfl, ?_, ?_, ?_, ?_⟩ List.Forall₂.nil)))))
    all_goals dsimp only
    all_goals first
      | omega
      | (simp only [List.length_append]; push_cast; omega)
      | (simp only [Int.toNat_sub, Int.toNat_ofNat, Int.toNat_zero, sub_zero]
         first
           | exact s1
           | exact s2
           | exact s3
           | exact s4
           | exact s5
           | exact s6)


/-- C8. When the resolved channel dimensions are non-negative, `buildEmbedding` returns a
result whose flat vector has the summed length of the six components and whose six offset ranges,
in the documented order, partition it: the first starts at 0, each starts where the previous one
ends, the last ends at `len(flat)`, and `flat[start:end]` is the component of the same name. -/
theorem buildEmbedding_partition (m : MathFns F) (rt : Runtime) (cfg : ServerConfig F)
    (sc : Scenario F)
    (h1 : 0 ≤ (resolveParams cfg sc.Params).ResServiceStopTime)
    (h2 : 0 ≤ (resolveParams cfg sc.Params).ResServiceWindowStart)
    (h3 : 0 ≤ (resolveParams cfg sc.Params).ResServiceWindowDuration)
    (h4 : 0 ≤ (resolveParams cfg sc.Params).ResPinnedAccounts)
    (h5 : 0 ≤ (resolveParams cfg sc.Params).ResAgentsAvailable)
    (h6 : 0 ≤ (resolveParams cfg sc.Params).ResAgentStartLocations) :
    ∃ r, buildEmbedding m rt cfg sc = some r ∧
      r.Embedding.length = (r.Components.map (fun c => c.2.length)).sum ∧
      r.Components.map (fun c => c.1) = channelOrder ∧
      r.Offsets.map (fun o => o.1) = channelOrder ∧
      r.Meta.order = channelOrder ∧
      r.Offsets.head?.map (fun o => o.2.1) = some 0 ∧
      r.Offsets.Chain' (fun a b => a.2.2 = b.2.1) ∧
      r.Offsets.getLast?.map (fun o => o.2.2) = some (r.Embedding.length : Int) ∧
      List.Forall₂ (fun o c => o.1 = c.1 ∧ 0 ≤ o.2.1 ∧ o.2.1 ≤ o.2.2 ∧
        o.2.2 ≤ (r.Embedding.length : Int) ∧
        (r.Embedding.drop o.2.1.toNat).take (o.2.2 - o.2.1).toNat = c.2)
        r.Offsets r.Components := by
  obtain ⟨v1, v2, v3, v4, v5, v6, hr⟩ := buildEmbedding_of_nonneg m rt cfg sc h1 h2 h3 h4 h5 h6
  exact ⟨_, hr, buildEmbedding_result_partition _ _ _ _ _ _ _⟩

end Embed

theorem buildEmbedding_partition_witness :
    ∃ r, buildEmbedding realMath (runtimeAt 0) (exampleConfig ℝ) (exampleScenario ℝ) = some r ∧
      r.Embedding.length = (r.Components.map (fun c => c.2.length)).sum ∧
      r.Components.map (fun c => c.1) = channelOrder ∧
      r.Offsets.map (fun o => o.1) = channelOrder ∧
      r.Meta.order = channelOrder ∧
      r.Offsets.head?.map (fun o => o.2.1) = some 0 ∧
      r.Offsets.Chain' (fun a b => a.2.2 = b.2.1) ∧
      r.Offsets.getLast?.map (fun o => o.2.2) = some (r.Embedding.length : Int) ∧
      List.Forall₂ (fun o c => o.1 = c.1 ∧ 0 ≤ o.2.1 ∧ o.2.1 ≤ o.2.2 ∧
        o.2.2 ≤ (r.Embedding.length : Int) ∧
        (r.Embedding.drop o.2.1.toNat).take (o.2.2 - o.2.1).toNat = c.2)
        r.Offsets r.Components :=
  buildEmbedding_partition realMath (runtimeAt 0) (exampleConfig ℝ) (exampleScenario ℝ)
    (by decide) (by decide) (by decide) (by decide) (by decide) (by decide)

/-! ## Embedding: unit norm of the channels -/

theorem foldl_sq (v : List ℝ) :
    ∀ s : ℝ, v.foldl (fun s x => s + x * x) s = s + (v.map (fun x => x ^ 2)).sum := by
  induction v with
  | nil => intro s; simp
  | cons x xs ih =>
    intro s
    rw [List.foldl_cons, ih, List.map_cons, List.sum_cons]
    ring

theorem sumSq_nonneg (v : List ℝ) : 0 ≤ (v.map (fun x => x ^ 2)).sum := by
  induction v with
  | nil => simp
  | cons x xs ih =>
    rw [List.map_cons, List.sum_cons]
    positivity

theorem sumSq_eq_zero (v : List ℝ) :
    (v.map (fun x => x ^ 2)).sum = 0 ↔ ∀ x ∈ v, x = 0 := by
  induction v with
  | nil => simp
  | cons x xs ih =>
    rw [List.map_cons, List.sum_cons]
    have h1 := sumSq_nonneg xs
    have h2 := sq_nonneg x
    constructor
    · intro h
      have hx : x ^ 2 = 0 := by linarith
      have hxs : (xs.map (fun x => x ^ 2)).sum = 0 := by linarith
      intro y hy
      rcases List.mem_cons.mp hy with rfl | hy
      · exact pow_eq_zero_iff (by norm_num) |>.mp hx
      · exact ih.mp hxs y hy
    · intro h
      have hx : x = 0 := h x (List.mem_cons_self _ _)
      have hxs := ih.mpr (fun y hy => h y (List.mem_cons_of_mem _ hy))
      rw [hx, hxs]
      norm_num

theorem sumSq_map_mul (v : List ℝ) (c : ℝ) :
    ((v.map (fun x => x * c)).map (fun x => x ^ 2)).sum = c ^ 2 * (v.map (fun x => x ^ 2)).sum := by
  induction v with
  | nil => simp
  | cons x xs ih =>
    simp only [List.map_cons, List.sum_cons] at ih ⊢
    rw [ih]
    ring

theorem l2Normalize_real (v : List ℝ) :
    ((∀ x ∈ v, x = 0) → l2Normalize realMath v = v) ∧
    (¬ (∀ x ∈ v, x = 0) →
      Real.sqrt (((l2Normalize realMath v).map (fun x => x ^ 2)).sum) = 1) := by
  have hss : v.foldl (fun s x => s + x * x) 0 = (v.map (fun x => x ^ 2)).sum := by
    rw [foldl_sq]; ring
  constructor
  · intro h
    unfold l2Normalize
    simp only [hss, (sumSq_eq_zero v).mpr h, if_true]
  · intro h
    have hne : (v.map (fun x => x ^ 2)).sum ≠ 0 := fun h0 => h ((sumSq_eq_zero v).mp h0)
    have hpos : 0 < (v.map (fun x => x ^ 2)).sum := lt_of_le_of_ne (sumSq_nonneg v) (Ne.symm hne)
    unfold l2Normalize
    simp only [hss, hne, if_false]
    rw [sumSq_map_mul]
    have hsq : realMath.Sqrt (v.map (fun x => x ^ 2)).sum ^ 2 = (v.map (fun x => x ^ 2)).sum :=
      Real.sq_sqrt hpos.le
    have : (1 / realMath.Sqrt (v.map (fun x => x ^ 2)).sum) ^ 2 *
        (v.map (fun x => x ^ 2)).sum = 1 := by
      rw [div_pow, hsq, one_pow]
      field_simp
    rw [this, Real.sqrt_one]

/-- C9. Over the reals, `l2Normalize` leaves the zero vector unchanged and maps every other
vector to one of Euclidean norm exactly 1; consequently each of the six channels returned by
`buildEmbedding` is all zeros or has L2 norm 1. -/
theorem l2Normalize_unit (v : List ℝ) (rt : Runtime) (cfg : ServerConfig ℝ) (sc : Scenario ℝ) :
    ((∀ x ∈ v, x = 0) → l2Normalize realMath v = v) ∧
    (¬ (∀ x ∈ v, x = 0) →
      Real.sqrt (((l2Normalize realMath v).map (fun x => x ^ 2)).sum) = 1) ∧
    (∀ r, buildEmbedding realMath rt cfg sc = some r →
      r.Components.map (fun c => c.1) = channelOrder ∧
      ∀ c ∈ r.Components,
        (∀ x ∈ c.2, x = 0) ∨ Real.sqrt ((c.2.map (fun x => x ^ 2)).sum) = 1) := by
  refine ⟨(l2Normalize_real v).1, (l2Normalize_real v).2, ?_⟩
  intro r hr
  obtain ⟨v1, v2, v3, v4, v5, v6, rfl⟩ := buildEmbedding_of_some realMath rt cfg sc r hr
  refine ⟨rfl, ?_⟩
  have key : ∀ w : List ℝ, (∀ x ∈ l2Normalize realMath w, x = 0) ∨
      Real.sqrt (((l2Normalize realMath w).map (fun x => x ^ 2)).sum) = 1 := by
    intro w
    by_cases hw : ∀ x ∈ w, x = 0
    · left
      rw [(l2Normalize_real w).1 hw]
      exact hw
    · right
      exact (l2Normalize_real w).2 hw
  intro c hc
  simp only [buildEmbedding_result, List.mem_cons, List.mem_singleton, List.not_mem_nil,
    or_false] at hc
  rcases hc with rfl | rfl | rfl | rfl | rfl | rfl <;> exact key _

theorem l2Normalize_unit_witness :
    ¬ (∀ x ∈ ([3, 4] : List ℝ), x = 0) ∧
    Real.sqrt (((l2Normalize realMath ([3, 4] : List ℝ)).map (fun x => x ^ 2)).sum) = 1 ∧
    ∃ r, buildEmbedding realMath (runtimeAt 0) (exampleConfig ℝ) (exampleScenario ℝ) = some r ∧
      ∀ c ∈ r.Components,
        (∀ x ∈ c.2, x = 0) ∨ Real.sqrt ((c.2.map (fun x => x ^ 2)).sum) = 1 := by
  have hne : ¬ (∀ x ∈ ([3, 4] : List ℝ), x = 0) := by
    intro h
    have h3 : (3 : ℝ) = 0 := h 3 (List.mem_cons_self _ _)
    norm_num at h3
  obtain ⟨v1, v2, v3, v4, v5, v6, hr⟩ := buildEmbedding_of_nonneg realMath (runtimeAt 0)
    (exampleConfig ℝ) (exampleScenario ℝ) (by decide) (by decide) (by decide) (by decide)
    (by decide) (by decide)
  have T := l2Normalize_unit [3, 4] (runtimeAt 0) (exampleConfig ℝ) (exampleScenario ℝ)
  exact ⟨hne, T.2.1 hne, _, hr, (T.2.2 _ hr).2⟩

/-! ## Embedding: dependence on the call time -/

theorem foldl_congr_mem {α β : Type} (f g : β → α → β) :
    ∀ (l : List α) (b : β), (∀ a ∈ l, ∀ b, f b a = g b a) → l.foldl f b = l.foldl g b := by
  intro l
  induction l with
  | nil => intro b _; rfl
  | cons x xs ih =>
    intro b h
    rw [List.foldl_cons, List.foldl_cons, h x (List.mem_cons_self _ _) b]
    exact ih _ (fun a ha => h a (List.mem_cons_of_mem _ ha))

theorem activeDays_static (rt : Runtime) (sch : Schedule) (cycle : Int)
    (h : expandSchedule rt.upper sch cycle ≠ [] ∨ TrimSpace sch.RRule = "") :
    buildEmbedding_activeDays rt sch cycle = expandSchedule rt.upper sch cycle := by
  rw [buildEmbedding_activeDays_eq]
  rcases h with h | h
  · rw [if_neg h]
  · split_ifs with h0
    · rw [expandScheduleRRULE_blank rt sch cycle h, h0]
    · rfl

/-- C10 (amended). For a scenario in which every account has a non-empty tag expansion or a
blank raw rule string, `buildEmbedding` returns the same result in any two environments with the
same case table, whatever their clock readings and rule evaluators: the embedding does not
depend on the time of the call. -/
theorem buildEmbedding_deterministic {F : Type} [LinearOrderedField F] (m : MathFns F)
    (rt₁ rt₂ : Runtime) (cfg : ServerConfig F) (sc : Scenario F) (hup : rt₁.upper = rt₂.upper)
    (h : ∀ acc ∈ sc.Accounts,
      expandSchedule rt₁.upper acc.Schedule (resolveParams cfg sc.Params).CycleDays ≠ [] ∨
        TrimSpace acc.Schedule.RRule = "") :
    buildEmbedding m rt₁ cfg sc = buildEmbedding m rt₂ cfg sc := by
  have hstep : ∀ acc ∈ sc.Accounts, ∀ vs : AccountVecs F,
      buildEmbedding_account m rt₁ (resolveParams cfg sc.Params) cfg.Embedding.Overshoot
          cfg.Embedding.BaseFrequency sc.Agents.length
          (if sc.Globals.MaxAgents ≤ 0 then goMax 1 sc.Agents.length else sc.Globals.MaxAgents)
          vs acc =
        buildEmbedding_account m rt₂ (resolveParams cfg sc.Params) cfg.Embedding.Overshoot
          cfg.Embedding.BaseFrequency sc.Agents.length
          (if sc.Globals.MaxAgents ≤ 0 then goMax 1 sc.Agents.length else sc.Globals.MaxAgents)
          vs acc := by
    intro acc hacc vs
    have h1 := activeDays_static rt₁ acc.Schedule _ (h acc hacc)
    have h2 := activeDays_static rt₂ acc.Schedule (resolveParams cfg sc.Params).CycleDays
      (by rw [← hup]; exact h acc hacc)
    unfold buildEmbedding_account
    rw [h1, h2, hup]
  unfold buildEmbedding
  simp only [foldl_congr_mem _ _ sc.Accounts _ hstep]

theorem buildEmbedding_deterministic_witness :
    buildEmbedding realMath (runtimeAt 0) (exampleConfig ℝ) (exampleScenario ℝ) =
      buildEmbedding realMath (runtimeAt jan5) (exampleConfig ℝ) (exampleScenario ℝ) :=
  buildEmbedding_deterministic realMath (runtimeAt 0) (runtimeAt jan5) (exampleConfig ℝ)
    (exampleScenario ℝ) rfl (by
      intro acc hacc
      simp only [exampleScenario, List.mem_singleton] at hacc
      subst hacc
      exact Or.inl (by decide))

theorem rruleScenario_activeDays_before :
    buildEmbedding_activeDays (runtimeAt (jan5 - 24 * Hour)) ⟨"", "", oneShotRule⟩ 4 = [1] := by
  rw [buildEmbedding_activeDays_eq, expandScheduleRRULE_eq]
  decide

theorem rruleScenario_activeDays_after :
    buildEmbedding_activeDays (runtimeAt (jan5 + 24 * Hour)) ⟨"", "", oneShotRule⟩ 4 = [] := by
  rw [buildEmbedding_activeDays_eq, expandScheduleRRULE_eq]
  decide

theorem rruleScenario_params :
    resolveParams (bareConfig ℝ) (rruleScenario ℝ).Params = ⟨1, 0, 0, 0, 0, 0, [5], 4⟩ := by
  rfl

theorem l2Normalize_nil : l2Normalize realMath ([] : List ℝ) = [] := by
  simp [l2Normalize]

theorem l2Normalize_zero1 : l2Normalize realMath ([0] : List ℝ) = [0] := by
  simp [l2Normalize]

theorem l2Normalize_one1 : l2Normalize realMath ([1] : List ℝ) = [1] := by
  simp [l2Normalize, realMath]

theorem superimpose_nil (amp baseFreq : ℝ) (levels : List Int) (phi : ℝ) :
    superimpose realMath ([] : List ℝ) amp baseFreq levels phi = [] := by
  simp [superimpose]

theorem amplitude_full : amplitude (clamp ((200 : ℝ) / 200) 0 1) 0 = 1 := by
  norm_num [amplitude, clamp]

theorem normalize_lat0 : normalize (0 : ℝ) (-90) 90 = 1 / 2 := by
  norm_num [normalize]

theorem normalize_lng0 : normalize (0 : ℝ) (-180) 180 = 1 / 2 := by
  norm_num [normalize]

theorem phShift_day1 : phShift realMath (1 / 2 : ℝ) (1 / 2) 1 4 = Real.pi / 2 := by
  have h : goMax 1 4 = 4 := by decide
  simp only [phShift, realMath, h]
  push_cast
  ring

theorem frequency_level5 : frequencyForLevel realMath (1 : ℝ) 5 = 1 := by
  have h : wrapInt64 (5 - 5) = 0 := by decide
  simp only [frequencyForLevel, realMath, h]
  norm_num

theorem superimpose_day1 :
    superimpose realMath ([0] : List ℝ) 1 1 [5] (Real.pi / 2) = [1] := by
  simp [superimpose, frequency_level5, realMath]

theorem replicate_one_zero : List.replicate (Int.toNat 1) (0 : ℝ) = [0] := rfl

theorem not_one_lt_zero : ¬ ((1 : Int) < 0) := by decide

theorem rruleScenario_before :
    (buildEmbedding realMath (runtimeAt (jan5 - 24 * Hour)) (bareConfig ℝ)
      (rruleScenario ℝ)).map (fun r => r.Embedding) = some [1] := by
  unfold buildEmbedding
  rw [rruleScenario_params]
  simp only [makeZeros, rruleScenario, bareConfig, List.foldl_cons, List.foldl_nil,
    buildEmbedding_account, rruleScenario_activeDays_before]
  simp only [lt_self_iff_false, if_false, Int.toNat_zero, List.replicate_zero, Option.pure_def,
    Option.bind_eq_bind, Option.some_bind, superimpose_nil, l2Normalize_nil]
  rw [if_neg not_one_lt_zero, Option.some_bind, replicate_one_zero, amplitude_full,
    normalize_lat0, normalize_lng0, phShift_day1, superimpose_day1, l2Normalize_one1]
  rfl

theorem rruleScenario_after :
    (buildEmbedding realMath (runtimeAt (jan5 + 24 * Hour)) (bareConfig ℝ)
      (rruleScenario ℝ)).map (fun r => r.Embedding) = some [0] := by
  unfold buildEmbedding
  rw [rruleScenario_params]
  simp only [makeZeros, rruleScenario, bareConfig, List.foldl_cons, List.foldl_nil,
    buildEmbedding_account, rruleScenario_activeDays_after]
  simp only [lt_self_iff_false, if_false, Int.toNat_zero, List.replicate_zero, Option.pure_def,
    Option.bind_eq_bind, Option.some_bind, l2Normalize_nil]
  rw [if_neg not_one_lt_zero, Option.some_bind, replicate_one_zero, l2Normalize_zero1]
  rfl

/-- C10, as stated, fails for an account scheduled by a raw rule: the same scenario and
configuration give the flat embedding `[1]` when the call is made on 2026-01-04 (the rule's
occurrence is day 1 of the window that starts on the day of the call) and `[0]` when it is made on
2026-01-06 (the occurrence lies before the window). -/
theorem buildEmbedding_deterministic_counterexample :
    (buildEmbedding realMath (runtimeAt (jan5 - 24 * Hour)) (bareConfig ℝ)
      (rruleScenario ℝ)).map (fun r => r.Embedding) = some [1] ∧
    (buildEmbedding realMath (runtimeAt (jan5 + 24 * Hour)) (bareConfig ℝ)
      (rruleScenario ℝ)).map (fun r => r.Embedding) = some [0] ∧
    buildEmbedding realMath (runtimeAt (jan5 - 24 * Hour)) (bareConfig ℝ) (rruleScenario ℝ) ≠
      buildEmbedding realMath (runtimeAt (jan5 + 24 * Hour)) (bareConfig ℝ) (rruleScenario ℝ) := by
  refine ⟨rruleScenario_before, rruleScenario_after, ?_⟩
  intro h
  have h1 := rruleScenario_before
  rw [h, rruleScenario_after] at h1
  have h2 : ([0] : List ℝ) = [1] := Option.some.inj h1
  have h3 : (0 : ℝ) = 1 := List.head_eq_of_cons_eq h2
  exact zero_ne_one h3

/-! ## Vector store: the fallback search -/

section SearchLemmas

variable {F : Type} [LinearOrderedField F]

theorem l2NormalizeCopy_length (m : MathFns F) (v : List F) :
    (l2NormalizeCopy m v).length = v.length := by
  unfold l2NormalizeCopy
  simp only []
  split_ifs
  · rfl
  · exact List.length_map _ _

theorem cosineDistance_loop_eq :
    ∀ (a b : List F) (acc : F), a.length = b.length →
      cosineDistance_loop acc a b = some (acc + dot a b) := by
  intro a
  induction a with
  | nil =>
    intro b acc _
    simp [cosineDistance_loop, dot]
  | cons x xs ih =>
    intro b acc h
    cases b with
    | nil => simp at h
    | cons y ys =>
      simp only [List.length_cons, add_left_inj] at h
      rw [cosineDistance_loop, ih ys _ h]
      simp only [dot, List.zipWith_cons_cons, List.sum_cons]
      rw [add_assoc]

theorem cosineDistance_eq (a b : List F) (h : a.length = b.length) :
    cosineDistance a b = some (1 - dot a b) := by
  unfold cosineDistance
  rw [cosineDistance_loop_eq a b 0 h]
  simp

/-- What one row contributes to the buffer of the fallback search. -/
theorem searchSimilar_row_eq (m : MathFns F) (dim : Int) (query : List F)
    (hq : (query.length : Int) = dim) (buf : List (String × F)) (row : EmbeddingRow F) :
    searchSimilar_row m dim (l2NormalizeCopy m query) buf row =
      some (buf ++ (match row.vector_json with
        | some v =>
          if (v.length : Int) = dim then
            some (row.id, 1 - dot (l2NormalizeCopy m query) (l2NormalizeCopy m v))
          else none
        | none => none).toList) := by
  unfold searchSimilar_row
  cases hv : row.vector_json with
  | none => simp
  | some v =>
    simp only []
    split_ifs with hl
    · have hlen : (l2NormalizeCopy m query).length = (l2NormalizeCopy m v).length := by
        rw [l2NormalizeCopy_length, l2NormalizeCopy_length]
        have : (query.length : Int) = (v.length : Int) := by rw [hq, hl]
        exact_mod_cast this
      rw [cosineDistance_eq _ _ hlen]
      simp
    · simp

theorem foldlM_append_filterMap {α β : Type} (f : List β → α → Option (List β))
    (g : α → Option β) (hf : ∀ buf a, f buf a = some (buf ++ (g a).toList)) :
    ∀ (l : List α) (buf : List β), l.foldlM f buf = some (buf ++ l.filterMap g) := by
  intro l
  induction l with
  | nil => intro buf; simp
  | cons a as ih =>
    intro buf
    rw [List.foldlM_cons, hf]
    simp only [Option.bind_eq_bind, Option.some_bind]
    rw [ih]
    cases hg : g a with
    | none => simp [List.filterMap_cons, hg]
    | some b => simp [List.filterMap_cons, hg]

theorem searchSimilar_buf (m : MathFns F) (dim : Int) (query : List F)
    (hq : (query.length : Int) = dim) (table : List (EmbeddingRow F))
    (hwf : ∀ row ∈ table, ∀ v, row.vector_json = some v → row.dim = (v.length : Int)) :
    (table.filter (fun row => row.dim == dim)).foldlM
        (searchSimilar_row m dim (l2NormalizeCopy m query)) [] =
      some (bruteForce m table dim query) := by
  rw [foldlM_append_filterMap _ _ (searchSimilar_row_eq m dim query hq)]
  simp only [List.nil_append, bruteForce, storedVectors, List.filterMap_filter,
    List.map_filterMap]
  congr 1
  apply List.filterMap_congr
  intro row hrow
  cases hv : row.vector_json with
  | none => simp
  | some v =>
    have hd := hwf row hrow v hv
    by_cases hl : (v.length : Int) = dim
    · have : (row.dim == dim) = true := by rw [hd, hl]; simp
      simp [this, hl]
    · simp [hl]

theorem minInt_pos_toNat (k : Int) (n : Nat) (hk : 0 < k) :
    (minInt k n).toNat ≤ n ∧ (((minInt k n).toNat : Nat) : Int) = min k (n : Int) := by
  unfold minInt
  split_ifs with h
  · constructor
    · omega
    · rw [min_eq_left (le_of_lt h)]
      omega
  · constructor
    · simp
    · rw [min_eq_right (not_lt.mp h)]
      simp

theorem defaulted_pos (k : Int) : 0 < (if k ≤ 0 then 5 else k) := by
  split_ifs <;> omega


/-- The fallback of `searchSimilar` against the list `bruteForce`, for any scalar field and math
library: the number of hits, the rearrangement, the order and the link to `searchSimilar`. -/
theorem searchSimilar_fallback_bruteForce (db : DB F) (sorter : SliceSorter F) (m : MathFns F)
    (dim : Int) (query : List F) (k : Int) (table : List (EmbeddingRow F))
    (hq : (query.length : Int) = dim) (ht : db.embeddings = .ok table)
    (hwf : ∀ row ∈ table, ∀ v, row.vector_json = some v → row.dim = (v.length : Int)) :
    ∃ (hits : List (SearchHit F)) (rest : List (String × F)),
      searchSimilar_fallback db sorter m dim query (if k ≤ 0 then 5 else k) = some (.ok hits) ∧
      (hits.length : Int) = min (if k ≤ 0 then 5 else k) ((storedVectors table dim).length : Int) ∧
      (hits.map (fun h => (h.Ref, h.Distance)) ++ rest).Perm (bruteForce m table dim query) ∧
      hits.Pairwise (fun a b => a.Distance ≤ b.Distance) ∧
      (∀ h ∈ hits, ∀ r ∈ rest, h.Distance ≤ r.2) ∧
      (searchSimilar_index db dim query (if k ≤ 0 then 5 else k) = some none →
        searchSimilar (some db) sorter m dim query k = some (.ok hits)) := by
  have hbuf := searchSimilar_buf m dim query hq table hwf
  have hk := defaulted_pos k
  generalize hk' : (if k ≤ 0 then (5 : Int) else k) = k' at hk ⊢
  have hfb : searchSimilar_fallback db sorter m dim query k' =
      some (.ok (((sorter.sort (bruteForce m table dim query)).take
        (minInt k' (bruteForce m table dim query).length).toNat).map
          (fun e => (⟨e.1, e.2⟩ : SearchHit F)))) := by
    unfold searchSimilar_fallback
    simp only [ht, hbuf]
  have hperm := sorter.perm (bruteForce m table dim query)
  have hsorted := sorter.sorted (bruteForce m table dim query)
  have hlen : (bruteForce m table dim query).length = (storedVectors table dim).length := by
    simp [bruteForce]
  obtain ⟨hn1, hn2⟩ := minInt_pos_toNat k' (bruteForce m table dim query).length hk
  generalize (minInt k' (bruteForce m table dim query).length).toNat = n at hfb hn1 hn2
  have hsplit := List.take_append_drop n (sorter.sort (bruteForce m table dim query))
  rw [← hsplit] at hsorted
  have hpw := List.pairwise_append.mp hsorted
  refine ⟨_, (sorter.sort (bruteForce m table dim query)).drop n, hfb, ?_, ?_, ?_, ?_, ?_⟩
  · rw [List.length_map, List.length_take, hperm.length_eq, min_eq_left hn1, hn2, hlen]
  · rw [List.map_map]
    have hid : ((fun h : SearchHit F => (h.Ref, h.Distance)) ∘
        (fun e : String × F => (⟨e.1, e.2⟩ : SearchHit F))) = id := by
      funext e
      rfl
    rw [hid, List.map_id, hsplit]
    exact hperm
  · rw [List.pairwise_map]
    exact hpw.1
  · intro h hh r hr
    rw [List.mem_map] at hh
    obtain ⟨e, he, rfl⟩ := hh
    exact hpw.2.2 e he r hr
  · intro hidx
    unfold searchSimilar
    simp only [hk', hidx, hfb]

end SearchLemmas

theorem exampleTable_wellFormed :
    ∀ row ∈ exampleTable ℝ, ∀ v, row.vector_json = some v → row.dim = (v.length : Int) := by
  intro row hrow v hv
  simp only [exampleTable, List.mem_cons, List.mem_singleton, List.not_mem_nil, or_false] at hrow
  rcases hrow with rfl | rfl | rfl <;>
    · simp only [Option.some.injEq] at hv
      subst hv
      rfl

/-! ## Vector store: the cosine distance -/

section DistanceLemmas

variable {F : Type} [LinearOrderedField F]

theorem foldl_sq_zero (v : List F) (h : ∀ x ∈ v, x = 0) :
    v.foldl (fun s x => s + x * x) 0 = 0 := by
  induction v with
  | nil => rfl
  | cons x xs ih =>
    have hx : x = 0 := h x (List.mem_cons_self _ _)
    rw [List.foldl_cons, hx]
    simp only [mul_zero, add_zero]
    exact ih (fun y hy => h y (List.mem_cons_of_mem _ hy))

theorem l2NormalizeCopy_zero (m : MathFns F) (v : List F) (h : ∀ x ∈ v, x = 0) :
    l2NormalizeCopy m v = v := by
  unfold l2NormalizeCopy
  simp only [foldl_sq_zero v h, if_true]

theorem dot_zero_left : ∀ (a b : List F), (∀ x ∈ a, x = 0) → dot a b = 0 := by
  intro a
  induction a with
  | nil => intro b _; simp [dot]
  | cons x xs ih =>
    intro b h
    cases b with
    | nil => simp [dot]
    | cons y ys =>
      have hx : x = 0 := h x (List.mem_cons_self _ _)
      have := ih ys (fun z hz => h z (List.mem_cons_of_mem _ hz))
      simp only [dot, List.zipWith_cons_cons, List.sum_cons] at this ⊢
      rw [this, hx]
      simp

theorem dot_comm : ∀ (a b : List F), dot a b = dot b a := by
  intro a
  induction a with
  | nil => intro b; cases b <;> simp [dot]
  | cons x xs ih =>
    intro b
    cases b with
    | nil => simp [dot]
    | cons y ys =>
      have := ih ys
      simp only [dot, List.zipWith_cons_cons, List.sum_cons] at this ⊢
      rw [this, mul_comm]

end DistanceLemmas

theorem dot_self (a : List ℝ) : dot a a = (a.map (fun x => x ^ 2)).sum := by
  induction a with
  | nil => simp [dot]
  | cons x xs ih =>
    simp only [dot, List.zipWith_cons_cons, List.sum_cons, List.map_cons] at ih ⊢
    rw [ih]
    ring

theorem dot_bounds : ∀ (a b : List ℝ), a.length = b.length →
    2 * dot a b ≤ (a.map (fun x => x ^ 2)).sum + (b.map (fun x => x ^ 2)).sum ∧
    -((a.map (fun x => x ^ 2)).sum + (b.map (fun x => x ^ 2)).sum) ≤ 2 * dot a b := by
  intro a
  induction a with
  | nil =>
    intro b h
    cases b with
    | nil => simp [dot]
    | cons y ys => simp at h
  | cons x xs ih =>
    intro b h
    cases b with
    | nil => simp at h
    | cons y ys =>
      simp only [List.length_cons, add_left_inj] at h
      obtain ⟨h1, h2⟩ := ih ys h
      simp only [dot, List.zipWith_cons_cons, List.sum_cons, List.map_cons] at h1 h2 ⊢
      constructor
      · nlinarith [sq_nonneg (x - y)]
      · nlinarith [sq_nonneg (x + y)]

theorem l2NormalizeCopy_eq (v : List ℝ) : l2NormalizeCopy realMath v = l2Normalize realMath v :=
  rfl

theorem l2NormalizeCopy_sumSq (v : List ℝ) :
    ((∀ x ∈ v, x = 0) ∧ ((l2NormalizeCopy realMath v).map (fun x => x ^ 2)).sum = 0) ∨
    (¬ (∀ x ∈ v, x = 0) ∧ ((l2NormalizeCopy realMath v).map (fun x => x ^ 2)).sum = 1) := by
  rw [l2NormalizeCopy_eq]
  by_cases h : ∀ x ∈ v, x = 0
  · left
    refine ⟨h, ?_⟩
    rw [(l2Normalize_real v).1 h]
    exact (sumSq_eq_zero v).mpr h
  · right
    refine ⟨h, ?_⟩
    exact Real.sqrt_eq_one.mp ((l2Normalize_real v).2 h)

theorem l2NormalizeCopy_scale (a : List ℝ) (c : ℝ) (hc : 0 < c) (ha : ¬ (∀ x ∈ a, x = 0)) :
    l2NormalizeCopy realMath (a.map (fun x => c * x)) = l2NormalizeCopy realMath a := by
  have hne : (a.map (fun x => x ^ 2)).sum ≠ 0 := fun h0 => ha ((sumSq_eq_zero a).mp h0)
  have hpos : 0 < (a.map (fun x => x ^ 2)).sum := lt_of_le_of_ne (sumSq_nonneg a) (Ne.symm hne)
  have hssa : a.foldl (fun s x => s + x * x) 0 = (a.map (fun x => x ^ 2)).sum := by
    rw [foldl_sq]; ring
  have hmap : a.map (fun x => c * x) = a.map (fun x => x * c) := by
    apply List.map_congr_left
    intro x _
    exact mul_comm c x
  have hssb : (a.map (fun x => c * x)).foldl (fun s x => s + x * x) 0 =
      c ^ 2 * (a.map (fun x => x ^ 2)).sum := by
    rw [foldl_sq, hmap, sumSq_map_mul]; ring
  have hb0 : c ^ 2 * (a.map (fun x => x ^ 2)).sum ≠ 0 := by positivity
  have hsqrt : Real.sqrt (c ^ 2 * (a.map (fun x => x ^ 2)).sum) =
      c * Real.sqrt ((a.map (fun x => x ^ 2)).sum) := by
    rw [Real.sqrt_mul (sq_nonneg c), Real.sqrt_sq hc.le]
  have hs : 0 < Real.sqrt ((a.map (fun x => x ^ 2)).sum) := Real.sqrt_pos.mpr hpos
  unfold l2NormalizeCopy
  simp only [hssa, hssb, hne, hb0, if_false, realMath, hsqrt, List.map_map]
  apply List.map_congr_left
  intro x _
  simp only [Function.comp]
  field_simp
  ring

/-- C12. Over the reals, for vectors `a` and `b` of equal length the search distance
`cosineDistance(l2NormalizeCopy(a), l2NormalizeCopy(b))` is defined and lies in `[0, 2]`, and it
is 0 whenever `a` is non-zero and `b` is a positive scalar multiple of `a`. -/
theorem cosineDistance_range (a b : List ℝ) (h : a.length = b.length) :
    ∃ d, cosineDistance (l2NormalizeCopy realMath a) (l2NormalizeCopy realMath b) = some d ∧
      0 ≤ d ∧ d ≤ 2 ∧
      (∀ c : ℝ, 0 < c → ¬ (∀ x ∈ a, x = 0) → b = a.map (fun x => c * x) → d = 0) := by
  have hlen : (l2NormalizeCopy realMath a).length = (l2NormalizeCopy realMath b).length := by
    rw [l2NormalizeCopy_length, l2NormalizeCopy_length, h]
  obtain ⟨h1, h2⟩ := dot_bounds _ _ hlen
  have ha : ((l2NormalizeCopy realMath a).map (fun x => x ^ 2)).sum ≤ 1 := by
    rcases l2NormalizeCopy_sumSq a with ⟨_, e⟩ | ⟨_, e⟩ <;> linarith
  have hb : ((l2NormalizeCopy realMath b).map (fun x => x ^ 2)).sum ≤ 1 := by
    rcases l2NormalizeCopy_sumSq b with ⟨_, e⟩ | ⟨_, e⟩ <;> linarith
  refine ⟨_, cosineDistance_eq _ _ hlen, by linarith, by linarith, ?_⟩
  intro c hc hnz hbc
  rw [hbc, l2NormalizeCopy_scale a c hc hnz, dot_self]
  rcases l2NormalizeCopy_sumSq a with ⟨hz, _⟩ | ⟨_, e⟩
  · exact absurd hz hnz
  · rw [e]; norm_num

theorem cosineDistance_range_witness :
    ∃ d, cosineDistance (l2NormalizeCopy realMath ([3, 4] : List ℝ))
        (l2NormalizeCopy realMath ([6, 8] : List ℝ)) = some d ∧
      0 ≤ d ∧ d ≤ 2 ∧
      (∀ c : ℝ, 0 < c → ¬ (∀ x ∈ ([3, 4] : List ℝ), x = 0) →
        ([6, 8] : List ℝ) = ([3, 4] : List ℝ).map (fun x => c * x) → d = 0) :=
  cosineDistance_range [3, 4] [6, 8] rfl

/-- C13. The function `l2NormalizeCopy` maps the zero vector to itself, and for vectors `a` and
`b` of equal length of which at least one is the zero vector the distance
`cosineDistance(l2NormalizeCopy(a), l2NormalizeCopy(b))` is exactly 1; over the reals the
divisor `sqrt(ss)` of the normalisation is never zero when the division is made (`ss ≠ 0`). -/
theorem cosineDistance_zero_vector {F : Type} [LinearOrderedField F] (m : MathFns F)
    (a b : List F) (h : a.length = b.length) :
    ((∀ x ∈ a, x = 0) → l2NormalizeCopy m a = a) ∧
    ((∀ x ∈ a, x = 0) ∨ (∀ x ∈ b, x = 0) →
      cosineDistance (l2NormalizeCopy m a) (l2NormalizeCopy m b) = some 1) ∧
    (∀ v : List ℝ, v.foldl (fun s x => s + x * x) 0 ≠ 0 →
      realMath.Sqrt (v.foldl (fun s x => s + x * x) 0) ≠ 0) := by
  refine ⟨l2NormalizeCopy_zero m a, ?_, ?_⟩
  · intro hz
    have hlen : (l2NormalizeCopy m a).length = (l2NormalizeCopy m b).length := by
      rw [l2NormalizeCopy_length, l2NormalizeCopy_length, h]
    rw [cosineDistance_eq _ _ hlen]
    rcases hz with hz | hz
    · rw [l2NormalizeCopy_zero m a hz, dot_zero_left _ _ hz, sub_zero]
    · rw [l2NormalizeCopy_zero m b hz, dot_comm, dot_zero_left _ _ hz, sub_zero]
  · intro v hv
    have hss : v.foldl (fun s x => s + x * x) 0 = (v.map (fun x => x ^ 2)).sum := by
      rw [foldl_sq]; ring
    rw [hss] at hv ⊢
    have hpos : 0 < (v.map (fun x => x ^ 2)).sum := lt_of_le_of_ne (sumSq_nonneg v) (Ne.symm hv)
    exact ne_of_gt (Real.sqrt_pos.mpr hpos)

theorem cosineDistance_zero_vector_witness :
    l2NormalizeCopy realMath ([0, 0] : List ℝ) = [0, 0] ∧
    cosineDistance (l2NormalizeCopy realMath ([0, 0] : List ℝ))
      (l2NormalizeCopy realMath ([3, 4] : List ℝ)) = some 1 :=
  have T := cosineDistance_zero_vector realMath ([0, 0] : List ℝ) [3, 4] rfl
  have hz : ∀ x ∈ ([0, 0] : List ℝ), x = 0 := by
    intro x hx
    simp only [List.mem_cons, List.mem_singleton, List.not_mem_nil, or_false, or_self] at hx
    exact hx
  ⟨T.1 hz, T.2.1 (Or.inl hz)⟩

/-- C14: the code at the failing input. With an open database, `searchSimilar` called with a
zero-length query panics (the count `dim - 1` of `strings.Repeat` is negative) before any query is
made, and so does `handleSearch`, which performs no validation of its own. -/
theorem searchSimilar_empty_query {F : Type} [LinearOrderedField F] (db : DB F)
    (sorter : SliceSorter F) (m : MathFns F) (k : Int) :
    searchSimilar (some db) sorter m 0 [] k = none ∧
    handleSearch (some db) sorter m [] k = none := by
  have hidx : ∀ k' : Int, searchSimilar_index db 0 ([] : List F) k' = none := by
    intro k'
    unfold searchSimilar_index
    have hw : wrapInt64 (0 - 1) < 0 := by decide
    simp only [hw, if_true]
  have hs : searchSimilar (some db) sorter m 0 [] k = none := by
    unfold searchSimilar
    simp only [hidx]
  refine ⟨hs, ?_⟩
  unfold handleSearch
  simp only [List.length_nil, Nat.cast_zero, hs]

/-! ## Vector store: the fallback search over the reals -/

theorem l2NormalizeCopy_unitVector (v : List ℝ) :
    l2NormalizeCopy realMath v = unitVector Real.sqrt v := by
  have hss : v.foldl (fun s x => s + x * x) 0 = sumSquares v := by
    rw [foldl_sq]
    unfold sumSquares
    ring
  unfold l2NormalizeCopy unitVector
  dsimp only
  rw [hss]
  by_cases h : sumSquares v = 0
  · rw [if_pos h, if_pos h]
  · rw [if_neg h, if_neg h]
    apply List.map_congr_left
    intro x _
    exact mul_one_div x _

theorem bruteForce_normalised (table : List (EmbeddingRow ℝ)) (dim : Int) (query : List ℝ) :
    bruteForce realMath table dim query = normalisedDistances Real.sqrt table dim query := by
  unfold bruteForce normalisedDistances
  apply List.map_congr_left
  intro c _
  rw [l2NormalizeCopy_unitVector, l2NormalizeCopy_unitVector]

theorem unitVector_zero (v : List ℝ) (h : ∀ x ∈ v, x = 0) : unitVector Real.sqrt v = v := by
  have h0 : sumSquares v = 0 := (sumSq_eq_zero v).mpr h
  unfold unitVector
  rw [if_pos h0]

theorem unitVector_norm (v : List ℝ) (h : ¬ ∀ x ∈ v, x = 0) :
    sumSquares (unitVector Real.sqrt v) = 1 := by
  rw [← l2NormalizeCopy_unitVector]
  rcases l2NormalizeCopy_sumSq v with ⟨hz, _⟩ | ⟨_, e⟩
  · exact absurd hz h
  · exact e

/-- C11. Over the reals: when the table `embeddings` can be read and holds rows as
`saveEmbedding` writes them (the `dim` column is the length of the vector), then for every query
of length `dim` and every `k` the fallback of `searchSimilar` returns exactly `min(k', m)` hits,
`m` being the number of stored vectors of length `dim` and `k'` the defaulted limit. The hits
together with the candidates left out are a rearrangement of the list of
`1 - dot(u(query), u(candidate))` over the stored vectors of length `dim`, where `u(v)` is `v`
divided by its Euclidean norm (norm 1 for a non-zero `v`, the zero vector left as it is), so each
hit carries the normalised distance of its own candidate; the hits are in non-decreasing order of
distance and no candidate left out is nearer than a hit. `searchSimilar` returns the fallback's
result whenever the index path yields nothing. -/
theorem searchSimilar_fallback_correct (db : DB ℝ) (sorter : SliceSorter ℝ) (dim : Int)
    (query : List ℝ) (k : Int) (table : List (EmbeddingRow ℝ))
    (hq : (query.length : Int) = dim) (ht : db.embeddings = .ok table)
    (hwf : ∀ row ∈ table, ∀ v, row.vector_json = some v → row.dim = (v.length : Int)) :
    (∃ (hits : List (SearchHit ℝ)) (rest : List (String × ℝ)),
      searchSimilar_fallback db sorter realMath dim query (if k ≤ 0 then 5 else k) =
        some (.ok hits) ∧
      (hits.length : Int) =
        min (if k ≤ 0 then 5 else k) ((storedVectors table dim).length : Int) ∧
      (hits.map (fun h => (h.Ref, h.Distance)) ++ rest).Perm
        (normalisedDistances Real.sqrt table dim query) ∧
      hits.Pairwise (fun a b => a.Distance ≤ b.Distance) ∧
      (∀ h ∈ hits, ∀ r ∈ rest, h.Distance ≤ r.2) ∧
      (searchSimilar_index db dim query (if k ≤ 0 then 5 else k) = some none →
        searchSimilar (some db) sorter realMath dim query k = some (.ok hits))) ∧
    (∀ v : List ℝ, l2NormalizeCopy realMath v = unitVector Real.sqrt v) ∧
    (∀ v : List ℝ, (∀ x ∈ v, x = 0) → unitVector Real.sqrt v = v) ∧
    (∀ v : List ℝ, ¬ (∀ x ∈ v, x = 0) →
      unitVector Real.sqrt v = v.map (fun x => x / Real.sqrt (sumSquares v)) ∧
      sumSquares (unitVector Real.sqrt v) = 1) := by
  refine ⟨?_, l2NormalizeCopy_unitVector, unitVector_zero, ?_⟩
  · obtain ⟨hits, rest, h1, h2, h3, h4, h5, h6⟩ :=
      searchSimilar_fallback_bruteForce db sorter realMath dim query k table hq ht hwf
    rw [bruteForce_normalised] at h3
    exact ⟨hits, rest, h1, h2, h3, h4, h5, h6⟩
  · intro v hv
    refine ⟨?_, unitVector_norm v hv⟩
    have h0 : sumSquares v ≠ 0 := fun h0 => hv ((sumSq_eq_zero v).mp h0)
    unfold unitVector
    rw [if_neg h0]

theorem unitVector_three_four : unitVector Real.sqrt ([3, 4] : List ℝ) = [3 / 5, 4 / 5] := by
  have hs : sumSquares ([3, 4] : List ℝ) = 5 ^ 2 := by
    unfold sumSquares
    simp only [List.map_cons, List.map_nil, List.sum_cons, List.sum_nil]
    norm_num
  have hq : Real.sqrt (5 ^ 2) = 5 := Real.sqrt_sq (by norm_num)
  unfold unitVector
  rw [hs, if_neg (by norm_num), hq]
  rfl

theorem unitVector_one_zero : unitVector Real.sqrt ([1, 0] : List ℝ) = [1, 0] := by
  have hs : sumSquares ([1, 0] : List ℝ) = 1 := by
    unfold sumSquares
    simp only [List.map_cons, List.map_nil, List.sum_cons, List.sum_nil]
    norm_num
  unfold unitVector
  rw [hs, if_neg one_ne_zero, Real.sqrt_one]
  simp

theorem unitVector_zero_one : unitVector Real.sqrt ([0, 1] : List ℝ) = [0, 1] := by
  have hs : sumSquares ([0, 1] : List ℝ) = 1 := by
    unfold sumSquares
    simp only [List.map_cons, List.map_nil, List.sum_cons, List.sum_nil]
    norm_num
  unfold unitVector
  rw [hs, if_neg one_ne_zero, Real.sqrt_one]
  simp

theorem normalisedDistances_example :
    normalisedDistances Real.sqrt (exampleTable ℝ) 2 [3, 4] = [("e1", 2 / 5), ("e2", 1 / 5)] := by
  have hst : storedVectors (exampleTable ℝ) 2 = [("e1", [1, 0]), ("e2", [0, 1])] := by
    unfold storedVectors exampleTable
    simp
  unfold normalisedDistances
  rw [hst]
  simp only [List.map_cons, List.map_nil, unitVector_three_four, unitVector_one_zero,
    unitVector_zero_one, dot, List.zipWith_cons_cons, List.zipWith_nil_right, List.sum_cons,
    List.sum_nil]
  norm_num

theorem searchSimilar_fallback_correct_witness :
    ∃ (hits : List (SearchHit ℝ)) (rest : List (String × ℝ)),
      searchSimilar_fallback (exampleDB ℝ) (insertionSorter ℝ) realMath 2 [3, 4]
        (if (0 : Int) ≤ 0 then 5 else 0) = some (.ok hits) ∧
      (hits.length : Int) =
        min (if (0 : Int) ≤ 0 then 5 else 0) ((storedVectors (exampleTable ℝ) 2).length : Int) ∧
      (hits.map (fun h => (h.Ref, h.Distance)) ++ rest).Perm
        [("e1", 2 / 5), ("e2", 1 / 5)] ∧
      hits.Pairwise (fun a b => a.Distance ≤ b.Distance) ∧
      (∀ h ∈ hits, ∀ r ∈ rest, h.Distance ≤ r.2) ∧
      (searchSimilar_index (exampleDB ℝ) 2 [3, 4] (if (0 : Int) ≤ 0 then 5 else 0) = some none →
        searchSimilar (some (exampleDB ℝ)) (insertionSorter ℝ) realMath 2 [3, 4] 0 =
          some (.ok hits)) := by
  obtain ⟨hits, rest, h1, h2, h3, h4, h5, h6⟩ :=
    (searchSimilar_fallback_correct (exampleDB ℝ) (insertionSorter ℝ) 2 [3, 4] 0
      (exampleTable ℝ) rfl rfl exampleTable_wellFormed).1
  rw [normalisedDistances_example] at h3
  exact ⟨hits, rest, h1, h2, h3, h4, h5, h6⟩

/-! ## Heatmap: the map of accumulated amplitudes -/

section HeatmapLemmas

variable {F : Type} [LinearOrderedField F]

theorem mapAdd_keys (m : List (String × F)) (h : String) (amp : F) :
    (mapAdd m h amp).map Prod.fst =
      if h ∈ m.map Prod.fst then m.map Prod.fst else m.map Prod.fst ++ [h] := by
  induction m with
  | nil => simp [mapAdd]
  | cons e rest ih =>
    obtain ⟨k, v⟩ := e
    unfold mapAdd
    by_cases hk : k = h
    · subst hk
      simp
    · have hk' : ¬ h = k := fun e => hk e.symm
      simp only [hk, if_false, List.map_cons, ih, List.mem_cons, hk', false_or]
      split_ifs <;> simp

theorem mapAdd_nodup (m : List (String × F)) (h : String) (amp : F)
    (hn : (m.map Prod.fst).Nodup) : ((mapAdd m h amp).map Prod.fst).Nodup := by
  rw [mapAdd_keys]
  split_ifs with hm
  · exact hn
  · rw [List.nodup_append]
    refine ⟨hn, List.nodup_singleton _, ?_⟩
    intro x hx hx'
    rw [List.mem_singleton] at hx'
    exact hm (hx' ▸ hx)

theorem mapAdd_mem_keys (m : List (String × F)) (h : String) (amp : F) (k : String) :
    k ∈ (mapAdd m h amp).map Prod.fst ↔ k ∈ m.map Prod.fst ∨ k = h := by
  rw [mapAdd_keys]
  split_ifs with hm
  · constructor
    · intro hk; exact Or.inl hk
    · rintro (hk | rfl)
      · exact hk
      · exact hm
  · simp

theorem mapAdd_lookup (m : List (String × F)) (h : String) (amp : F) (k : String) :
    (mapAdd m h amp).lookup k =
      if k = h then some ((m.lookup h).getD 0 + amp) else m.lookup k := by
  induction m with
  | nil =>
    by_cases hk : k = h
    · subst hk
      simp [mapAdd, List.lookup]
    · have hb : (k == h) = false := by simpa using hk
      simp [mapAdd, List.lookup, hk, hb]
  | cons e rest ih =>
    obtain ⟨k0, v0⟩ := e
    unfold mapAdd
    by_cases h0 : k0 = h
    · subst h0
      by_cases hk : k = k0
      · subst hk
        simp [List.lookup]
      · have : (k == k0) = false := by simpa using hk
        simp [List.lookup, this, hk]
    · simp only [h0, if_false]
      have h0' : (h == k0) = false := by simpa using fun e : h = k0 => h0 e.symm
      by_cases hk0 : k = k0
      · subst hk0
        have : ¬ k = h := h0
        simp [List.lookup, this]
      · have hb : (k == k0) = false := by simpa using hk0
        simp only [List.lookup, hb, h0', ih]

omit [LinearOrderedField F] in
theorem lookup_of_nodup (m : List (String × F)) (hn : (m.map Prod.fst).Nodup) (k : String)
    (v : F) : (k, v) ∈ m ↔ m.lookup k = some v := by
  induction m with
  | nil => simp [List.lookup]
  | cons e rest ih =>
    obtain ⟨k0, v0⟩ := e
    rw [List.map_cons, List.nodup_cons] at hn
    by_cases hk : k = k0
    · subst hk
      have hnot : ∀ w, (k, w) ∉ rest := by
        intro w hw
        exact hn.1 (List.mem_map.mpr ⟨(k, w), hw, rfl⟩)
      simp only [List.mem_cons, Prod.mk.injEq, true_and, hnot, or_false, List.lookup, beq_self_eq_true,
        Option.some.injEq]
      exact eq_comm
    · have hb : (k == k0) = false := by simpa using hk
      simp only [List.mem_cons, Prod.mk.injEq, hk, false_and, false_or, List.lookup, hb]
      exact ih hn.2

/-- The sum of the amplitudes entered under a key. -/
theorem foldl_mapAdd_lookup (ps : List (String × F)) :
    ∀ (m : List (String × F)) (k : String),
      (ps.foldl (fun m p => mapAdd m p.1 p.2) m).lookup k =
        if k ∈ ps.map Prod.fst then
          some ((m.lookup k).getD 0 + ((ps.filter (fun p => p.1 = k)).map Prod.snd).sum)
        else m.lookup k := by
  induction ps with
  | nil => intro m k; simp
  | cons p ps ih =>
    intro m k
    obtain ⟨h, a⟩ := p
    rw [List.foldl_cons, ih, mapAdd_lookup]
    by_cases hk : k = h
    · subst hk
      by_cases hmem : k ∈ ps.map Prod.fst
      · simp [hmem, List.filter_cons, add_assoc]
      · have hf : ps.filter (fun p => decide (p.1 = k)) = [] := by
          rw [List.filter_eq_nil_iff]
          intro p hp hpk
          exact hmem (List.mem_map.mpr ⟨p, hp, by simpa using hpk⟩)
        simp [hmem, List.filter_cons, hf]
    · have hk' : ¬ h = k := fun e => hk e.symm
      have hmem : k ∈ h :: ps.map Prod.fst ↔ k ∈ ps.map Prod.fst := by
        rw [List.mem_cons]
        exact ⟨fun hh => hh.resolve_left hk, Or.inr⟩
      simp only [hk, if_false, List.map_cons, List.filter_cons, hk', decide_False,
        Bool.false_eq_true, hmem]

theorem foldl_mapAdd_nodup (ps : List (String × F)) :
    ∀ (m : List (String × F)), (m.map Prod.fst).Nodup →
      ((ps.foldl (fun m p => mapAdd m p.1 p.2) m).map Prod.fst).Nodup := by
  induction ps with
  | nil => intro m hm; exact hm
  | cons p ps ih =>
    intro m hm
    rw [List.foldl_cons]
    exact ih _ (mapAdd_nodup m p.1 p.2 hm)

theorem foldl_mapAdd_mem (ps : List (String × F)) (k : String) (v : F) :
    (k, v) ∈ ps.foldl (fun m p => mapAdd m p.1 p.2) [] ↔
      k ∈ ps.map Prod.fst ∧ v = ((ps.filter (fun p => p.1 = k)).map Prod.snd).sum := by
  rw [lookup_of_nodup _ (foldl_mapAdd_nodup ps [] (by simp)), foldl_mapAdd_lookup]
  by_cases hk : k ∈ ps.map Prod.fst
  · simp only [hk, if_true, List.lookup, Option.getD_none, zero_add, Option.some.injEq, true_and]
    exact eq_comm
  · simp [hk, List.lookup]


theorem heatmapFor_amp_recognised (sc : Scenario F) (acc : Account F) (feature : String)
    (hf : feature ∈ recognisedFeatures) :
    heatmapFor_amp sc acc feature = some (featureAmplitude sc feature acc) := by
  simp only [recognisedFeatures, List.mem_cons, List.mem_singleton, List.not_mem_nil,
    or_false] at hf
  rcases hf with rfl | rfl | rfl | rfl | rfl <;> rfl

theorem heatmapFor_amp_unknown (sc : Scenario F) (acc : Account F) (feature : String)
    (hf : feature ∉ recognisedFeatures) : heatmapFor_amp sc acc feature = none := by
  simp only [recognisedFeatures, List.mem_cons, List.mem_singleton, List.not_mem_nil,
    or_false, not_or] at hf
  obtain ⟨h1, h2, h3, h4, h5⟩ := hf
  unfold heatmapFor_amp
  simp only [h1, h2, h3, h4, h5, if_false]

theorem heatmapFor_fold_recognised (rt : Runtime) (h3 : H3Lib F) (sc : Scenario F)
    (feature : String) (day h3Level cycle : Int) (hf : feature ∈ recognisedFeatures) :
    ∀ (l : List (Account F)) (m : List (String × F)),
      l.foldl (heatmapFor_account rt h3 sc feature day h3Level cycle) m =
        ((l.filter (fun a => (heatmapFor_active rt a.Schedule cycle).contains day)).map
          (fun a => (cellOf h3 h3Level a, featureAmplitude sc feature a))).foldl
            (fun m p => mapAdd m p.1 p.2) m := by
  intro l
  induction l with
  | nil => intro m; rfl
  | cons a as ih =>
    intro m
    rw [List.foldl_cons, ih]
    unfold heatmapFor_account
    rw [heatmapFor_amp_recognised sc a feature hf]
    by_cases hact : (heatmapFor_active rt a.Schedule cycle).contains day = true
    · simp only [hact, Bool.not_true, Bool.false_eq_true, if_false, List.filter_cons, if_true,
        List.map_cons, List.foldl_cons, cellOf]
    · simp only [hact, Bool.not_false, if_true, List.filter_cons, if_false]
      simp

theorem heatmapFor_fold_unknown (rt : Runtime) (h3 : H3Lib F) (sc : Scenario F)
    (feature : String) (day h3Level cycle : Int) (hf : feature ∉ recognisedFeatures) :
    ∀ (l : List (Account F)) (m : List (String × F)),
      l.foldl (heatmapFor_account rt h3 sc feature day h3Level cycle) m = m := by
  intro l
  induction l with
  | nil => intro m; rfl
  | cons a as ih =>
    intro m
    rw [List.foldl_cons, ih]
    unfold heatmapFor_account
    rw [heatmapFor_amp_unknown sc a feature hf]
    simp

omit [LinearOrderedField F] in
theorem filterMap_keys_sublist (h3 : H3Lib F) (o : List (String × F)) :
    ((o.filterMap (fun e =>
      match h3.UnmarshalText e.1 with
      | none => none
      | some cell =>
        some ({ H3Index := e.1, Lat := (h3.CellToLatLng cell).1, Lng := (h3.CellToLatLng cell).2,
                Value := e.2 } : HeatCell F))).map (fun c => c.H3Index)).Sublist
      (o.map Prod.fst) := by
  induction o with
  | nil => simp
  | cons e rest ih =>
    rw [List.filterMap_cons]
    cases hu : h3.UnmarshalText e.1 with
    | none =>
      simp only [List.map_cons]
      exact List.Sublist.cons _ ih
    | some cell =>
      simp only [List.map_cons]
      exact List.Sublist.cons₂ _ ih

/-- The records of `heatmapFor` for a recognised feature: the entries of the accumulated map
whose key `UnmarshalText` accepts. -/
theorem heatmapFor_mem (rt : Runtime) (h3 : H3Lib F) (rng : MapRange F) (cfg : ServerConfig F)
    (sc : Scenario F) (feature : String) (day h3Level : Int)
    (hf : feature ∈ recognisedFeatures) (c : HeatCell F) :
    c ∈ heatmapFor rt h3 rng cfg sc feature day h3Level ↔
      (∃ a ∈ heatmapAccounts rt cfg sc day, cellOf h3 h3Level a = c.H3Index) ∧
      c.Value = (((heatmapAccounts rt cfg sc day).filter
        (fun a => cellOf h3 h3Level a = c.H3Index)).map (featureAmplitude sc feature)).sum ∧
      ∃ cell, h3.UnmarshalText c.H3Index = some cell ∧
        c.Lat = (h3.CellToLatLng cell).1 ∧ c.Lng = (h3.CellToLatLng cell).2 := by
  unfold heatmapFor
  simp only [heatmapFor_fold_recognised rt h3 sc feature day h3Level _ hf, List.mem_filterMap]
  have hsum : ∀ k : String,
      (((((sc.Accounts.filter (fun a => (heatmapFor_active rt a.Schedule
        (if sc.Params.CycleDays = 0 then cfg.Embedding.CycleDays
          else sc.Params.CycleDays)).contains day)).map
        (fun a => (cellOf h3 h3Level a, featureAmplitude sc feature a))).filter
          (fun p => p.1 = k)).map Prod.snd).sum) =
      (((heatmapAccounts rt cfg sc day).filter (fun a => cellOf h3 h3Level a = k)).map
        (featureAmplitude sc feature)).sum := by
    intro k
    rw [List.filter_map, List.map_map]
    rfl
  have hkeys : ∀ k : String,
      k ∈ ((sc.Accounts.filter (fun a => (heatmapFor_active rt a.Schedule
        (if sc.Params.CycleDays = 0 then cfg.Embedding.CycleDays
          else sc.Params.CycleDays)).contains day)).map
        (fun a => (cellOf h3 h3Level a, featureAmplitude sc feature a))).map Prod.fst ↔
      ∃ a ∈ heatmapAccounts rt cfg sc day, cellOf h3 h3Level a = k := by
    intro k
    rw [List.map_map, List.mem_map]
    rfl
  constructor
  · rintro ⟨e, he, hg⟩
    have he' := (rng.perm _).mem_iff.mp he
    obtain ⟨k, v⟩ := e
    rw [foldl_mapAdd_mem, hkeys, hsum] at he'
    cases hu : h3.UnmarshalText k with
    | none => simp [hu] at hg
    | some cell =>
      simp only [hu, Option.some.injEq] at hg
      subst hg
      exact ⟨he'.1, he'.2, cell, hu, rfl, rfl⟩
  · rintro ⟨hk, hv, cell, hu, hlat, hlng⟩
    refine ⟨(c.H3Index, c.Value), ?_, ?_⟩
    · apply (rng.perm _).mem_iff.mpr
      rw [foldl_mapAdd_mem, hkeys, hsum]
      exact ⟨hk, hv⟩
    · simp only [hu, ← hlat, ← hlng]

theorem heatmapFor_nodup (rt : Runtime) (h3 : H3Lib F) (rng : MapRange F) (cfg : ServerConfig F)
    (sc : Scenario F) (feature : String) (day h3Level : Int) :
    ((heatmapFor rt h3 rng cfg sc feature day h3Level).map (fun c => c.H3Index)).Nodup := by
  unfold heatmapFor
  apply List.Nodup.sublist (filterMap_keys_sublist h3 _)
  apply ((rng.perm _).map Prod.fst).nodup_iff.mpr
  by_cases hf : feature ∈ recognisedFeatures
  · rw [heatmapFor_fold_recognised rt h3 sc feature day h3Level _ hf]
    exact foldl_mapAdd_nodup _ [] (by simp)
  · rw [heatmapFor_fold_unknown rt h3 sc feature day h3Level _ hf]
    simp

end HeatmapLemmas

/-! ## Heatmap: the records -/

section HeatmapClaims

variable {F : Type} [LinearOrderedField F]

theorem weekly_mon_active (rt : Runtime) (r : String) (cycle : Int) (hc : 0 < cycle) :
    (heatmapFor_active rt ⟨"WEEKLY", "Mon", r⟩ cycle).contains 0 = true := by
  have hmem : (0 : Int) ∈ expandSchedule rt.upper ⟨"WEEKLY", "Mon", r⟩ cycle := by
    rw [expandSchedule_WEEKLY_eq, mem_offsetsFrom]
    refine ⟨le_refl _, hc, ?_⟩
    have : weekdayIndex rt.upper "Mon" = 0 := rfl
    rw [this]
    rfl
  have hne : expandSchedule rt.upper ⟨"WEEKLY", "Mon", r⟩ cycle ≠ [] :=
    List.ne_nil_of_mem hmem
  rw [heatmapFor_active_eq, buildEmbedding_activeDays_eq, if_neg hne]
  simpa using hmem

theorem clamp_half : clamp ((100 : F) / 200) 0 1 = 1 / 2 := by
  unfold clamp
  rw [if_neg (by norm_num), if_neg (by norm_num)]
  norm_num

theorem heatmapFor_single (rt : Runtime) (h3 : H3Lib F) (rng : MapRange F)
    (cfg : ServerConfig F) (sc : Scenario F) (h3Level : Int) (a : Account F) (r : String)
    (cell : Nat) (hacc : sc.Accounts = [a]) (hs : a.Schedule = ⟨"WEEKLY", "Mon", r⟩)
    (hm : a.EstimatedServiceMinutes = 100)
    (hc : 0 < (if sc.Params.CycleDays = 0 then cfg.Embedding.CycleDays
      else sc.Params.CycleDays))
    (hu : h3.UnmarshalText (cellOf h3 h3Level a) = some cell) :
    heatmapFor rt h3 rng cfg sc "service_stop_time" 0 h3Level =
      [{ H3Index := cellOf h3 h3Level a, Lat := (h3.CellToLatLng cell).1,
         Lng := (h3.CellToLatLng cell).2, Value := 1 / 2 }] := by
  have hact := weekly_mon_active rt r _ hc
  have hamp : heatmapFor_amp sc a "service_stop_time" = some (1 / 2) := by
    unfold heatmapFor_amp
    simp only [if_true, hm, clamp_half]
  have hfold : sc.Accounts.foldl (heatmapFor_account rt h3 sc "service_stop_time" 0 h3Level
      (if sc.Params.CycleDays = 0 then cfg.Embedding.CycleDays else sc.Params.CycleDays)) [] =
      [(cellOf h3 h3Level a, 1 / 2)] := by
    rw [hacc, List.foldl_cons, List.foldl_nil]
    unfold heatmapFor_account
    simp only [hs, hact, Bool.not_true, Bool.false_eq_true, if_false, hamp, mapAdd, zero_add,
      cellOf]
  have hord := List.perm_singleton.mp (rng.perm [(cellOf h3 h3Level a, (1 / 2 : F))])
  unfold heatmapFor
  simp only [hfold, hord, List.filterMap_cons, hu, List.filterMap_nil]

/-- C15 (amended). For a recognised feature name `heatmapFor` emits exactly one record per
distinct cell identifier that `UnmarshalText` accepts and that is the cell of at least one
account active on that day (identifiers it rejects are skipped); the record carries the centre of
the cell and the sum, over the active accounts in the cell, of the feature's raw clamped
amplitude, which is the ratio `buildEmbedding` clamps for that feature; a scenario with one
`WEEKLY`-Mon account with 100 service minutes gives, on day 0 of a cycle of at least one day and
when the cell is accepted, exactly one record, of value 0.5. -/
theorem heatmapFor_cells (rt : Runtime) (h3 : H3Lib F) (rng : MapRange F) (cfg : ServerConfig F)
    (sc : Scenario F) (feature : String) (day h3Level : Int)
    (hf : feature ∈ recognisedFeatures) :
    ((heatmapFor rt h3 rng cfg sc feature day h3Level).map (fun c => c.H3Index)).Nodup ∧
    (∀ hex : String,
      hex ∈ (heatmapFor rt h3 rng cfg sc feature day h3Level).map (fun c => c.H3Index) ↔
        (∃ a ∈ heatmapAccounts rt cfg sc day, cellOf h3 h3Level a = hex) ∧
          h3.UnmarshalText hex ≠ none) ∧
    (∀ c ∈ heatmapFor rt h3 rng cfg sc feature day h3Level,
      c.Value = (((heatmapAccounts rt cfg sc day).filter
        (fun a => cellOf h3 h3Level a = c.H3Index)).map (featureAmplitude sc feature)).sum ∧
      ∃ cell, h3.UnmarshalText c.H3Index = some cell ∧
        c.Lat = (h3.CellToLatLng cell).1 ∧ c.Lng = (h3.CellToLatLng cell).2) ∧
    (∀ acc : Account F, heatmapFor_amp sc acc feature = some (featureAmplitude sc feature acc)) ∧
    (∀ (m : MathFns F) (p : EmbeddingParams) (overshoot baseFreq : F) (vs : AccountVecs F)
      (acc : Account F),
      buildEmbedding_account m rt p overshoot baseFreq sc.Agents.length
          (if sc.Globals.MaxAgents ≤ 0 then goMax 1 sc.Agents.length else sc.Globals.MaxAgents)
          vs acc =
        (buildEmbedding_activeDays rt acc.Schedule p.CycleDays).foldl (fun v day =>
          { stopTimeVec := superimpose m v.stopTimeVec
              (amplitude (featureAmplitude sc "service_stop_time" acc) overshoot) baseFreq
              p.H3Levels
              (phShift m (normalize acc.Lat (-90) 90) (normalize acc.Lng (-180) 180) day
                p.CycleDays)
            winStartVec := superimpose m v.winStartVec
              (amplitude (featureAmplitude sc "service_window_start" acc) overshoot) baseFreq
              p.H3Levels
              (phShift m (normalize acc.Lat (-90) 90) (normalize acc.Lng (-180) 180) day
                p.CycleDays)
            winDurVec := superimpose m v.winDurVec
              (amplitude (featureAmplitude sc "service_window_duration" acc) overshoot) baseFreq
              p.H3Levels
              (phShift m (normalize acc.Lat (-90) 90) (normalize acc.Lng (-180) 180) day
                p.CycleDays)
            pinnedVec := superimpose m v.pinnedVec
              (amplitude (featureAmplitude sc "pinned_accounts" acc) overshoot) baseFreq
              p.H3Levels
              (phShift m (normalize acc.Lat (-90) 90) (normalize acc.Lng (-180) 180) day
                p.CycleDays)
            agentsAvailVec := superimpose m v.agentsAvailVec
              (amplitude (featureAmplitude sc "agents_available" acc) overshoot) baseFreq
              p.H3Levels
              (phShift m (normalize acc.Lat (-90) 90) (normalize acc.Lng (-180) 180) day
                p.CycleDays) }) vs) ∧
    (∀ (a : Account F) (r : String) (cell : Nat), sc.Accounts = [a] →
      a.Schedule = ⟨"WEEKLY", "Mon", r⟩ → a.EstimatedServiceMinutes = 100 →
      0 < (if sc.Params.CycleDays = 0 then cfg.Embedding.CycleDays else sc.Params.CycleDays) →
      h3.UnmarshalText (cellOf h3 h3Level a) = some cell →
      heatmapFor rt h3 rng cfg sc "service_stop_time" 0 h3Level =
        [{ H3Index := cellOf h3 h3Level a, Lat := (h3.CellToLatLng cell).1,
           Lng := (h3.CellToLatLng cell).2, Value := 1 / 2 }]) := by
  refine ⟨heatmapFor_nodup rt h3 rng cfg sc feature day h3Level, ?_, ?_,
    fun acc => heatmapFor_amp_recognised sc acc feature hf, ?_, ?_⟩
  · intro hex
    rw [List.mem_map]
    constructor
    · rintro ⟨c, hc, rfl⟩
      obtain ⟨h1, _, cell, hu, _⟩ :=
        (heatmapFor_mem rt h3 rng cfg sc feature day h3Level hf c).mp hc
      exact ⟨h1, hu ▸ Option.some_ne_none cell⟩
    · rintro ⟨h1, hu⟩
      obtain ⟨cell, hcell⟩ := Option.ne_none_iff_exists'.mp hu
      refine ⟨⟨hex, (h3.CellToLatLng cell).1, (h3.CellToLatLng cell).2,
        (((heatmapAccounts rt cfg sc day).filter
          (fun a => cellOf h3 h3Level a = hex)).map (featureAmplitude sc feature)).sum⟩, ?_, rfl⟩
      exact (heatmapFor_mem rt h3 rng cfg sc feature day h3Level hf _).mpr
        ⟨h1, rfl, cell, hcell, rfl, rfl⟩
  · intro c hc
    exact ((heatmapFor_mem rt h3 rng cfg sc feature day h3Level hf c).mp hc).2
  · intro m p overshoot baseFreq vs acc
    rfl
  · intro a r cell hacc hs hm hc hu
    exact heatmapFor_single rt h3 rng cfg sc h3Level a r cell hacc hs hm hc hu

/-- C16. For a feature name that is not one of the five recognised names `heatmapFor` returns
the empty list, whatever the scenario, day, resolution, library and map iteration order. -/
theorem heatmapFor_unknown_feature (rt : Runtime) (h3 : H3Lib F) (rng : MapRange F)
    (cfg : ServerConfig F) (sc : Scenario F) (feature : String) (day h3Level : Int)
    (hf : feature ∉ recognisedFeatures) :
    heatmapFor rt h3 rng cfg sc feature day h3Level = [] := by
  have hord : rng.order [] = [] := List.Perm.eq_nil (rng.perm [])
  unfold heatmapFor
  dsimp only
  rw [heatmapFor_fold_unknown rt h3 sc feature day h3Level _ hf, hord, List.filterMap_nil]

end HeatmapClaims

theorem heatmapFor_unknown_feature_witness :
    "service_minutes" ∉ recognisedFeatures ∧
    heatmapFor (runtimeAt 0) (oneCellH3 ℝ) (insertionOrder ℝ) (exampleConfig ℝ)
      (exampleScenario ℝ) "service_minutes" 0 5 = [] :=
  ⟨by decide,
    heatmapFor_unknown_feature (runtimeAt 0) (oneCellH3 ℝ) (insertionOrder ℝ) (exampleConfig ℝ)
      (exampleScenario ℝ) "service_minutes" 0 5 (by decide)⟩

theorem heatmapFor_cells_witness :
    heatmapFor (runtimeAt 0) (oneCellH3 ℝ) (insertionOrder ℝ) (exampleConfig ℝ)
      (exampleScenario ℝ) "service_stop_time" 0 5 =
        [{ H3Index := "1", Lat := 0, Lng := 0, Value := 1 / 2 }] :=
  (heatmapFor_cells (runtimeAt 0) (oneCellH3 ℝ) (insertionOrder ℝ) (exampleConfig ℝ)
    (exampleScenario ℝ) "service_stop_time" 0 5 (by decide)).2.2.2.2.2
    ⟨"account-1", "account", 0, 0, 100, 0, 0, "", 0, ⟨"WEEKLY", "Mon", ""⟩⟩ "" 1 rfl rfl rfl
    (by decide) rfl

theorem exampleScenario_heatmapAccounts :
    heatmapAccounts (runtimeAt 0) (exampleConfig ℝ) (exampleScenario ℝ) 0 =
      (exampleScenario ℝ).Accounts := by
  rfl

/-- C15, as stated, fails when the library does not accept the identifier of a cell back: in
the one-cell model of `h3-go` the resolution 16 is out of range, the account of the example
scenario, active on day 0, is entered under the null index, and `heatmapFor` emits no record. -/
theorem heatmapFor_cells_counterexample :
    heatmapAccounts (runtimeAt 0) (exampleConfig ℝ) (exampleScenario ℝ) 0 =
      (exampleScenario ℝ).Accounts ∧
    (exampleScenario ℝ).Accounts.map (cellOf (oneCellH3 ℝ) 16) = ["0"] ∧
    heatmapFor (runtimeAt 0) (oneCellH3 ℝ) (insertionOrder ℝ) (exampleConfig ℝ)
      (exampleScenario ℝ) "service_stop_time" 0 16 = [] := by
  refine ⟨exampleScenario_heatmapAccounts, by decide, ?_⟩
  apply List.eq_nil_iff_forall_not_mem.mpr
  intro c hc
  obtain ⟨⟨a, ha, hcell⟩, _, cell, hu, _⟩ :=
    (heatmapFor_mem (runtimeAt 0) (oneCellH3 ℝ) (insertionOrder ℝ) (exampleConfig ℝ)
      (exampleScenario ℝ) "service_stop_time" 0 16 (by decide) c).mp hc
  have h0 : cellOf (oneCellH3 ℝ) 16 a = "0" := by
    unfold cellOf oneCellH3
    dsimp only
    rw [if_neg (by decide)]
    rfl
  have h1 : (oneCellH3 ℝ).UnmarshalText "0" = none := by decide
  rw [← hcell, h0, h1] at hu
  exact Option.noConfusion hu

/-! ## The feature vector: the six-number summary -/

section FeatureVectorLemmas

variable {F : Type} [LinearOrderedField F] [FloorRing F]

omit [FloorRing F] in
theorem sliceAt_eq (cp : List F) (i : Int) (h0 : 0 ≤ i) (h1 : i < cp.length) :
    sliceAt cp i = some (cp.getD i.toNat 0) := by
  unfold sliceAt
  rw [if_pos h0]
  have h : i.toNat < cp.length := by omega
  rw [List.getElem?_eq_getElem h, List.getD_eq_getElem cp 0 h]

theorem truncFloat_of_nonneg (x : F) (h : 0 ≤ x) : truncFloat x = ⌊x⌋ := by
  unfold truncFloat
  rw [if_pos h]

theorem simToVector_p_eq (cp : List F) (q : F) (hq : 0 ≤ q) (hne : cp ≠ []) :
    simToVector_p cp q = some (percentile cp q) := by
  have hlen : 0 < cp.length := List.length_pos.mpr hne
  have hn : (0 : F) ≤ (cp.length : F) - 1 := by
    have : (1 : F) ≤ (cp.length : F) := by exact_mod_cast hlen
    linarith
  have hpos : 0 ≤ q * ((cp.length : F) - 1) := mul_nonneg hq hn
  have hfl : 0 ≤ ⌊q * ((cp.length : F) - 1)⌋ := Int.floor_nonneg.mpr hpos
  unfold simToVector_p percentile
  by_cases h1 : cp.length = 1
  · rw [if_pos h1, if_pos h1, sliceAt_eq cp 0 (le_refl _) (by omega)]
    rfl
  · rw [if_neg h1, if_neg h1]
    dsimp only
    rw [truncFloat_of_nonneg _ hpos]
    by_cases h2 : ⌊q * ((cp.length : F) - 1)⌋ ≥ (cp.length : Int) - 1
    · rw [if_pos h2, if_pos h2, sliceAt_eq cp _ (by omega) (by omega)]
      congr 2
      omega
    · rw [if_neg h2, if_neg h2, sliceAt_eq cp _ hfl (by omega),
        sliceAt_eq cp _ (by omega) (by omega)]
      have e : (⌊q * ((cp.length : F) - 1)⌋ + 1).toNat =
          ⌊q * ((cp.length : F) - 1)⌋.toNat + 1 := by omega
      rw [e]
      rfl

omit [FloorRing F] in
theorem sortFloat64s_perm (vals : List F) : (sortFloat64s vals).Perm vals :=
  List.perm_insertionSort _ vals

omit [FloorRing F] in
theorem sortFloat64s_sorted (vals : List F) :
    (sortFloat64s vals).Pairwise (fun a b => a ≤ b) :=
  List.sorted_insertionSort _ vals

omit [FloorRing F] in
theorem sortFloat64s_length (vals : List F) : (sortFloat64s vals).length = vals.length :=
  (sortFloat64s_perm vals).length_eq

omit [FloorRing F] in
theorem foldl_add_eq_sum (l : List F) (s : F) : l.foldl (fun s v => s + v) s = s + l.sum := by
  induction l generalizing s with
  | nil => simp
  | cons a as ih => rw [List.foldl_cons, ih, List.sum_cons, add_assoc]

theorem simToVector_push_eq (vals : List F) (hne : vals ≠ []) :
    simToVector_push vals = some
      [(sortFloat64s vals).getD 0 0, (sortFloat64s vals).getD (vals.length - 1) 0,
        vals.sum / (vals.length : F), percentile (sortFloat64s vals) (1 / 2),
        percentile (sortFloat64s vals) (3 / 4), percentile (sortFloat64s vals) (19 / 20)] := by
  have hlen : 0 < vals.length := List.length_pos.mpr hne
  have hsl := sortFloat64s_length vals
  have hsne : sortFloat64s vals ≠ [] := by
    intro h
    rw [h] at hsl
    simp at hsl
    omega
  unfold simToVector_push
  rw [if_neg (by omega)]
  dsimp only
  rw [sliceAt_eq _ 0 (le_refl _) (by omega), sliceAt_eq _ _ (by omega) (by omega),
    simToVector_p_eq _ _ (by norm_num) hsne, simToVector_p_eq _ _ (by norm_num) hsne,
    simToVector_p_eq _ _ (by norm_num) hsne, foldl_add_eq_sum, zero_add,
    (sortFloat64s_perm vals).sum_eq, hsl]
  have e : ((vals.length : Int) - 1).toNat = vals.length - 1 := by omega
  rw [e]
  rfl

omit [FloorRing F] in
theorem sortFloat64s_first_le (vals : List F) (v : F) (hv : v ∈ vals) :
    (sortFloat64s vals).getD 0 0 ≤ v := by
  have hmem : v ∈ sortFloat64s vals := (sortFloat64s_perm vals).mem_iff.mpr hv
  have hs := sortFloat64s_sorted vals
  generalize sortFloat64s vals = s at hmem hs
  cases s with
  | nil => simp at hmem
  | cons a as =>
    rw [List.pairwise_cons] at hs
    rcases List.mem_cons.mp hmem with h | h
    · rw [h]; exact le_refl _
    · exact hs.1 v h

omit [FloorRing F] in
theorem sortFloat64s_le_last (vals : List F) (v : F) (hv : v ∈ vals) :
    v ≤ (sortFloat64s vals).getD (vals.length - 1) 0 := by
  have hmem : v ∈ sortFloat64s vals := (sortFloat64s_perm vals).mem_iff.mpr hv
  have hs := sortFloat64s_sorted vals
  rw [← sortFloat64s_length vals]
  generalize sortFloat64s vals = s at hmem hs
  obtain ⟨i, hi, rfl⟩ := List.getElem_of_mem hmem
  have hl : s.length - 1 < s.length := by omega
  rw [List.getD_eq_getElem s 0 hl]
  rcases Nat.lt_or_ge i (s.length - 1) with h | h
  · exact List.pairwise_iff_getElem.mp hs i (s.length - 1) hi hl h
  · have e : i = s.length - 1 := by omega
    subst e
    exact le_refl _

omit [FloorRing F] in
theorem sortFloat64s_getD_mem (vals : List F) (i : Nat) (hi : i < vals.length) :
    (sortFloat64s vals).getD i 0 ∈ vals := by
  have hl : i < (sortFloat64s vals).length := by rw [sortFloat64s_length]; exact hi
  rw [List.getD_eq_getElem _ 0 hl]
  exact (sortFloat64s_perm vals).mem_iff.mp (List.getElem_mem hl)

omit [FloorRing F] in
theorem sortFloat64s_example : sortFloat64s [(1 : F), 2, 3, 4, 5] = [1, 2, 3, 4, 5] := by
  have h12 : (1 : F) ≤ 2 := by norm_num
  have h23 : (2 : F) ≤ 3 := by norm_num
  have h34 : (3 : F) ≤ 4 := by norm_num
  have h45 : (4 : F) ≤ 5 := by norm_num
  simp only [sortFloat64s, List.insertionSort, List.orderedInsert, h12, h23, h34, h45, if_true]

theorem percentile_example :
    percentile [(1 : F), 2, 3, 4, 5] (1 / 2) = 3 ∧
    percentile [(1 : F), 2, 3, 4, 5] (3 / 4) = 4 ∧
    percentile [(1 : F), 2, 3, 4, 5] (19 / 20) = 24 / 5 := by
  have f1 : ⌊(1 / 2 : F) * (((5 : Nat) : F) - 1)⌋ = 2 := by
    rw [Int.floor_eq_iff]; constructor <;> norm_num
  have f2 : ⌊(3 / 4 : F) * (((5 : Nat) : F) - 1)⌋ = 3 := by
    rw [Int.floor_eq_iff]; constructor <;> norm_num
  have f3 : ⌊(19 / 20 : F) * (((5 : Nat) : F) - 1)⌋ = 3 := by
    rw [Int.floor_eq_iff]; constructor <;> norm_num
  have t2 : Int.toNat 2 = 2 := rfl
  have t3 : Int.toNat 3 = 3 := rfl
  refine ⟨?_, ?_, ?_⟩
  · unfold percentile
    simp only [List.length_cons, List.length_nil, Nat.reduceAdd, Nat.reduceEqDiff, if_false, f1, t2, t3]
    norm_num
  · unfold percentile
    simp only [List.length_cons, List.length_nil, Nat.reduceAdd, Nat.reduceEqDiff, if_false, f2, t2, t3]
    norm_num
  · unfold percentile
    simp only [List.length_cons, List.length_nil, Nat.reduceAdd, Nat.reduceEqDiff, if_false, f3, t2, t3]
    norm_num

theorem simToVector_push_some (vals : List F) :
    ∃ block, simToVector_push vals = some block ∧ block.length = 6 := by
  by_cases h : vals = []
  · subst h
    exact ⟨List.replicate 6 0, rfl, rfl⟩
  · exact ⟨_, simToVector_push_eq vals h, rfl⟩

/-- C17. The block `simToVector` emits for a distribution always has six entries: six zeros
for the empty distribution, and otherwise the first and last of the ascending-sorted values `s`
(the minimum and the maximum of the distribution), the arithmetic mean, and the
linear-interpolation percentiles of `s` at 1/2, 3/4 and 19/20; the vector of `simToVector` is the
four blocks followed by the four totals; and `[1,2,3,4,5]` gives 1, 5, 3, 3, 4, 4.8. -/
theorem simToVector_summary (stats : SimStats F) (vals : List F) :
    (∃ block, simToVector_push vals = some block ∧ block.length = 6 ∧
      (vals = [] → block = [0, 0, 0, 0, 0, 0]) ∧
      (vals ≠ [] → block =
        [(sortFloat64s vals).getD 0 0, (sortFloat64s vals).getD (vals.length - 1) 0,
          vals.sum / (vals.length : F), percentile (sortFloat64s vals) (1 / 2),
          percentile (sortFloat64s vals) (3 / 4), percentile (sortFloat64s vals) (19 / 20)])) ∧
    ((sortFloat64s vals).Pairwise (fun a b => a ≤ b) ∧ (sortFloat64s vals).Perm vals) ∧
    (vals ≠ [] →
      (sortFloat64s vals).getD 0 0 ∈ vals ∧
      (sortFloat64s vals).getD (vals.length - 1) 0 ∈ vals ∧
      ∀ v ∈ vals, (sortFloat64s vals).getD 0 0 ≤ v ∧
        v ≤ (sortFloat64s vals).getD (vals.length - 1) 0) ∧
    (∃ b1 b2 b3 b4, simToVector_push stats.DrivingSec = some b1 ∧
      simToVector_push stats.ServiceSec = some b2 ∧
      simToVector_push (stats.RepsUsed.map (fun x => (x : F))) = some b3 ∧
      simToVector_push [(stats.Unassigned : F)] = some b4 ∧
      simToVector stats = some (b1 ++ b2 ++ b3 ++ b4 ++
        [stats.TotalTravelSec, stats.TotalServiceSec, stats.TotalIdleSec,
          (stats.Unassigned : F)])) ∧
    simToVector_push [(1 : F), 2, 3, 4, 5] = some [1, 5, 3, 3, 4, 24 / 5] := by
  refine ⟨?_, ⟨sortFloat64s_sorted vals, sortFloat64s_perm vals⟩, ?_, ?_, ?_⟩
  · by_cases h : vals = []
    · subst h
      exact ⟨List.replicate 6 0, rfl, rfl, fun _ => rfl, fun h => absurd rfl h⟩
    · exact ⟨_, simToVector_push_eq vals h, rfl, fun h1 => absurd h1 h, fun _ => rfl⟩
  · intro h
    have hlen : 0 < vals.length := List.length_pos.mpr h
    exact ⟨sortFloat64s_getD_mem vals 0 hlen, sortFloat64s_getD_mem vals _ (by omega),
      fun v hv => ⟨sortFloat64s_first_le vals v hv, sortFloat64s_le_last vals v hv⟩⟩
  · obtain ⟨b1, h1, _⟩ := simToVector_push_some stats.DrivingSec
    obtain ⟨b2, h2, _⟩ := simToVector_push_some stats.ServiceSec
    obtain ⟨b3, h3, _⟩ := simToVector_push_some (stats.RepsUsed.map (fun x => (x : F)))
    obtain ⟨b4, h4, _⟩ := simToVector_push_some [(stats.Unassigned : F)]
    refine ⟨b1, b2, b3, b4, h1, h2, h3, h4, ?_⟩
    unfold simToVector
    rw [h1, h2, h3, h4]
    rfl
  · rw [simToVector_push_eq _ (List.cons_ne_nil _ _), sortFloat64s_example,
      (percentile_example).1, (percentile_example).2.1, (percentile_example).2.2]
    congr 2
    congr 1
    congr 1
    norm_num

end FeatureVectorLemmas
/-! ## Embedding: the channel lengths -/

section EmbedLengths

variable {F : Type} [LinearOrderedField F]

omit [LinearOrderedField F] in
theorem foldl_mapIdx_length (g : Int → Nat → F → F) (ls : List Int) (vec : List F) :
    (ls.foldl (fun v lvl => v.mapIdx (g lvl)) vec).length = vec.length := by
  induction ls generalizing vec with
  | nil => rfl
  | cons l ls ih => rw [List.foldl_cons, ih, List.length_mapIdx]

theorem superimpose_length (m : MathFns F) (vec : List F) (amp baseFreq : F)
    (h3Levels : List Int) (phi : F) :
    (superimpose m vec amp baseFreq h3Levels phi).length = vec.length := by
  unfold superimpose
  dsimp only
  split
  · rfl
  · exact foldl_mapIdx_length (fun lvl i x => x + amp * m.Sin (2 * m.Pi *
      frequencyForLevel m baseFreq lvl * ((i : F) / (vec.length : F)) + phi)) h3Levels vec

theorem l2Normalize_length (m : MathFns F) (v : List F) :
    (l2Normalize m v).length = v.length := by
  unfold l2Normalize
  dsimp only
  split
  · rfl
  · rw [List.length_map]

theorem buildEmbedding_agents_length (m : MathFns F) (p : EmbeddingParams)
    (overshoot baseFreq : F) (ags : List (Agent F)) (v : List F) :
    (ags.foldl (buildEmbedding_agent m p overshoot baseFreq) v).length = v.length := by
  induction ags generalizing v with
  | nil => rfl
  | cons a as ih =>
    rw [List.foldl_cons, ih]
    unfold buildEmbedding_agent
    exact superimpose_length _ _ _ _ _ _

theorem buildEmbedding_account_length (m : MathFns F) (rt : Runtime) (p : EmbeddingParams)
    (overshoot baseFreq : F) (nAgents : Nat) (maxAgents : Int) (vs : AccountVecs F)
    (acc : Account F) :
    (buildEmbedding_account m rt p overshoot baseFreq nAgents maxAgents vs acc).stopTimeVec.length
        = vs.stopTimeVec.length ∧
    (buildEmbedding_account m rt p overshoot baseFreq nAgents maxAgents vs acc).winStartVec.length
        = vs.winStartVec.length ∧
    (buildEmbedding_account m rt p overshoot baseFreq nAgents maxAgents vs acc).winDurVec.length
        = vs.winDurVec.length ∧
    (buildEmbedding_account m rt p overshoot baseFreq nAgents maxAgents vs acc).pinnedVec.length
        = vs.pinnedVec.length ∧
    (buildEmbedding_account m rt p overshoot baseFreq nAgents maxAgents vs acc).agentsAvailVec.length
        = vs.agentsAvailVec.length := by
  unfold buildEmbedding_account
  dsimp only
  generalize buildEmbedding_activeDays rt acc.Schedule p.CycleDays = days
  induction days generalizing vs with
  | nil => exact ⟨rfl, rfl, rfl, rfl, rfl⟩
  | cons d ds ih =>
    rw [List.foldl_cons]
    obtain ⟨e1, e2, e3, e4, e5⟩ := ih _
    rw [e1, e2, e3, e4, e5]
    dsimp only
    simp only [superimpose_length, and_self]

theorem buildEmbedding_accounts_length (m : MathFns F) (rt : Runtime) (p : EmbeddingParams)
    (overshoot baseFreq : F) (nAgents : Nat) (maxAgents : Int) (accs : List (Account F))
    (vs : AccountVecs F) :
    (accs.foldl (buildEmbedding_account m rt p overshoot baseFreq nAgents maxAgents)
        vs).stopTimeVec.length = vs.stopTimeVec.length ∧
    (accs.foldl (buildEmbedding_account m rt p overshoot baseFreq nAgents maxAgents)
        vs).winStartVec.length = vs.winStartVec.length ∧
    (accs.foldl (buildEmbedding_account m rt p overshoot baseFreq nAgents maxAgents)
        vs).winDurVec.length = vs.winDurVec.length ∧
    (accs.foldl (buildEmbedding_account m rt p overshoot baseFreq nAgents maxAgents)
        vs).pinnedVec.length = vs.pinnedVec.length ∧
    (accs.foldl (buildEmbedding_account m rt p overshoot baseFreq nAgents maxAgents)
        vs).agentsAvailVec.length = vs.agentsAvailVec.length := by
  induction accs generalizing vs with
  | nil => exact ⟨rfl, rfl, rfl, rfl, rfl⟩
  | cons a as ih =>
    rw [List.foldl_cons]
    obtain ⟨e1, e2, e3, e4, e5⟩ := ih (buildEmbedding_account m rt p overshoot baseFreq nAgents
      maxAgents vs a)
    obtain ⟨f1, f2, f3, f4, f5⟩ := buildEmbedding_account_length m rt p overshoot baseFreq nAgents
      maxAgents vs a
    exact ⟨e1.trans f1, e2.trans f2, e3.trans f3, e4.trans f4, e5.trans f5⟩

omit [LinearOrderedField F] in
theorem replicate_toNat_length (n : Int) (h : 0 ≤ n) (x : F) :
    ((List.replicate n.toNat x).length : Int) = n := by
  rw [List.length_replicate, Int.toNat_of_nonneg h]

theorem buildEmbedding_lengths (m : MathFns F) (rt : Runtime) (cfg : ServerConfig F)
    (sc : Scenario F)
    (h1 : 0 ≤ (resolveParams cfg sc.Params).ResServiceStopTime)
    (h2 : 0 ≤ (resolveParams cfg sc.Params).ResServiceWindowStart)
    (h3 : 0 ≤ (resolveParams cfg sc.Params).ResServiceWindowDuration)
    (h4 : 0 ≤ (resolveParams cfg sc.Params).ResPinnedAccounts)
    (h5 : 0 ≤ (resolveParams cfg sc.Params).ResAgentsAvailable)
    (h6 : 0 ≤ (resolveParams cfg sc.Params).ResAgentStartLocations) :
    ∃ c1 c2 c3 c4 c5 c6 : List F,
      buildEmbedding m rt cfg sc = some (buildEmbedding_result (resolveParams cfg sc.Params)
        c1 c2 c3 c4 c5 c6) ∧
      (c1.length : Int) = (resolveParams cfg sc.Params).ResServiceStopTime ∧
      (c2.length : Int) = (resolveParams cfg sc.Params).ResServiceWindowStart ∧
      (c3.length : Int) = (resolveParams cfg sc.Params).ResServiceWindowDuration ∧
      (c4.length : Int) = (resolveParams cfg sc.Params).ResPinnedAccounts ∧
      (c5.length : Int) = (resolveParams cfg sc.Params).ResAgentsAvailable ∧
      (c6.length : Int) = (resolveParams cfg sc.Params).ResAgentStartLocations := by
  unfold buildEmbedding
  simp only [makeZeros_some _ h1, makeZeros_some _ h2, makeZeros_some _ h3, makeZeros_some _ h4,
    makeZeros_some _ h5, makeZeros_some _ h6, Option.pure_def, Option.bind_eq_bind,
    Option.some_bind]
  refine ⟨_, _, _, _, _, _, rfl, ?_, ?_, ?_, ?_, ?_, ?_⟩
  · rw [l2Normalize_length, (buildEmbedding_accounts_length _ _ _ _ _ _ _ _ _).1]
    exact replicate_toNat_length _ h1 _
  · rw [l2Normalize_length, (buildEmbedding_accounts_length _ _ _ _ _ _ _ _ _).2.1]
    exact replicate_toNat_length _ h2 _
  · rw [l2Normalize_length, (buildEmbedding_accounts_length _ _ _ _ _ _ _ _ _).2.2.1]
    exact replicate_toNat_length _ h3 _
  · rw [l2Normalize_length, (buildEmbedding_accounts_length _ _ _ _ _ _ _ _ _).2.2.2.1]
    exact replicate_toNat_length _ h4 _
  · rw [l2Normalize_length, (buildEmbedding_accounts_length _ _ _ _ _ _ _ _ _).2.2.2.2]
    exact replicate_toNat_length _ h5 _
  · rw [l2Normalize_length, buildEmbedding_agents_length]
    exact replicate_toNat_length _ h6 _

theorem buildEmbedding_some_nonneg (m : MathFns F) (rt : Runtime) (cfg : ServerConfig F)
    (sc : Scenario F) (r : EmbeddingResult F) (h : buildEmbedding m rt cfg sc = some r) :
    0 ≤ (resolveParams cfg sc.Params).ResServiceStopTime ∧
    0 ≤ (resolveParams cfg sc.Params).ResServiceWindowStart ∧
    0 ≤ (resolveParams cfg sc.Params).ResServiceWindowDuration ∧
    0 ≤ (resolveParams cfg sc.Params).ResPinnedAccounts ∧
    0 ≤ (resolveParams cfg sc.Params).ResAgentsAvailable ∧
    0 ≤ (resolveParams cfg sc.Params).ResAgentStartLocations := by
  unfold buildEmbedding at h
  simp only [Option.pure_def, Option.bind_eq_bind, Option.bind_eq_some] at h
  obtain ⟨a1, g1, a2, g2, a3, g3, a4, g4, a5, g5, a6, g6, _⟩ := h
  exact ⟨makeZeros_eq_some _ _ g4, makeZeros_eq_some _ _ g5, makeZeros_eq_some _ _ g6,
    makeZeros_eq_some _ _ g2, makeZeros_eq_some _ _ g3, makeZeros_eq_some _ _ g1⟩

/-- C18 (amended). When the six resolved channel dimensions are non-negative, `buildEmbedding`
returns a result whose six components, in the documented order, have the length of the resolved
dimension of their channel: the scenario's own parameter when it is non-zero and the server's
configured default when it is zero; the reported cycle length and resolution levels are the
scenario's when non-zero / non-empty and the server's defaults when not. -/
theorem buildEmbedding_dimensions (m : MathFns F) (rt : Runtime) (cfg : ServerConfig F)
    (sc : Scenario F)
    (h1 : 0 ≤ (resolveParams cfg sc.Params).ResServiceStopTime)
    (h2 : 0 ≤ (resolveParams cfg sc.Params).ResServiceWindowStart)
    (h3 : 0 ≤ (resolveParams cfg sc.Params).ResServiceWindowDuration)
    (h4 : 0 ≤ (resolveParams cfg sc.Params).ResPinnedAccounts)
    (h5 : 0 ≤ (resolveParams cfg sc.Params).ResAgentsAvailable)
    (h6 : 0 ≤ (resolveParams cfg sc.Params).ResAgentStartLocations) :
    ∃ r c1 c2 c3 c4 c5 c6, buildEmbedding m rt cfg sc = some r ∧
      r.Components = [("service_stop_time", c1), ("service_window_start", c2),
        ("service_window_duration", c3), ("pinned_accounts", c4), ("agents_available", c5),
        ("agent_start_locations", c6)] ∧
      (c1.length : Int) = (if sc.Params.ResServiceStopTime = 0
        then cfg.Embedding.Resolutions.ServiceStopTime else sc.Params.ResServiceStopTime) ∧
      (c2.length : Int) = (if sc.Params.ResServiceWindowStart = 0
        then cfg.Embedding.Resolutions.ServiceWindowStart
        else sc.Params.ResServiceWindowStart) ∧
      (c3.length : Int) = (if sc.Params.ResServiceWindowDuration = 0
        then cfg.Embedding.Resolutions.ServiceWindowDuration
        else sc.Params.ResServiceWindowDuration) ∧
      (c4.length : Int) = (if sc.Params.ResPinnedAccounts = 0
        then cfg.Embedding.Resolutions.PinnedAccounts else sc.Params.ResPinnedAccounts) ∧
      (c5.length : Int) = (if sc.Params.ResAgentsAvailable = 0
        then cfg.Embedding.Resolutions.AgentsAvailable else sc.Params.ResAgentsAvailable) ∧
      (c6.length : Int) = (if sc.Params.ResAgentStartLocations = 0
        then cfg.Embedding.Resolutions.AgentStartLocations
        else sc.Params.ResAgentStartLocations) ∧
      r.Meta.cycle_days =
        (if sc.Params.CycleDays = 0 then cfg.Embedding.CycleDays else sc.Params.CycleDays) ∧
      r.Meta.h3_levels =
        (if sc.Params.H3Levels.length = 0 then cfg.Embedding.H3Levels
          else sc.Params.H3Levels) := by
  obtain ⟨c1, c2, c3, c4, c5, c6, hr, e1, e2, e3, e4, e5, e6⟩ :=
    buildEmbedding_lengths m rt cfg sc h1 h2 h3 h4 h5 h6
  exact ⟨_, c1, c2, c3, c4, c5, c6, hr, rfl, e1, e2, e3, e4, e5, e6, rfl, rfl⟩

end EmbedLengths

theorem buildEmbedding_dimensions_witness :
    ∃ r c1 c2 c3 c4 c5 c6,
      buildEmbedding realMath (runtimeAt 0) (exampleConfig ℝ) (rruleScenario ℝ) = some r ∧
      r.Components = [("service_stop_time", c1), ("service_window_start", c2),
        ("service_window_duration", c3), ("pinned_accounts", c4), ("agents_available", c5),
        ("agent_start_locations", c6)] ∧
      (c1.length : Int) = 1 ∧ (c2.length : Int) = 4 ∧ (c3.length : Int) = 4 ∧
      (c4.length : Int) = 4 ∧ (c5.length : Int) = 4 ∧ (c6.length : Int) = 4 ∧
      r.Meta.cycle_days = 28 ∧ r.Meta.h3_levels = [5] :=
  buildEmbedding_dimensions realMath (runtimeAt 0) (exampleConfig ℝ) (rruleScenario ℝ)
    (by decide) (by decide) (by decide) (by decide) (by decide) (by decide)

/-- C18, as stated for every scenario, fails for a negative dimension: with the dimension -1
requested for the service-stop-time channel `make` panics and `buildEmbedding` returns no
components at all. -/
theorem buildEmbedding_dimensions_counterexample :
    (negativeDimScenario ℝ).Params.ResServiceStopTime = -1 ∧
    buildEmbedding realMath (runtimeAt 0) (exampleConfig ℝ) (negativeDimScenario ℝ) = none := by
  refine ⟨rfl, ?_⟩
  cases h : buildEmbedding realMath (runtimeAt 0) (exampleConfig ℝ) (negativeDimScenario ℝ) with
  | none => rfl
  | some r =>
    have h0 := (buildEmbedding_some_nonneg _ _ _ _ r h).1
    exact absurd h0 (by decide)

/-! ## Embedding: the superimposed sinusoids -/

section Superimpose

variable {F : Type} [LinearOrderedField F]

theorem foldl_mapIdx_add (c : Int → Nat → F) (ls : List Int) (vec : List F)
    (i : Nat) (hi : i < vec.length) :
    (ls.foldl (fun v lvl => v.mapIdx (fun j x => x + c lvl j)) vec).getD i 0 =
      vec.getD i 0 + (ls.map (fun l => c l i)).sum := by
  induction ls generalizing vec with
  | nil => simp
  | cons l ls ih =>
    have hl : i < (vec.mapIdx (fun j x => x + c l j)).length := by
      rw [List.length_mapIdx]; exact hi
    rw [List.foldl_cons, ih _ hl, List.getD_eq_getElem _ 0 hl, List.getElem_mapIdx,
      List.getD_eq_getElem _ 0 hi, List.map_cons, List.sum_cons, add_assoc]

theorem superimpose_getD (m : MathFns F) (vec : List F) (amp baseFreq : F)
    (h3Levels : List Int) (phi : F) (i : Nat) (hi : i < vec.length) :
    (superimpose m vec amp baseFreq h3Levels phi).getD i 0 =
      vec.getD i 0 + amp * (h3Levels.map (fun L => m.Sin (2 * m.Pi *
        frequencyForLevel m baseFreq L * ((i : F) / (vec.length : F)) + phi))).sum := by
  unfold superimpose
  dsimp only
  split
  · rename_i h
    rcases h with h | h
    · have : (vec.length : F) ≠ 0 := by
        have : 0 < vec.length := by omega
        exact_mod_cast this.ne.symm
      exact absurd h this
    · rw [h, zero_mul, add_zero]
  · rw [foldl_mapIdx_add (fun lvl j => amp * m.Sin (2 * m.Pi *
      frequencyForLevel m baseFreq lvl * ((j : F) / (vec.length : F)) + phi)) h3Levels vec i hi,
      List.sum_map_mul_left]

theorem superimpose_unchanged (m : MathFns F) (vec : List F) (amp baseFreq : F)
    (h3Levels : List Int) (phi : F) (h : amp = 0 ∨ vec.length = 0) :
    superimpose m vec amp baseFreq h3Levels phi = vec := by
  unfold superimpose
  dsimp only
  rw [if_pos]
  rcases h with h | h
  · exact Or.inr h
  · exact Or.inl (by rw [h]; exact Nat.cast_zero)

end Superimpose

theorem wrapInt64_level (L : Int) (h : -(2 ^ 63) + 5 ≤ L ∧ L < 2 ^ 63) :
    wrapInt64 (L - 5) = L - 5 := by
  unfold wrapInt64
  omega

theorem frequencyForLevel_real (baseFreq : ℝ) (L : Int) (h : -(2 ^ 63) + 5 ≤ L ∧ L < 2 ^ 63) :
    frequencyForLevel realMath baseFreq L = baseFreq / (2 : ℝ) ^ (L - 5) := by
  unfold frequencyForLevel
  dsimp only [realMath]
  rw [wrapInt64_level L h, Real.rpow_intCast]

theorem frequencyForLevel_five (baseFreq : ℝ) : frequencyForLevel realMath baseFreq 5 = baseFreq := by
  rw [frequencyForLevel_real baseFreq 5 (by norm_num), sub_self, zpow_zero, div_one]

theorem superimpose_real_getD (vec : List ℝ) (amp baseFreq phi : ℝ) (h3Levels : List Int)
    (hL : ∀ L ∈ h3Levels, -(2 ^ 63) + 5 ≤ L ∧ L < 2 ^ 63) (i : Nat) (hi : i < vec.length) :
    (superimpose realMath vec amp baseFreq h3Levels phi).getD i 0 =
      vec.getD i 0 + amp * (h3Levels.map (fun L => Real.sin (2 * Real.pi *
        (baseFreq / (2 : ℝ) ^ (L - 5)) * ((i : ℝ) / (vec.length : ℝ)) + phi))).sum := by
  have e : h3Levels.map (fun L => realMath.Sin (2 * realMath.Pi *
      frequencyForLevel realMath baseFreq L * ((i : ℝ) / (vec.length : ℝ)) + phi)) =
      h3Levels.map (fun L => Real.sin (2 * Real.pi *
        (baseFreq / (2 : ℝ) ^ (L - 5)) * ((i : ℝ) / (vec.length : ℝ)) + phi)) := by
    apply List.map_congr_left
    intro L hmem
    rw [frequencyForLevel_real baseFreq L (hL L hmem)]
    rfl
  rw [superimpose_getD realMath vec amp baseFreq h3Levels phi i hi, e]

/-- C19 (amended). Over the reals, for levels `L` with `-2^63 + 5 ≤ L` (so that the `int`
subtraction `L - 5` does not wrap), `superimpose` leaves the length unchanged and replaces each
`vec[i]` by `vec[i] + amp * Σ_L sin(2π f(L) (i/N) + phi)` with `f(L) = baseFrequency / 2^(L-5)`,
so `f(5) = baseFrequency`; it leaves `vec` unchanged when `amp = 0` or `N = 0`; and a second call
adds its own contribution to the first. -/
theorem superimpose_formula (vec : List ℝ) (amp baseFreq phi : ℝ) (h3Levels : List Int)
    (hL : ∀ L ∈ h3Levels, -(2 ^ 63) + 5 ≤ L ∧ L < 2 ^ 63) :
    (superimpose realMath vec amp baseFreq h3Levels phi).length = vec.length ∧
    (∀ i, i < vec.length →
      (superimpose realMath vec amp baseFreq h3Levels phi).getD i 0 =
        vec.getD i 0 + amp * (h3Levels.map (fun L => Real.sin (2 * Real.pi *
          (baseFreq / (2 : ℝ) ^ (L - 5)) * ((i : ℝ) / (vec.length : ℝ)) + phi))).sum) ∧
    (amp = 0 ∨ vec.length = 0 → superimpose realMath vec amp baseFreq h3Levels phi = vec) ∧
    (∀ L ∈ h3Levels, frequencyForLevel realMath baseFreq L = baseFreq / (2 : ℝ) ^ (L - 5)) ∧
    frequencyForLevel realMath baseFreq 5 = baseFreq ∧
    (∀ (amp2 phi2 : ℝ) (i : Nat), i < vec.length →
      (superimpose realMath (superimpose realMath vec amp baseFreq h3Levels phi) amp2 baseFreq
          h3Levels phi2).getD i 0 =
        vec.getD i 0 + amp * (h3Levels.map (fun L => Real.sin (2 * Real.pi *
          (baseFreq / (2 : ℝ) ^ (L - 5)) * ((i : ℝ) / (vec.length : ℝ)) + phi))).sum +
        amp2 * (h3Levels.map (fun L => Real.sin (2 * Real.pi *
          (baseFreq / (2 : ℝ) ^ (L - 5)) * ((i : ℝ) / (vec.length : ℝ)) + phi2))).sum) := by
  refine ⟨superimpose_length _ _ _ _ _ _,
    fun i hi => superimpose_real_getD vec amp baseFreq phi h3Levels hL i hi,
    fun h => superimpose_unchanged _ _ _ _ _ _ h,
    fun L hmem => frequencyForLevel_real baseFreq L (hL L hmem),
    frequencyForLevel_five baseFreq, ?_⟩
  intro amp2 phi2 i hi
  have hlen := superimpose_length realMath vec amp baseFreq h3Levels phi
  rw [superimpose_real_getD _ amp2 baseFreq phi2 h3Levels hL i (by rw [hlen]; exact hi), hlen,
    superimpose_real_getD vec amp baseFreq phi h3Levels hL i hi]

theorem superimpose_formula_witness :
    (superimpose realMath [0, 0] 1 1 [5] 0).length = 2 ∧
    (superimpose realMath [0, 0] 1 1 [5] 0).getD 1 0 =
      0 + 1 * ([(5 : Int)].map (fun L => Real.sin (2 * Real.pi *
        (1 / (2 : ℝ) ^ (L - 5)) * (((1 : Nat) : ℝ) / ((2 : Nat) : ℝ)) + 0))).sum :=
  ⟨(superimpose_formula [0, 0] 1 1 0 [5] (by decide)).1,
    (superimpose_formula [0, 0] 1 1 0 [5] (by decide)).2.1 1 (by decide)⟩

theorem sin_third_nonneg (x : ℝ) (hx : 0 < x) :
    0 ≤ Real.sin (2 * Real.pi * (1 / (2 : ℝ) ^ x) * (((1 : Nat) : ℝ) / ((3 : Nat) : ℝ)) + 0) := by
  have h1 : (1 : ℝ) < (2 : ℝ) ^ x := Real.one_lt_rpow (by norm_num) hx
  have h0 : (0 : ℝ) < (2 : ℝ) ^ x := by linarith
  have hlt : 1 / (2 : ℝ) ^ x < 1 := by rw [div_lt_one h0]; exact h1
  have hpos : 0 < 1 / (2 : ℝ) ^ x := by positivity
  generalize 1 / (2 : ℝ) ^ x = e at hlt hpos
  have hpi := Real.pi_pos
  apply Real.sin_nonneg_of_nonneg_of_le_pi
  · push_cast
    positivity
  · push_cast
    nlinarith

theorem two_pow_odd (j : Nat) : ∃ n : Nat, 2 ^ (2 * j + 1) = 3 * n + 2 := by
  induction j with
  | zero => exact ⟨0, rfl⟩
  | succ j ih =>
    obtain ⟨n, hn⟩ := ih
    refine ⟨4 * n + 2, ?_⟩
    have e : 2 ^ (2 * (j + 1) + 1) = 4 * 2 ^ (2 * j + 1) := by ring
    rw [e, hn]
    ring

theorem sin_power_third (j : Nat) :
    Real.sin (2 * Real.pi * (1 / (2 : ℝ) ^ (-((2 * j + 1 : Nat) : Int))) *
      (((1 : Nat) : ℝ) / ((3 : Nat) : ℝ)) + 0) = -(Real.sqrt 3 / 2) := by
  obtain ⟨n, hn⟩ := two_pow_odd j
  have hp : (2 : ℝ) ^ (2 * j + 1) = 3 * (n : ℝ) + 2 := by exact_mod_cast hn
  have e : 2 * Real.pi * (1 / (2 : ℝ) ^ (-((2 * j + 1 : Nat) : Int))) *
      (((1 : Nat) : ℝ) / ((3 : Nat) : ℝ)) + 0 =
      Real.pi / 3 + Real.pi + (n : ℝ) * (2 * Real.pi) := by
    rw [zpow_neg, zpow_natCast, one_div, inv_inv, hp]
    push_cast
    ring
  rw [e, Real.sin_add_nat_mul_two_pi, Real.sin_add_pi, Real.sin_pi_div_three]

theorem superimpose_triple (L : Int) :
    (superimpose realMath [0, 0, 0] 1 1 [L] 0).getD 1 0 =
      0 + 1 * (Real.sin (2 * Real.pi * (1 / (2 : ℝ) ^ (((wrapInt64 (L - 5) : Int)) : ℝ)) *
        (((1 : Nat) : ℝ) / ((3 : Nat) : ℝ)) + 0) + 0) := by
  rw [superimpose_getD realMath [0, 0, 0] 1 1 [L] 0 1 (by decide)]
  rfl

/-- C19, as stated for every list of levels, fails at the level `-2^63`, where the `int`
subtraction `L - 5` wraps to `2^63 - 5`: the power is then `2^(2^63 - 5)` and not `2^(-2^63 - 5)`,
so the frequency is at most the base frequency times `2^-(2^63 - 5)` (the `float64` power
overflows and the program's frequency is exactly 0) instead of the base frequency times
`2^(2^63 + 5)`. On a three-entry zero vector with amplitude and base frequency 1 and phase 0 the
entry 1 receives a sine that is not negative (`sin 0 = 0` in the program), where the formula gives
`sin (2π · 2^(2^63 + 5) / 3) = sin (4π/3) = -√3/2`. -/
theorem superimpose_formula_counterexample :
    wrapInt64 (-(2 ^ 63) - 5) = 2 ^ 63 - 5 ∧
    0 ≤ (superimpose realMath [0, 0, 0] 1 1 [-(2 ^ 63)] 0).getD 1 0 ∧
    0 + 1 * ([(-(2 ^ 63) : Int)].map (fun L => Real.sin (2 * Real.pi *
        (1 / (2 : ℝ) ^ (L - 5)) * (((1 : Nat) : ℝ) / ((3 : Nat) : ℝ)) + 0))).sum =
      -(Real.sqrt 3 / 2) ∧
    (superimpose realMath [0, 0, 0] 1 1 [-(2 ^ 63)] 0).getD 1 0 ≠
      0 + 1 * ([(-(2 ^ 63) : Int)].map (fun L => Real.sin (2 * Real.pi *
        (1 / (2 : ℝ) ^ (L - 5)) * (((1 : Nat) : ℝ) / ((3 : Nat) : ℝ)) + 0))).sum := by
  have hsq : (0 : ℝ) < Real.sqrt 3 / 2 :=
    div_pos (Real.sqrt_pos.mpr (by norm_num)) (by norm_num)
  have hw : wrapInt64 (-(2 ^ 63) - 5) = 2 ^ 63 - 5 := by decide
  have hx : (0 : ℝ) < ((2 ^ 63 - 5 : Int) : ℝ) := by
    have : (0 : Int) < 2 ^ 63 - 5 := by decide
    exact_mod_cast this
  have hcode := sin_third_nonneg _ hx
  have hspec := sin_power_third (2 ^ 62 + 2)
  have ek : (-(((2 * (2 ^ 62 + 2) + 1 : Nat)) : Int)) = -(2 ^ 63) - 5 := by decide
  rw [ek] at hspec
  have hform : 0 + 1 * ([(-(2 ^ 63) : Int)].map (fun L => Real.sin (2 * Real.pi *
        (1 / (2 : ℝ) ^ (L - 5)) * (((1 : Nat) : ℝ) / ((3 : Nat) : ℝ)) + 0))).sum =
      -(Real.sqrt 3 / 2) := by
    rw [List.map_cons, List.map_nil, List.sum_cons, List.sum_nil, hspec, add_zero, one_mul,
      zero_add]
  have hval : (superimpose realMath [0, 0, 0] 1 1 [-(2 ^ 63)] 0).getD 1 0 =
      Real.sin (2 * Real.pi * (1 / (2 : ℝ) ^ (((2 ^ 63 - 5 : Int)) : ℝ)) *
        (((1 : Nat) : ℝ) / ((3 : Nat) : ℝ)) + 0) := by
    rw [superimpose_triple, hw, add_zero, one_mul, zero_add]
  refine ⟨hw, ?_, hform, ?_⟩
  · rw [hval]
    exact hcode
  · rw [hform, hval]
    generalize Real.sin (2 * Real.pi * (1 / (2 : ℝ) ^ (((2 ^ 63 - 5 : Int)) : ℝ)) *
        (((1 : Nat) : ℝ) / ((3 : Nat) : ℝ)) + 0) = A at hcode
    clear hspec hform hval
    intro h
    rw [h] at hcode
    exact absurd hcode (not_le.mpr (neg_lt_zero.mpr hsq))

/-! ## Route simulation: the greedy step -/

section GreedyStep

variable {F : Type} [LinearOrderedField F]

theorem nearest_fold {α : Type} (d : α → F) (l : List α) :
    ∀ (n : Nat) (b : Nat × F),
      ((l.enumFrom n).foldl (fun b iv => if d iv.2 < b.2 then (iv.1, d iv.2) else b) b = b ∧
        ∀ x ∈ l, b.2 ≤ d x) ∨
      ∃ (i : Nat) (hi : i < l.length),
        (l.enumFrom n).foldl (fun b iv => if d iv.2 < b.2 then (iv.1, d iv.2) else b) b =
          (n + i, d l[i]) ∧
        d l[i] < b.2 ∧
        (∀ (j : Nat) (hj : j < l.length), d l[i] ≤ d l[j]) ∧
        (∀ (j : Nat) (hj : j < l.length), j < i → d l[i] < d l[j]) := by
  induction l with
  | nil =>
    intro n b
    left
    exact ⟨rfl, fun x hx => absurd hx (List.not_mem_nil x)⟩
  | cons x xs ih =>
    intro n b
    rw [List.enumFrom_cons, List.foldl_cons]
    dsimp only
    by_cases hx : d x < b.2
    · rw [if_pos hx]
      rcases ih (n + 1) (n, d x) with ⟨hr, hall⟩ | ⟨i, hi, hr, hlt, hmin, hlow⟩
      · right
        refine ⟨0, Nat.succ_pos _, ?_, hx, ?_, ?_⟩
        · rw [hr]; rfl
        · intro j hj
          cases j with
          | zero => exact le_refl _
          | succ k => exact hall _ (List.getElem_mem _)
        · intro j hj hj0
          exact absurd hj0 (Nat.not_lt_zero j)
      · right
        refine ⟨i + 1, Nat.succ_lt_succ hi, ?_, lt_trans hlt hx, ?_, ?_⟩
        · rw [hr]
          have e : n + 1 + i = n + (i + 1) := by omega
          rw [e]
          rfl
        · intro j hj
          cases j with
          | zero => exact le_of_lt hlt
          | succ k => exact hmin k (Nat.lt_of_succ_lt_succ hj)
        · intro j hj hji
          cases j with
          | zero => exact hlt
          | succ k => exact hlow k (Nat.lt_of_succ_lt_succ hj) (Nat.lt_of_succ_lt_succ hji)
    · rw [if_neg hx]
      have hbx : b.2 ≤ d x := not_lt.mp hx
      rcases ih (n + 1) b with ⟨hr, hall⟩ | ⟨i, hi, hr, hlt, hmin, hlow⟩
      · left
        refine ⟨hr, ?_⟩
        intro y hy
        rcases List.mem_cons.mp hy with h | h
        · rw [h]; exact hbx
        · exact hall y h
      · right
        refine ⟨i + 1, Nat.succ_lt_succ hi, ?_, hlt, ?_, ?_⟩
        · rw [hr]
          have e : n + 1 + i = n + (i + 1) := by omega
          rw [e]
          rfl
        · intro j hj
          cases j with
          | zero => exact le_of_lt (lt_of_lt_of_le hlt hbx)
          | succ k => exact hmin k (Nat.lt_of_succ_lt_succ hj)
        · intro j hj hji
          cases j with
          | zero => exact lt_of_lt_of_le hlt hbx
          | succ k => exact hlow k (Nat.lt_of_succ_lt_succ hj) (Nat.lt_of_succ_lt_succ hji)

theorem naiveSim_nearest_spec (m : MathFns F) (vs : List (veh F)) (acc : Account F)
    (hne : vs ≠ [])
    (hbound : ∀ v ∈ vs, distanceTo m acc v < 1000000000000000000) :
    ∃ (i : Nat) (hi : i < vs.length),
      naiveSim_nearest m vs acc = (i, distanceTo m acc vs[i]) ∧
      (∀ (j : Nat) (hj : j < vs.length), distanceTo m acc vs[i] ≤ distanceTo m acc vs[j]) ∧
      (∀ (j : Nat) (hj : j < vs.length), j < i →
        distanceTo m acc vs[i] < distanceTo m acc vs[j]) := by
  rcases nearest_fold (distanceTo m acc) vs 0 (0, 1000000000000000000) with
    ⟨_, hall⟩ | ⟨i, hi, hr, _, hmin, hlow⟩
  · obtain ⟨v, hv⟩ := List.exists_mem_of_ne_nil vs hne
    exact absurd (hbound v hv) (not_lt.mpr (hall v hv))
  · refine ⟨i, hi, ?_, hmin, hlow⟩
    rw [Nat.zero_add] at hr
    exact hr

theorem naiveSim_assign_spec (m : MathFns F) (vs : List (veh F)) (acc : Account F)
    (hne : vs ≠ [])
    (hbound : ∀ v ∈ vs, distanceTo m acc v < 1000000000000000000) :
    ∃ (i : Nat) (hi : i < vs.length),
      naiveSim_assign m vs acc =
        some (vs.set i (served acc vs[i] (distanceTo m acc vs[i]))) ∧
      (∀ (j : Nat) (hj : j < vs.length), distanceTo m acc vs[i] ≤ distanceTo m acc vs[j]) ∧
      (∀ (j : Nat) (hj : j < vs.length), j < i →
        distanceTo m acc vs[i] < distanceTo m acc vs[j]) := by
  obtain ⟨i, hi, hr, hmin, hlow⟩ := naiveSim_nearest_spec m vs acc hne hbound
  refine ⟨i, hi, ?_, hmin, hlow⟩
  unfold naiveSim_assign
  dsimp only
  rw [hr]
  dsimp only
  rw [List.getElem?_eq_getElem hi]
  rfl

theorem naiveSim_loop_eq (m : MathFns F) (accs : List (Account F)) :
    ∀ (vs : List (veh F)) (n : Int),
      accs.foldlM (fun (st : List (veh F) × Int) acc =>
        (naiveSim_assign m st.1 acc).map (fun vs => (vs, st.2 + 1))) (vs, n) =
      (accs.foldlM (fun vs acc => naiveSim_assign m vs acc) vs).map
        (fun vs => (vs, n + (accs.length : Int))) := by
  induction accs with
  | nil =>
    intro vs n
    simp
  | cons a as ih =>
    intro vs n
    rw [List.foldlM_cons, List.foldlM_cons]
    cases h : naiveSim_assign m vs a with
    | none => rfl
    | some vs1 =>
      simp only [Option.map_some', Option.bind_eq_bind, Option.some_bind]
      rw [ih vs1 (n + 1)]
      congr 1
      funext w
      rw [List.length_cons]
      push_cast
      congr 1
      ring

theorem naiveSim_eq (m : MathFns F) (rt : Runtime) (sc : Scenario F) (day : Int) :
    naiveSim m rt sc day =
      ((naiveSim_accs rt sc day).foldlM (fun vs acc => naiveSim_assign m vs acc)
        (sc.Agents.map (fun ag => (⟨ag.Lat, ag.Lng, 0, 0⟩ : veh F)))).map
        (statsOf sc ((naiveSim_accs rt sc day).length : Int)) := by
  unfold naiveSim
  dsimp only
  rw [naiveSim_loop_eq]
  cases (naiveSim_accs rt sc day).foldlM (fun vs acc => naiveSim_assign m vs acc)
      (sc.Agents.map (fun ag => (⟨ag.Lat, ag.Lng, 0, 0⟩ : veh F))) with
  | none => rfl
  | some vs =>
    simp only [Option.map_some', statsOf, zero_add]

end GreedyStep

theorem havKM_real_bound (lat1 lon1 lat2 lon2 : ℝ) :
    havKM realMath lat1 lon1 lat2 lon2 < 1000000000000000000 := by
  unfold havKM
  dsimp only [realMath]
  have h1 := Real.arcsin_le_pi_div_two (Real.sqrt
    (Real.sin ((lat2 - lat1) * Real.pi / 180 / 2) * Real.sin ((lat2 - lat1) * Real.pi / 180 / 2) +
      Real.cos (lat1 * Real.pi / 180) * Real.cos (lat2 * Real.pi / 180) *
        Real.sin ((lon2 - lon1) * Real.pi / 180 / 2) *
        Real.sin ((lon2 - lon1) * Real.pi / 180 / 2)))
  have h2 := Real.pi_lt_four
  generalize Real.arcsin _ = A at h1 ⊢
  linarith

theorem naiveSim_accs_mem {F : Type} [LinearOrderedField F] (rt : Runtime) (sc : Scenario F)
    (day : Int) (a : Account F) :
    a ∈ naiveSim_accs rt sc day ↔
      a ∈ sc.Accounts ∧ day ∈ naiveSim_ds rt a.Schedule
        (if sc.Params.CycleDays = 0 then 28 else sc.Params.CycleDays) := by
  unfold naiveSim_accs
  dsimp only
  simp only [List.mem_filter, List.contains_eq_any_beq, List.any_eq_true, beq_iff_eq,
    exists_eq_right']

theorem naiveSim_nearest_none {F : Type} [LinearOrderedField F] (m : MathFns F)
    (vs : List (veh F)) (acc : Account F)
    (h : ∀ v ∈ vs, ¬ distanceTo m acc v < 1000000000000000000) :
    naiveSim_nearest m vs acc = (0, 1000000000000000000) := by
  rcases nearest_fold (distanceTo m acc) vs 0 (0, 1000000000000000000) with
    ⟨hr, _⟩ | ⟨i, hi, _, hlt, _, _⟩
  · exact hr
  · exact absurd hlt (h vs[i] (List.getElem_mem hi))

theorem naiveSim_assign_none_fires {F : Type} [LinearOrderedField F] (m : MathFns F)
    (vs : List (veh F)) (acc : Account F) (hne : vs ≠ [])
    (h : ∀ v ∈ vs, ¬ distanceTo m acc v < 1000000000000000000) :
    ∃ h0 : 0 < vs.length,
      naiveSim_assign m vs acc = some (vs.set 0 (served acc vs[0] 1000000000000000000)) := by
  have h0 : 0 < vs.length := List.length_pos.mpr hne
  refine ⟨h0, ?_⟩
  unfold naiveSim_assign
  dsimp only
  rw [naiveSim_nearest_none m vs acc h]
  dsimp only
  rw [List.getElem?_eq_getElem h0]
  rfl

theorem naiveSim_assign_skip {F : Type} [LinearOrderedField F] (m : MathFns F)
    (v0 v1 : veh F) (acc : Account F)
    (h0 : ¬ distanceTo m acc v0 < 1000000000000000000)
    (h1 : distanceTo m acc v1 < 1000000000000000000) :
    naiveSim_assign m [v0, v1] acc = some [v0, served acc v1 (distanceTo m acc v1)] := by
  have hn : naiveSim_nearest m [v0, v1] acc = (1, distanceTo m acc v1) := by
    unfold naiveSim_nearest distanceTo at *
    simp only [List.enum, List.enumFrom_cons, List.enumFrom_nil, List.foldl_cons, List.foldl_nil,
      if_neg h0, if_pos h1]
  unfold naiveSim_assign
  dsimp only
  rw [hn]
  rfl

theorem noAgentScenario_accs_day0 :
    naiveSim_accs (runtimeAt 0) (noAgentScenario ℝ) 0 = (noAgentScenario ℝ).Accounts := by
  rfl

theorem noAgentScenario_aborts :
    naiveSim realMath (runtimeAt 0) (noAgentScenario ℝ) 0 = none := by
  rw [naiveSim_eq, noAgentScenario_accs_day0]
  have h : (noAgentScenario ℝ).Agents = [] := rfl
  have ha : (noAgentScenario ℝ).Accounts =
      [⟨"account-1", "account", 0, 0, 100, 0, 0, "", 0, ⟨"WEEKLY", "Mon", ""⟩⟩] := rfl
  rw [h, ha, List.map_nil, List.foldlM_cons, naiveSim_assign_nil]
  rfl

/-- C20: what the step of `naiveSim` does, for any scalar field and math library. The search
starts from `best = 0`, `bestD = 1e18` and moves only on a comparison `d < bestD` that succeeds.
When every distance compares below `1e18` (as every distance does in exact real arithmetic), the
step charges the lowest-indexed vehicle of minimal distance as the statement says and leaves the
others unchanged. When no distance compares below `1e18` (in the program: every distance is NaN)
vehicle 0 is charged `1e18/50*3600` seconds, whatever the distances are; and a first vehicle whose
comparison fails is passed over in favour of the second. With no vehicle the step aborts. The
accounts processed are the accounts of the scenario active on the day, in scenario order, and
`naiveSim` iterates the step over them from left to right. -/
theorem naiveSim_greedy_step {F : Type} [LinearOrderedField F] (m : MathFns F) (rt : Runtime)
    (sc : Scenario F) (day : Int) (vs : List (veh F)) (acc : Account F) :
    (vs ≠ [] → (∀ v ∈ vs, distanceTo m acc v < 1000000000000000000) →
      ∃ (i : Nat) (hi : i < vs.length) (vs' : List (veh F)),
        naiveSim_assign m vs acc = some vs' ∧
        (∀ (j : Nat) (hj : j < vs.length), distanceTo m acc vs[i] ≤ distanceTo m acc vs[j]) ∧
        (∀ (j : Nat) (hj : j < vs.length), j < i →
          distanceTo m acc vs[i] < distanceTo m acc vs[j]) ∧
        vs'.length = vs.length ∧
        vs'[i]? = some
          { lat := acc.Lat
            lng := acc.Lng
            drive := vs[i].drive + distanceTo m acc vs[i] / 50 * 3600
            service := vs[i].service + clamp (acc.EstimatedServiceMinutes / 200) 0 1 * 200 * 60 } ∧
        (∀ j : Nat, j ≠ i → vs'[j]? = vs[j]?)) ∧
    (∀ (ws : List (veh ℝ)) (a : Account ℝ), ∀ v ∈ ws,
      distanceTo realMath a v < 1000000000000000000) ∧
    (vs ≠ [] → (∀ v ∈ vs, ¬ distanceTo m acc v < 1000000000000000000) →
      ∃ (h0 : 0 < vs.length) (vs' : List (veh F)),
        naiveSim_assign m vs acc = some vs' ∧
        vs'.length = vs.length ∧
        vs'[0]? = some
          { lat := acc.Lat
            lng := acc.Lng
            drive := vs[0].drive + 1000000000000000000 / 50 * 3600
            service := vs[0].service + clamp (acc.EstimatedServiceMinutes / 200) 0 1 * 200 * 60 } ∧
        (∀ j : Nat, j ≠ 0 → vs'[j]? = vs[j]?)) ∧
    (∀ v0 v1 : veh F, ¬ distanceTo m acc v0 < 1000000000000000000 →
      distanceTo m acc v1 < 1000000000000000000 →
      naiveSim_assign m [v0, v1] acc = some
        [v0, { lat := acc.Lat
               lng := acc.Lng
               drive := v1.drive + distanceTo m acc v1 / 50 * 3600
               service := v1.service +
                 clamp (acc.EstimatedServiceMinutes / 200) 0 1 * 200 * 60 }]) ∧
    naiveSim_assign m ([] : List (veh F)) acc = none ∧
    naiveSim realMath (runtimeAt 0) (noAgentScenario ℝ) 0 = none ∧
    (∀ a, a ∈ naiveSim_accs rt sc day ↔
      a ∈ sc.Accounts ∧ day ∈ naiveSim_ds rt a.Schedule
        (if sc.Params.CycleDays = 0 then 28 else sc.Params.CycleDays)) ∧
    (naiveSim_accs rt sc day).Sublist sc.Accounts ∧
    naiveSim m rt sc day =
      ((naiveSim_accs rt sc day).foldlM (fun vs acc => naiveSim_assign m vs acc)
        (sc.Agents.map (fun ag => (⟨ag.Lat, ag.Lng, 0, 0⟩ : veh F)))).map
        (statsOf sc ((naiveSim_accs rt sc day).length : Int)) := by
  refine ⟨?_, fun ws a v _ => havKM_real_bound _ _ _ _, ?_, ?_, naiveSim_assign_nil m acc,
    noAgentScenario_aborts, naiveSim_accs_mem rt sc day, List.filter_sublist _,
    naiveSim_eq m rt sc day⟩
  · intro hne hbound
    obtain ⟨i, hi, hr, hmin, hlow⟩ := naiveSim_assign_spec m vs acc hne hbound
    refine ⟨i, hi, _, hr, hmin, hlow, List.length_set _ _ _, ?_, ?_⟩
    · rw [List.getElem?_set_self hi]
      rfl
    · intro j hj
      exact List.getElem?_set_ne (Ne.symm hj)
  · intro hne hnone
    obtain ⟨h0, hr⟩ := naiveSim_assign_none_fires m vs acc hne hnone
    refine ⟨h0, _, hr, List.length_set _ _ _, ?_, ?_⟩
    · rw [List.getElem?_set_self h0]
      rfl
    · intro j hj
      exact List.getElem?_set_ne (Ne.symm hj)
  · intro v0 v1 h0 h1
    rw [naiveSim_assign_skip m v0 v1 acc h0 h1]
    rfl

/-! ## Embedding: the agent channel -/

section AgentChannel

variable {F : Type} [LinearOrderedField F]

theorem amplitude_one (overshoot : F) (h : 0 ≤ 1 + overshoot) :
    amplitude 1 overshoot = 1 + overshoot := by
  unfold amplitude clamp
  rw [one_mul, if_neg (not_lt.mpr h), if_neg (lt_irrefl _)]

theorem amplitude_one_neg (overshoot : F) (h : 1 + overshoot < 0) :
    amplitude 1 overshoot = 0 := by
  unfold amplitude clamp
  rw [one_mul, if_pos h]

theorem phShift_day0 (m : MathFns F) (latN lngN : F) (cycle : Int) :
    phShift m latN lngN 0 cycle = (latN - 1 / 2) * m.Pi + (lngN - 1 / 2) * m.Pi := by
  unfold phShift
  dsimp only
  rw [Int.cast_zero, mul_zero, zero_div, add_zero]

theorem buildEmbedding_agent_eq (m : MathFns F) (p : EmbeddingParams) (overshoot baseFreq : F)
    (h : 0 ≤ 1 + overshoot) (v : List F) (ag : Agent F) :
    buildEmbedding_agent m p overshoot baseFreq v ag =
      superimpose m v (1 + overshoot) baseFreq p.H3Levels (agentPhase m ag) := by
  unfold buildEmbedding_agent agentPhase
  dsimp only
  rw [amplitude_one overshoot h, phShift_day0]

theorem agentChannelOfLoop_eq (m : MathFns F) (cfg : ServerConfig F) (p : EmbeddingParams)
    (agents : List (Agent F)) (h : 0 ≤ 1 + cfg.Embedding.Overshoot) :
    agentChannelOfLoop m cfg p agents = agentChannel m cfg p agents := by
  unfold agentChannelOfLoop agentChannel
  congr 2
  funext v ag
  exact buildEmbedding_agent_eq m p _ _ h v ag

theorem buildEmbedding_agentComponent (m : MathFns F) (rt : Runtime) (cfg : ServerConfig F)
    (sc : Scenario F) (r : EmbeddingResult F) (h : buildEmbedding m rt cfg sc = some r) :
    componentOf r "agent_start_locations" =
      some (agentChannelOfLoop m cfg (resolveParams cfg sc.Params) sc.Agents) := by
  have hn := buildEmbedding_some_nonneg m rt cfg sc r h
  unfold buildEmbedding at h
  simp only [makeZeros_some _ hn.1, makeZeros_some _ hn.2.1, makeZeros_some _ hn.2.2.1,
    makeZeros_some _ hn.2.2.2.1, makeZeros_some _ hn.2.2.2.2.1, makeZeros_some _ hn.2.2.2.2.2,
    Option.pure_def, Option.bind_eq_bind, Option.some_bind] at h
  rw [← Option.some.inj h]
  rfl

theorem buildEmbedding_isSome_iff (m : MathFns F) (rt : Runtime) (cfg : ServerConfig F)
    (sc : Scenario F) :
    (∃ r, buildEmbedding m rt cfg sc = some r) ↔
      0 ≤ (resolveParams cfg sc.Params).ResServiceStopTime ∧
      0 ≤ (resolveParams cfg sc.Params).ResServiceWindowStart ∧
      0 ≤ (resolveParams cfg sc.Params).ResServiceWindowDuration ∧
      0 ≤ (resolveParams cfg sc.Params).ResPinnedAccounts ∧
      0 ≤ (resolveParams cfg sc.Params).ResAgentsAvailable ∧
      0 ≤ (resolveParams cfg sc.Params).ResAgentStartLocations := by
  constructor
  · rintro ⟨r, h⟩
    exact buildEmbedding_some_nonneg m rt cfg sc r h
  · rintro ⟨h1, h2, h3, h4, h5, h6⟩
    obtain ⟨_, _, _, _, _, _, hr⟩ := buildEmbedding_of_nonneg m rt cfg sc h1 h2 h3 h4 h5 h6
    exact ⟨_, hr⟩

theorem buildEmbedding_agentComponent_eq (m : MathFns F) (rt1 rt2 : Runtime)
    (cfg : ServerConfig F) (sc1 sc2 : Scenario F) (hA : sc1.Agents = sc2.Agents)
    (hP : resolveParams cfg sc1.Params = resolveParams cfg sc2.Params) :
    (buildEmbedding m rt1 cfg sc1).map (fun r => componentOf r "agent_start_locations") =
      (buildEmbedding m rt2 cfg sc2).map (fun r => componentOf r "agent_start_locations") := by
  have h1 := buildEmbedding_isSome_iff m rt1 cfg sc1
  have h2 := buildEmbedding_isSome_iff m rt2 cfg sc2
  rw [hP] at h1
  cases e1 : buildEmbedding m rt1 cfg sc1 with
  | none =>
    cases e2 : buildEmbedding m rt2 cfg sc2 with
    | none => rfl
    | some r2 =>
      obtain ⟨r1, hr1⟩ := h1.mpr (h2.mp ⟨r2, e2⟩)
      rw [e1] at hr1
      exact Option.noConfusion hr1
  | some r1 =>
    cases e2 : buildEmbedding m rt2 cfg sc2 with
    | none =>
      obtain ⟨r2, hr2⟩ := h2.mpr (h1.mp ⟨r1, e1⟩)
      rw [e2] at hr2
      exact Option.noConfusion hr2
    | some r2 =>
      rw [Option.map_some', Option.map_some', buildEmbedding_agentComponent m rt1 cfg sc1 r1 e1,
        buildEmbedding_agentComponent m rt2 cfg sc2 r2 e2, hA, hP]

/-- C21 (amended). The `agent_start_locations` channel is built from the agents only: two
scenarios with the same agents and the same resolved parameters get, under the same server
configuration and at any two instants, the same component whatever their accounts and globals
are (and `buildEmbedding` returns for both or for neither). When `overshoot ≥ -1` the component
is the normalised superposition in which each agent contributes once, with the day-0 phase
`(latN - 0.5)π + (lngN - 0.5)π` and the amplitude `1 + overshoot`. -/
theorem agentChannel_agents_only (m : MathFns F) (rt1 rt2 : Runtime) (cfg : ServerConfig F)
    (sc1 sc2 : Scenario F) (hA : sc1.Agents = sc2.Agents)
    (hP : resolveParams cfg sc1.Params = resolveParams cfg sc2.Params) :
    (buildEmbedding m rt1 cfg sc1).map (fun r => componentOf r "agent_start_locations") =
      (buildEmbedding m rt2 cfg sc2).map (fun r => componentOf r "agent_start_locations") ∧
    ((∃ r, buildEmbedding m rt1 cfg sc1 = some r) ↔
      0 ≤ (resolveParams cfg sc1.Params).ResServiceStopTime ∧
      0 ≤ (resolveParams cfg sc1.Params).ResServiceWindowStart ∧
      0 ≤ (resolveParams cfg sc1.Params).ResServiceWindowDuration ∧
      0 ≤ (resolveParams cfg sc1.Params).ResPinnedAccounts ∧
      0 ≤ (resolveParams cfg sc1.Params).ResAgentsAvailable ∧
      0 ≤ (resolveParams cfg sc1.Params).ResAgentStartLocations) ∧
    (0 ≤ 1 + cfg.Embedding.Overshoot →
      (∀ r, buildEmbedding m rt1 cfg sc1 = some r →
        componentOf r "agent_start_locations" =
          some (agentChannel m cfg (resolveParams cfg sc1.Params) sc1.Agents)) ∧
      amplitude 1 cfg.Embedding.Overshoot = 1 + cfg.Embedding.Overshoot) ∧
    (∀ (latN lngN : F) (cycle : Int),
      phShift m latN lngN 0 cycle = (latN - 1 / 2) * m.Pi + (lngN - 1 / 2) * m.Pi) := by
  refine ⟨buildEmbedding_agentComponent_eq m rt1 rt2 cfg sc1 sc2 hA hP,
    buildEmbedding_isSome_iff m rt1 cfg sc1, ?_, fun latN lngN cycle => phShift_day0 m _ _ _⟩
  intro hO
  refine ⟨?_, amplitude_one _ hO⟩
  intro r hr
  rw [buildEmbedding_agentComponent m rt1 cfg sc1 r hr, agentChannelOfLoop_eq m cfg _ _ hO]

end AgentChannel

theorem agentChannel_agents_only_witness :
    (exampleScenario ℝ).Agents = (otherAccountsScenario ℝ).Agents ∧
    (otherAccountsScenario ℝ).Accounts ≠ (exampleScenario ℝ).Accounts ∧
    (buildEmbedding realMath (runtimeAt 0) (exampleConfig ℝ) (exampleScenario ℝ)).map
        (fun r => componentOf r "agent_start_locations") =
      (buildEmbedding realMath (runtimeAt jan5) (exampleConfig ℝ) (otherAccountsScenario ℝ)).map
        (fun r => componentOf r "agent_start_locations") :=
  ⟨rfl, fun h => List.noConfusion h,
    (agentChannel_agents_only realMath (runtimeAt 0) (runtimeAt jan5) (exampleConfig ℝ)
      (exampleScenario ℝ) (otherAccountsScenario ℝ) rfl rfl).1⟩

theorem l2Normalize_getD_ne_zero (v : List ℝ) (i : Nat) (hi : i < v.length)
    (h : v.getD i 0 ≠ 0) : (l2Normalize realMath v).getD i 0 ≠ 0 := by
  have hss : v.foldl (fun s x => s + x * x) 0 = (v.map (fun x => x ^ 2)).sum := by
    rw [foldl_sq]; ring
  unfold l2Normalize
  dsimp only
  rw [hss]
  by_cases h0 : (v.map (fun x => x ^ 2)).sum = 0
  · rw [if_pos h0]
    exact h
  · rw [if_neg h0]
    have hpos : 0 < (v.map (fun x => x ^ 2)).sum :=
      lt_of_le_of_ne (sumSq_nonneg v) (Ne.symm h0)
    have hsq : 0 < Real.sqrt ((v.map (fun x => x ^ 2)).sum) := Real.sqrt_pos.mpr hpos
    have hl : i < (v.map (fun x => x * (1 / realMath.Sqrt ((v.map (fun x => x ^ 2)).sum)))).length := by
      rw [List.length_map]; exact hi
    rw [List.getD_eq_getElem _ 0 hl, List.getElem_map]
    rw [List.getD_eq_getElem _ 0 hi] at h
    have hinv : (1 / realMath.Sqrt ((v.map (fun x => x ^ 2)).sum)) ≠ 0 :=
      one_div_ne_zero (ne_of_gt hsq)
    exact mul_ne_zero h hinv

theorem agentPhase_origin :
    agentPhase realMath (⟨"agent-1", "agent", 0, 0, ⟨"", "", ""⟩⟩ : Agent ℝ) = 0 := by
  unfold agentPhase
  dsimp only
  rw [normalize_lat0, normalize_lng0, sub_self, zero_mul, add_zero]

theorem superimpose_quarter (amp : ℝ) :
    (superimpose realMath [0, 0, 0, 0] amp 1 [5] 0).getD 1 0 = amp := by
  rw [superimpose_getD realMath [0, 0, 0, 0] amp 1 [5] 0 1 (by decide)]
  have e : (2 * realMath.Pi * frequencyForLevel realMath 1 5 *
      (((1 : Nat) : ℝ) / (([0, 0, 0, 0] : List ℝ).length : ℝ)) + 0) = Real.pi / 2 := by
    have hl : (([0, 0, 0, 0] : List ℝ).length : ℝ) = 4 := by
      simp only [List.length_cons, List.length_nil]
      norm_num
    have hp : realMath.Pi = Real.pi := rfl
    rw [hl, hp, frequencyForLevel_five]
    push_cast
    ring
  have hs : realMath.Sin (Real.pi / 2) = 1 := Real.sin_pi_div_two
  simp only [List.map_cons, List.map_nil, List.sum_cons, List.sum_nil, e, hs,
    List.getD_cons_succ, List.getD_cons_zero]
  ring

/-- C21, as stated with the amplitude `1 + overshoot`, fails for an overshoot below -1, where
`amplitude` clamps at 0: with the overshoot -2 the agent of the example scenario contributes
nothing and the component is the zero vector, which the superposition with the amplitude
`1 + overshoot = -1` is not. -/
theorem agentChannel_agents_only_counterexample :
    (negativeOvershootConfig ℝ).Embedding.Overshoot = -2 ∧
    amplitude (1 : ℝ) (-2) = 0 ∧
    (∃ r, buildEmbedding realMath (runtimeAt 0) (negativeOvershootConfig ℝ)
        (exampleScenario ℝ) = some r ∧
      componentOf r "agent_start_locations" = some [0, 0, 0, 0]) ∧
    agentChannel realMath (negativeOvershootConfig ℝ)
      (resolveParams (negativeOvershootConfig ℝ) (exampleScenario ℝ).Params)
      (exampleScenario ℝ).Agents ≠ [0, 0, 0, 0] := by
  have hamp : amplitude (1 : ℝ) (-2) = 0 := amplitude_one_neg (-2) (by norm_num)
  refine ⟨rfl, hamp, ?_, ?_⟩
  · obtain ⟨r, hr⟩ := (buildEmbedding_isSome_iff realMath (runtimeAt 0)
      (negativeOvershootConfig ℝ) (exampleScenario ℝ)).mpr
      ⟨by decide, by decide, by decide, by decide, by decide, by decide⟩
    refine ⟨r, hr, ?_⟩
    rw [buildEmbedding_agentComponent _ _ _ _ r hr]
    have hloop : agentChannelOfLoop realMath (negativeOvershootConfig ℝ)
        (resolveParams (negativeOvershootConfig ℝ) (exampleScenario ℝ).Params)
        (exampleScenario ℝ).Agents =
        l2Normalize realMath (buildEmbedding_agent realMath
          (resolveParams (negativeOvershootConfig ℝ) (exampleScenario ℝ).Params) (-2) 1
          [0, 0, 0, 0] ⟨"agent-1", "agent", 0, 0, ⟨"", "", ""⟩⟩) := rfl
    rw [hloop]
    unfold buildEmbedding_agent
    dsimp only
    rw [hamp, superimpose_unchanged _ _ _ _ _ _ (Or.inl rfl)]
    rw [(l2Normalize_real [0, 0, 0, 0]).1 (by simp)]
  · have hch : agentChannel realMath (negativeOvershootConfig ℝ)
        (resolveParams (negativeOvershootConfig ℝ) (exampleScenario ℝ).Params)
        (exampleScenario ℝ).Agents =
        l2Normalize realMath (superimpose realMath [0, 0, 0, 0] (1 + -2) 1 [5]
          (agentPhase realMath ⟨"agent-1", "agent", 0, 0, ⟨"", "", ""⟩⟩)) := rfl
    rw [hch, agentPhase_origin]
    intro h
    have hne := l2Normalize_getD_ne_zero
      (superimpose realMath [0, 0, 0, 0] (1 + -2) 1 [5] 0) 1
      (by rw [superimpose_length]; decide)
      (by rw [superimpose_quarter]; norm_num)
    rw [h] at hne
    exact hne rfl

/-! ## Route simulation: when it aborts -/

section SimAbort

variable {F : Type} [LinearOrderedField F]

theorem naiveSim_steps_some (m : MathFns F) (accs : List (Account F)) :
    ∀ vs : List (veh F), vs ≠ [] →
      ∃ vs', accs.foldlM (fun vs acc => naiveSim_assign m vs acc) vs = some vs' ∧
        vs'.length = vs.length := by
  induction accs with
  | nil => intro vs _; exact ⟨vs, rfl, rfl⟩
  | cons a as ih =>
    intro vs hvs
    obtain ⟨vs1, h1, hl1⟩ := naiveSim_assign_some m vs a hvs
    have hne : vs1 ≠ [] := by
      intro h
      rw [h] at hl1
      exact hvs (List.length_eq_zero.mp hl1.symm)
    obtain ⟨vs2, h2, hl2⟩ := ih vs1 hne
    refine ⟨vs2, ?_, hl2.trans hl1⟩
    rw [List.foldlM_cons, h1]
    exact h2

theorem naiveSim_steps_none_iff (m : MathFns F) (accs : List (Account F)) (vs : List (veh F)) :
    accs.foldlM (fun vs acc => naiveSim_assign m vs acc) vs = none ↔ vs = [] ∧ accs ≠ [] := by
  constructor
  · intro h
    by_cases hvs : vs = []
    · refine ⟨hvs, ?_⟩
      intro ha
      rw [ha] at h
      exact Option.noConfusion h
    · obtain ⟨vs', h', _⟩ := naiveSim_steps_some m accs vs hvs
      rw [h'] at h
      exact Option.noConfusion h
  · rintro ⟨hvs, ha⟩
    cases accs with
    | nil => exact absurd rfl ha
    | cons a as =>
      rw [hvs, List.foldlM_cons, naiveSim_assign_nil]
      rfl

/-- C22. `naiveSim` aborts on an out-of-range vehicle index exactly when the scenario has no
agent and at least one account is active on the requested day; for a scenario with at least one
agent it returns statistics for every day. -/
theorem naiveSim_abort_iff (m : MathFns F) (rt : Runtime) (sc : Scenario F) (day : Int) :
    (naiveSim m rt sc day = none ↔
      sc.Agents = [] ∧ ∃ a ∈ sc.Accounts, day ∈ naiveSim_ds rt a.Schedule
        (if sc.Params.CycleDays = 0 then 28 else sc.Params.CycleDays)) ∧
    (sc.Agents ≠ [] → ∃ st, naiveSim m rt sc day = some st) := by
  have hiff : naiveSim m rt sc day = none ↔ sc.Agents = [] ∧ naiveSim_accs rt sc day ≠ [] := by
    rw [naiveSim_eq, Option.map_eq_none', naiveSim_steps_none_iff, List.map_eq_nil_iff]
  constructor
  · rw [hiff]
    constructor
    · rintro ⟨hA, hne⟩
      obtain ⟨a, ha⟩ := List.exists_mem_of_ne_nil _ hne
      exact ⟨hA, a, (naiveSim_accs_mem rt sc day a).mp ha⟩
    · rintro ⟨hA, a, ha⟩
      exact ⟨hA, List.ne_nil_of_mem ((naiveSim_accs_mem rt sc day a).mpr ha)⟩
  · intro hA
    cases h : naiveSim m rt sc day with
    | some st => exact ⟨st, rfl⟩
    | none => exact absurd (hiff.mp h).1 hA

end SimAbort

/-! ## Schedule expansion: the case of the type tag -/

theorem expandSchedule_of_toUpper_WEEKLY (up : Char → Char) (ty anchor rrule : String)
    (cycleDays : Int) (h : ToUpper up ty = "WEEKLY") :
    expandSchedule up ⟨ty, anchor, rrule⟩ cycleDays =
      expandSchedule up ⟨"WEEKLY", anchor, rrule⟩ cycleDays := by
  have h0 : ¬ (ty = "" ∧ rrule ≠ "") := by
    rintro ⟨he, _⟩
    have e : ToUpper up "" = "" := rfl
    rw [he, e] at h
    exact absurd h (by decide)
  have h1 : ¬ ("WEEKLY" = "" ∧ rrule ≠ "") := by rintro ⟨he, _⟩; exact absurd he (by decide)
  simp only [expandSchedule, h0, h1, if_false, h, toUpper_WEEKLY, if_true]

/-- C23 fails for the monthly tags: the prefix test upper-cases the tag but `fmt.Sscanf` reads
the tag as written, so for `monthly_3`, whose upper-cased form is `MONTHLY_3`, the literal
`MONTHLY_` does not match, `n` stays 0 and the first week is expanded (`[0]` for a Monday anchor
and 28 days) where `MONTHLY_3` expands the third (`[14]`). A tag whose upper-cased form is
`WEEKLY` does expand like `WEEKLY`. -/
theorem expandSchedule_monthly_case (up : Char → Char) :
    ToUpper up "monthly_3" = "MONTHLY_3" ∧
    sscanfMonthly "monthly_3" = 0 ∧
    sscanfMonthly "MONTHLY_3" = 3 ∧
    expandSchedule up ⟨"monthly_3", "Mon", ""⟩ 28 = [0] ∧
    expandSchedule up ⟨"MONTHLY_3", "Mon", ""⟩ 28 = [14] ∧
    (∀ (ty anchor rrule : String) (cycleDays : Int), ToUpper up ty = "WEEKLY" →
      expandSchedule up ⟨ty, anchor, rrule⟩ cycleDays =
        expandSchedule up ⟨"WEEKLY", anchor, rrule⟩ cycleDays) := by
  have hu : ToUpper up "monthly_3" = "MONTHLY_3" := rfl
  have hU : ToUpper up "MONTHLY_3" = "MONTHLY_3" := rfl
  have hw : weekdayIndex up "Mon" = 0 := rfl
  have s0 : sscanfMonthly "monthly_3" = 0 := by decide
  have s3 : sscanfMonthly "MONTHLY_3" = 3 := by decide
  refine ⟨hu, s0, s3, ?_, ?_, fun ty anchor rrule cycleDays h =>
    expandSchedule_of_toUpper_WEEKLY up ty anchor rrule cycleDays h⟩
  · rw [expandSchedule_MONTHLY_eq up _ _ (by rw [hu]; decide)]
    dsimp only
    rw [s0, hw]
    decide
  · rw [expandSchedule_MONTHLY_eq up _ _ (by rw [hU]; decide)]
    dsimp only
    rw [s3, hw]
    decide

/-! ## Route simulation: the totals -/

section SimTotals

variable {F : Type} [LinearOrderedField F]

theorem clamp_unit_nonneg (x : F) : 0 ≤ clamp x 0 1 := by
  unfold clamp
  split_ifs with h1 h2
  · exact le_refl _
  · exact zero_le_one
  · exact not_lt.mp h1

theorem sum_map_set {α : Type} (f : α → F) (l : List α) (i : Nat) (hi : i < l.length) (x : α) :
    ((l.set i x).map f).sum = (l.map f).sum - f l[i] + f x := by
  induction l generalizing i with
  | nil => exact absurd hi (Nat.not_lt_zero _)
  | cons a as ih =>
    cases i with
    | zero =>
      simp only [List.set_cons_zero, List.map_cons, List.sum_cons, List.getElem_cons_zero]
      ring
    | succ k =>
      simp only [List.set_cons_succ, List.map_cons, List.sum_cons, List.getElem_cons_succ]
      rw [ih k (Nat.lt_of_succ_lt_succ hi)]
      ring

theorem foldl_add_map {α : Type} (f : α → F) (l : List α) (s : F) :
    l.foldl (fun t v => t + f v) s = s + (l.map f).sum := by
  induction l generalizing s with
  | nil => simp
  | cons a as ih => rw [List.foldl_cons, ih, List.map_cons, List.sum_cons, add_assoc]

theorem naiveSim_steps_invariant (m : MathFns F)
    (hdist : ∀ (acc : Account F) (v : veh F),
      0 ≤ distanceTo m acc v ∧ distanceTo m acc v < 1000000000000000000)
    (accs : List (Account F)) :
    ∀ vs : List (veh F), vs ≠ [] → (∀ v ∈ vs, 0 ≤ v.drive ∧ 0 ≤ v.service) →
      ∃ vs', accs.foldlM (fun vs acc => naiveSim_assign m vs acc) vs = some vs' ∧
        vs'.length = vs.length ∧
        (∀ v ∈ vs', 0 ≤ v.drive ∧ 0 ≤ v.service) ∧
        (vs'.map (fun v => v.service)).sum = (vs.map (fun v => v.service)).sum +
          (accs.map (fun a => clamp (a.EstimatedServiceMinutes / 200) 0 1 * 200 * 60)).sum := by
  induction accs with
  | nil =>
    intro vs _ hpos
    exact ⟨vs, rfl, rfl, hpos, by simp⟩
  | cons a as ih =>
    intro vs hvs hpos
    obtain ⟨i, hi, h1, _, _⟩ := naiveSim_assign_spec m vs a hvs (fun v _ => (hdist a v).2)
    have hlen : (vs.set i (served a vs[i] (distanceTo m a vs[i]))).length = vs.length :=
      List.length_set _ _ _
    have hne : vs.set i (served a vs[i] (distanceTo m a vs[i])) ≠ [] := by
      intro h
      rw [h] at hlen
      exact hvs (List.length_eq_zero.mp hlen.symm)
    have hvi := hpos vs[i] (List.getElem_mem hi)
    have hd := (hdist a vs[i]).1
    have hserved : 0 ≤ (served a vs[i] (distanceTo m a vs[i])).drive ∧
        0 ≤ (served a vs[i] (distanceTo m a vs[i])).service := by
      unfold served
      dsimp only
      have hc := clamp_unit_nonneg (a.EstimatedServiceMinutes / 200)
      constructor
      · have : 0 ≤ distanceTo m a vs[i] / 50 * 3600 := by positivity
        linarith [hvi.1]
      · have : 0 ≤ clamp (a.EstimatedServiceMinutes / 200) 0 1 * 200 * 60 := by positivity
        linarith [hvi.2]
    have hpos1 : ∀ v ∈ vs.set i (served a vs[i] (distanceTo m a vs[i])),
        0 ≤ v.drive ∧ 0 ≤ v.service := by
      intro v hv
      rcases List.mem_or_eq_of_mem_set hv with h | h
      · exact hpos v h
      · rw [h]; exact hserved
    obtain ⟨vs2, h2, hl2, hpos2, hsum2⟩ := ih _ hne hpos1
    refine ⟨vs2, ?_, hl2.trans hlen, hpos2, ?_⟩
    · rw [List.foldlM_cons, h1]
      exact h2
    · rw [hsum2, sum_map_set (fun v => v.service) vs i hi, List.map_cons, List.sum_cons]
      unfold served
      dsimp only
      ring

end SimTotals

theorem havKM_real_nonneg (lat1 lon1 lat2 lon2 : ℝ) :
    0 ≤ havKM realMath lat1 lon1 lat2 lon2 := by
  unfold havKM
  dsimp only [realMath]
  have h1 : 0 ≤ Real.arcsin (Real.sqrt
    (Real.sin ((lat2 - lat1) * Real.pi / 180 / 2) * Real.sin ((lat2 - lat1) * Real.pi / 180 / 2) +
      Real.cos (lat1 * Real.pi / 180) * Real.cos (lat2 * Real.pi / 180) *
        Real.sin ((lon2 - lon1) * Real.pi / 180 / 2) *
        Real.sin ((lon2 - lon1) * Real.pi / 180 / 2))) :=
    Real.arcsin_nonneg.mpr (Real.sqrt_nonneg _)
  generalize Real.arcsin _ = A at h1 ⊢
  linarith

/-- C24. Over the reals, for a scenario with at least one agent and any day, `naiveSim` returns
statistics in which `DrivingSec` and `ServiceSec` have one entry per agent, every entry is
non-negative, `TotalTravelSec` is the sum of `DrivingSec`, `TotalServiceSec` is the sum of
`ServiceSec`, and that sum is the sum of `clamp(minutes/200,0,1)*200*60` over the accounts active
on the day. -/
theorem naiveSim_totals (rt : Runtime) (sc : Scenario ℝ) (day : Int) (h : sc.Agents ≠ []) :
    ∃ st, naiveSim realMath rt sc day = some st ∧
      st.DrivingSec.length = sc.Agents.length ∧
      st.ServiceSec.length = sc.Agents.length ∧
      (∀ x ∈ st.DrivingSec, 0 ≤ x) ∧
      (∀ x ∈ st.ServiceSec, 0 ≤ x) ∧
      st.TotalTravelSec = st.DrivingSec.sum ∧
      st.TotalServiceSec = st.ServiceSec.sum ∧
      st.ServiceSec.sum = ((naiveSim_accs rt sc day).map
        (fun a => clamp (a.EstimatedServiceMinutes / 200) 0 1 * 200 * 60)).sum := by
  have hvs : (sc.Agents.map (fun ag => (⟨ag.Lat, ag.Lng, 0, 0⟩ : veh ℝ))) ≠ [] := by
    intro h0
    exact h (List.map_eq_nil_iff.mp h0)
  have hpos0 : ∀ v ∈ sc.Agents.map (fun ag => (⟨ag.Lat, ag.Lng, 0, 0⟩ : veh ℝ)),
      0 ≤ v.drive ∧ 0 ≤ v.service := by
    intro v hv
    obtain ⟨ag, _, rfl⟩ := List.mem_map.mp hv
    exact ⟨le_refl _, le_refl _⟩
  have hsum0 : ((sc.Agents.map (fun ag => (⟨ag.Lat, ag.Lng, 0, 0⟩ : veh ℝ))).map
      (fun v => v.service)).sum = 0 := by
    rw [List.map_map]
    induction sc.Agents with
    | nil => rfl
    | cons a as ih => rw [List.map_cons, List.sum_cons, ih]; exact add_zero _
  obtain ⟨vs', hrun, hlen, hpos, hsum⟩ := naiveSim_steps_invariant realMath
    (fun acc v => ⟨havKM_real_nonneg _ _ _ _, havKM_real_bound _ _ _ _⟩)
    (naiveSim_accs rt sc day) _ hvs hpos0
  refine ⟨statsOf sc ((naiveSim_accs rt sc day).length : Int) vs', ?_, ?_, ?_, ?_, ?_, ?_, ?_, ?_⟩
  · rw [naiveSim_eq, hrun]
    rfl
  · unfold statsOf
    dsimp only
    rw [List.length_map, hlen, List.length_map]
  · unfold statsOf
    dsimp only
    rw [List.length_map, hlen, List.length_map]
  · intro x hx
    obtain ⟨v, hv, rfl⟩ := List.mem_map.mp hx
    exact (hpos v hv).1
  · intro x hx
    obtain ⟨v, hv, rfl⟩ := List.mem_map.mp hx
    exact (hpos v hv).2
  · unfold statsOf
    dsimp only
    rw [foldl_add_map, zero_add]
  · unfold statsOf
    dsimp only
    rw [foldl_add_map, zero_add]
  · unfold statsOf
    dsimp only
    rw [hsum, hsum0, zero_add]

theorem naiveSim_totals_witness :
    (exampleScenario ℝ).Agents ≠ [] ∧
    ∃ st, naiveSim realMath (runtimeAt 0) (exampleScenario ℝ) 0 = some st ∧
      st.DrivingSec.length = 1 ∧ st.ServiceSec.length = 1 ∧
      st.TotalTravelSec = st.DrivingSec.sum ∧ st.TotalServiceSec = st.ServiceSec.sum := by
  have hA : (exampleScenario ℝ).Agents ≠ [] := fun h => List.noConfusion h
  obtain ⟨st, h1, h2, h3, _, _, h6, h7, _⟩ :=
    naiveSim_totals (runtimeAt 0) (exampleScenario ℝ) 0 hA
  exact ⟨hA, st, h1, h2, h3, h6, h7⟩

/-! ## The feature vector: order of the six numbers -/

section FeatureVectorOrder

variable {F : Type} [LinearOrderedField F] [FloorRing F]

omit [FloorRing F] in
theorem sorted_getD_mono (s : List F) (hs : s.Pairwise (fun a b => a ≤ b)) (i j : Nat)
    (hij : i ≤ j) (hj : j < s.length) : s.getD i 0 ≤ s.getD j 0 := by
  have hi : i < s.length := lt_of_le_of_lt hij hj
  rw [List.getD_eq_getElem s 0 hi, List.getD_eq_getElem s 0 hj]
  rcases Nat.lt_or_ge i j with h | h
  · exact List.pairwise_iff_getElem.mp hs i j hi hj h
  · have e : i = j := le_antisymm hij h
    subst e
    exact le_refl _

omit [FloorRing F] in
theorem interp_bounds (a b f : F) (hab : a ≤ b) (h0 : 0 ≤ f) (h1 : f ≤ 1) :
    a ≤ a * (1 - f) + b * f ∧ a * (1 - f) + b * f ≤ b := by
  constructor
  · nlinarith [mul_nonneg h0 (sub_nonneg.mpr hab)]
  · nlinarith [mul_nonneg (sub_nonneg.mpr h1) (sub_nonneg.mpr hab)]

omit [FloorRing F] in
theorem interp_mono (a b f g : F) (hab : a ≤ b) (hfg : f ≤ g) :
    a * (1 - f) + b * f ≤ a * (1 - g) + b * g := by
  nlinarith [mul_nonneg (sub_nonneg.mpr hfg) (sub_nonneg.mpr hab)]

/-- The position of the percentile `q` in a sorted list: either it is interpolated between the
entries `i` and `i + 1`, with `i + f = q * (n - 1)`, or it is the last entry, and then the list
has one entry or `n - 1 ≤ q * (n - 1)`. -/
theorem percentile_locate (s : List F) (hs : s.Pairwise (fun a b => a ≤ b)) (hne : s ≠ [])
    (q : F) (hq : 0 ≤ q) :
    ∃ (i : Nat) (f : F), i < s.length ∧ 0 ≤ f ∧ f < 1 ∧
      (i + 1 < s.length →
        percentile s q = s.getD i 0 * (1 - f) + s.getD (i + 1) 0 * f ∧
        (i : F) + f = q * ((s.length : F) - 1)) ∧
      (¬ i + 1 < s.length → percentile s q = s.getD i 0 ∧
        (s.length = 1 ∨ (s.length : F) - 1 ≤ q * ((s.length : F) - 1))) ∧
      s.getD i 0 ≤ percentile s q ∧
      percentile s q ≤ s.getD (s.length - 1) 0 := by
  have hlen : 0 < s.length := List.length_pos.mpr hne
  have hn : (0 : F) ≤ (s.length : F) - 1 := by
    have : (1 : F) ≤ (s.length : F) := by exact_mod_cast hlen
    linarith
  have hpos : 0 ≤ q * ((s.length : F) - 1) := mul_nonneg hq hn
  have hfl : 0 ≤ ⌊q * ((s.length : F) - 1)⌋ := Int.floor_nonneg.mpr hpos
  unfold percentile
  by_cases h1 : s.length = 1
  · refine ⟨0, 0, hlen, le_refl _, zero_lt_one, ?_, ?_, ?_, ?_⟩
    · intro h; omega
    · intro _; rw [if_pos h1]; exact ⟨rfl, Or.inl h1⟩
    · rw [if_pos h1]
    · rw [if_pos h1, h1]
  · rw [if_neg h1]
    dsimp only
    by_cases h2 : ⌊q * ((s.length : F) - 1)⌋ ≥ (s.length : Int) - 1
    · rw [if_pos h2]
      refine ⟨s.length - 1, 0, by omega, le_refl _, zero_lt_one, ?_, ?_, le_refl _, le_refl _⟩
      · intro h; omega
      · intro _
        refine ⟨rfl, Or.inr ?_⟩
        have h3 := Int.le_floor.mp h2
        push_cast at h3
        exact h3
    · rw [if_neg h2]
      have hf0 : 0 ≤ q * ((s.length : F) - 1) - (⌊q * ((s.length : F) - 1)⌋ : F) := by
        rw [Int.self_sub_floor]; exact Int.fract_nonneg _
      have hf1 : q * ((s.length : F) - 1) - (⌊q * ((s.length : F) - 1)⌋ : F) < 1 := by
        rw [Int.self_sub_floor]; exact Int.fract_lt_one _
      have hi : ⌊q * ((s.length : F) - 1)⌋.toNat + 1 < s.length := by omega
      have hcast : ((⌊q * ((s.length : F) - 1)⌋.toNat : Nat) : F) =
          (⌊q * ((s.length : F) - 1)⌋ : F) := by
        exact_mod_cast Int.toNat_of_nonneg hfl
      have hsum : ((⌊q * ((s.length : F) - 1)⌋.toNat : Nat) : F) +
          (q * ((s.length : F) - 1) - (⌊q * ((s.length : F) - 1)⌋ : F)) =
          q * ((s.length : F) - 1) := by
        rw [hcast]; ring
      have hab := sorted_getD_mono s hs ⌊q * ((s.length : F) - 1)⌋.toNat
        (⌊q * ((s.length : F) - 1)⌋.toNat + 1) (Nat.le_succ _) hi
      have hb := interp_bounds _ _ _ hab hf0 (le_of_lt hf1)
      refine ⟨⌊q * ((s.length : F) - 1)⌋.toNat, _, by omega, hf0, hf1, ?_, ?_, hb.1, ?_⟩
      · intro _; exact ⟨rfl, hsum⟩
      · intro h; exact absurd hi h
      · exact le_trans hb.2 (sorted_getD_mono s hs _ _ (by omega) (by omega))

theorem percentile_mono (s : List F) (hs : s.Pairwise (fun a b => a ≤ b)) (hne : s ≠ [])
    (q1 q2 : F) (hq1 : 0 ≤ q1) (hq : q1 ≤ q2) : percentile s q1 ≤ percentile s q2 := by
  have hlen : 0 < s.length := List.length_pos.mpr hne
  have hn : (0 : F) ≤ (s.length : F) - 1 := by
    have : (1 : F) ≤ (s.length : F) := by exact_mod_cast hlen
    linarith
  have hposle : q1 * ((s.length : F) - 1) ≤ q2 * ((s.length : F) - 1) :=
    mul_le_mul_of_nonneg_right hq hn
  obtain ⟨i1, f1, hi1, hf10, hf11, hint1, hlast1, _, hmax1⟩ :=
    percentile_locate s hs hne q1 hq1
  obtain ⟨i2, f2, hi2, hf20, hf21, hint2, hlast2, hlow2, _⟩ :=
    percentile_locate s hs hne q2 (le_trans hq1 hq)
  by_cases h2 : i2 + 1 < s.length
  · obtain ⟨hp2, hs2⟩ := hint2 h2
    have hc2 : ((i2 : F) + 1) ≤ (s.length : F) - 1 := by
      have : i2 + 1 + 1 ≤ s.length := h2
      have hc : (((i2 + 1 + 1 : Nat)) : F) ≤ (s.length : F) := by exact_mod_cast this
      push_cast at hc
      linarith
    by_cases h1 : i1 + 1 < s.length
    · obtain ⟨hp1, hs1⟩ := hint1 h1
      have hle : (i1 : F) + f1 ≤ (i2 : F) + f2 := by rw [hs1, hs2]; exact hposle
      have hi12 : i1 ≤ i2 := by
        by_contra hcon
        have hlt : i2 + 1 ≤ i1 := by omega
        have hc : (((i2 + 1 : Nat)) : F) ≤ (i1 : F) := by exact_mod_cast hlt
        push_cast at hc
        linarith
      rcases Nat.lt_or_ge i1 i2 with hlt | hge
      · have hup : percentile s q1 ≤ s.getD (i1 + 1) 0 := by
          rw [hp1]
          exact (interp_bounds _ _ _ (sorted_getD_mono s hs i1 (i1 + 1) (Nat.le_succ _) h1)
            hf10 (le_of_lt hf11)).2
        exact le_trans hup (le_trans (sorted_getD_mono s hs (i1 + 1) i2 hlt hi2) hlow2)
      · have e : i1 = i2 := le_antisymm hi12 hge
        subst e
        have hf : f1 ≤ f2 := by linarith
        rw [hp1, hp2]
        exact interp_mono _ _ _ _ (sorted_getD_mono s hs i1 (i1 + 1) (Nat.le_succ _) h1) hf
    · exfalso
      rcases (hlast1 h1).2 with h | h
      · omega
      · linarith
  · rw [(hlast2 h2).1]
    have e2 : i2 = s.length - 1 := by omega
    rw [e2]
    exact hmax1

omit [FloorRing F] in
theorem length_mul_le_sum (l : List F) (a : F) (h : ∀ x ∈ l, a ≤ x) :
    (l.length : F) * a ≤ l.sum := by
  induction l with
  | nil => simp
  | cons x xs ih =>
    have h1 := h x (List.mem_cons_self _ _)
    have h2 := ih (fun y hy => h y (List.mem_cons_of_mem _ hy))
    rw [List.length_cons, List.sum_cons]
    push_cast
    linarith

omit [FloorRing F] in
theorem sum_le_length_mul (l : List F) (a : F) (h : ∀ x ∈ l, x ≤ a) :
    l.sum ≤ (l.length : F) * a := by
  induction l with
  | nil => simp
  | cons x xs ih =>
    have h1 := h x (List.mem_cons_self _ _)
    have h2 := ih (fun y hy => h y (List.mem_cons_of_mem _ hy))
    rw [List.length_cons, List.sum_cons]
    push_cast
    linarith

omit [FloorRing F] in
theorem sortFloat64s_of_perm (vals1 vals2 : List F) (h : vals1.Perm vals2) :
    sortFloat64s vals1 = sortFloat64s vals2 :=
  List.eq_of_perm_of_sorted
    (((sortFloat64s_perm vals1).trans h).trans (sortFloat64s_perm vals2).symm)
    (sortFloat64s_sorted vals1) (sortFloat64s_sorted vals2)

theorem simToVector_push_of_perm (vals1 vals2 : List F) (h : vals1.Perm vals2) :
    simToVector_push vals1 = simToVector_push vals2 := by
  unfold simToVector_push
  rw [sortFloat64s_of_perm vals1 vals2 h, h.length_eq]

/-- C25. For a non-empty distribution the six numbers `simToVector` emits are ordered:
`min ≤ p50 ≤ p75 ≤ p95 ≤ max` and `min ≤ mean ≤ max`; and every permutation of the distribution
gives the same six numbers. -/
theorem simToVector_order (vals : List F) (hne : vals ≠ []) :
    ∃ mn mx mean p50 p75 p95 : F,
      simToVector_push vals = some [mn, mx, mean, p50, p75, p95] ∧
      mn ≤ p50 ∧ p50 ≤ p75 ∧ p75 ≤ p95 ∧ p95 ≤ mx ∧ mn ≤ mean ∧ mean ≤ mx ∧
      ∀ vals2 : List F, vals2.Perm vals → simToVector_push vals2 = simToVector_push vals := by
  have hlen : 0 < vals.length := List.length_pos.mpr hne
  have hsl := sortFloat64s_length vals
  have hs := sortFloat64s_sorted vals
  have hsne : sortFloat64s vals ≠ [] := by
    intro h
    rw [h] at hsl
    exact hne (List.length_eq_zero.mp hsl.symm)
  have hn : (0 : F) < (vals.length : F) := by exact_mod_cast hlen
  refine ⟨_, _, _, _, _, _, simToVector_push_eq vals hne, ?_, ?_, ?_, ?_, ?_, ?_,
    fun vals2 h => simToVector_push_of_perm vals2 vals h⟩
  · obtain ⟨i, _, hi, _, _, _, _, hlow, _⟩ :=
      percentile_locate (sortFloat64s vals) hs hsne (1 / 2) (by norm_num)
    exact le_trans (sorted_getD_mono _ hs 0 i (Nat.zero_le _) hi) hlow
  · exact percentile_mono _ hs hsne _ _ (by norm_num) (by norm_num)
  · exact percentile_mono _ hs hsne _ _ (by norm_num) (by norm_num)
  · obtain ⟨_, _, _, _, _, _, _, _, hmax⟩ :=
      percentile_locate (sortFloat64s vals) hs hsne (19 / 20) (by norm_num)
    rw [hsl] at hmax
    exact hmax
  · rw [le_div_iff₀ hn, mul_comm]
    exact length_mul_le_sum vals _ (fun x hx => sortFloat64s_first_le vals x hx)
  · rw [div_le_iff₀ hn, mul_comm]
    exact sum_le_length_mul vals _ (fun x hx => sortFloat64s_le_last vals x hx)

end FeatureVectorOrder

theorem simToVector_order_witness :
    ([3, 1, 2] : List ℝ) ≠ [] ∧
    ∃ mn mx mean p50 p75 p95 : ℝ,
      simToVector_push [3, 1, 2] = some [mn, mx, mean, p50, p75, p95] ∧
      mn ≤ p50 ∧ p50 ≤ p75 ∧ p75 ≤ p95 ∧ p95 ≤ mx ∧ mn ≤ mean ∧ mean ≤ mx ∧
      simToVector_push [1, 2, 3] = simToVector_push ([3, 1, 2] : List ℝ) := by
  have hne : ([3, 1, 2] : List ℝ) ≠ [] := fun h => List.noConfusion h
  obtain ⟨mn, mx, mean, p50, p75, p95, h, h1, h2, h3, h4, h5, h6, hperm⟩ :=
    simToVector_order ([3, 1, 2] : List ℝ) hne
  exact ⟨hne, mn, mx, mean, p50, p75, p95, h, h1, h2, h3, h4, h5, h6,
    hperm [1, 2, 3] ((List.Perm.cons 1 (List.Perm.swap 3 2 [])).trans (List.Perm.swap 3 1 [2]))⟩
/-! ## The active accounts of the heatmap, the optimizer input and the simulation -/

section ActiveAccounts

variable {F : Type} [LinearOrderedField F]

theorem buildVroom_days_eq (rt : Runtime) (sch : Schedule) (cycle : Int) :
    buildVroom_days rt sch cycle = buildEmbedding_activeDays rt sch cycle := rfl

omit [LinearOrderedField F] in
theorem buildVroom_active_eq (rt : Runtime) (sc : Scenario F) (day : Int) :
    buildVroom_active rt sc day = naiveSim_accs rt sc day := by
  unfold buildVroom_active naiveSim_accs
  simp only [buildVroom_days_eq, naiveSim_ds_eq]

omit [LinearOrderedField F] in
theorem heatmapAccounts_eq (rt : Runtime) (cfg : ServerConfig F) (sc : Scenario F) (day : Int)
    (h : sc.Params.CycleDays ≠ 0 ∨ cfg.Embedding.CycleDays = 28) :
    heatmapAccounts rt cfg sc day = naiveSim_accs rt sc day := by
  have hc : (if sc.Params.CycleDays = 0 then cfg.Embedding.CycleDays else sc.Params.CycleDays) =
      (if sc.Params.CycleDays = 0 then 28 else sc.Params.CycleDays) := by
    rcases h with h | h
    · rw [if_neg h, if_neg h]
    · rw [h]
  unfold heatmapAccounts naiveSim_accs
  simp only [hc, heatmapFor_active_eq, naiveSim_ds_eq]

end ActiveAccounts

theorem buildVroom_jobs_length {F : Type} [LinearOrderedField F] [FloorRing F] (rt : Runtime)
    (sc : Scenario F) (day : Int) :
    (buildVroom rt sc day).Jobs.length = (buildVroom_active rt sc day).length := by
  unfold buildVroom
  simp only [List.length_map, List.enum_length]

theorem zeroCycle_heatmap_day7 :
    heatmapAccounts (runtimeAt 0) (bareConfig ℝ) (zeroCycleScenario ℝ) 7 = [] := by
  rfl

theorem zeroCycle_sim_day7 :
    naiveSim_accs (runtimeAt 0) (zeroCycleScenario ℝ) 7 = (zeroCycleScenario ℝ).Accounts := by
  rfl

/-- C26 fails when the scenario's cycle length is 0: `heatmapFor` falls back to the configured
cycle length, `buildVroom` and `naiveSim` to the constant 28. `buildVroom` and `naiveSim` always
select the same accounts, and `heatmapFor` selects the same when the scenario has a cycle length
or the configured one is 28; with a configured cycle of 4 days, the `WEEKLY`-Monday account of the
example scenario without a cycle length is on day 7 a job of `buildVroom` and served by
`naiveSim`, and not active in `heatmapFor`, which returns no record. -/
theorem activeAccounts_zero_cycle :
    (∀ (rt : Runtime) (sc : Scenario ℝ) (day : Int),
      buildVroom_active rt sc day = naiveSim_accs rt sc day ∧
      (buildVroom rt sc day).Jobs.length = (naiveSim_accs rt sc day).length) ∧
    (∀ (rt : Runtime) (cfg : ServerConfig ℝ) (sc : Scenario ℝ) (day : Int),
      sc.Params.CycleDays ≠ 0 ∨ cfg.Embedding.CycleDays = 28 →
        heatmapAccounts rt cfg sc day = naiveSim_accs rt sc day) ∧
    (zeroCycleScenario ℝ).Params.CycleDays = 0 ∧
    (bareConfig ℝ).Embedding.CycleDays = 4 ∧
    heatmapAccounts (runtimeAt 0) (bareConfig ℝ) (zeroCycleScenario ℝ) 7 = [] ∧
    heatmapFor (runtimeAt 0) (oneCellH3 ℝ) (insertionOrder ℝ) (bareConfig ℝ)
      (zeroCycleScenario ℝ) "service_stop_time" 7 5 = [] ∧
    naiveSim_accs (runtimeAt 0) (zeroCycleScenario ℝ) 7 = (zeroCycleScenario ℝ).Accounts ∧
    buildVroom_active (runtimeAt 0) (zeroCycleScenario ℝ) 7 = (zeroCycleScenario ℝ).Accounts ∧
    ((buildVroom (runtimeAt 0) (zeroCycleScenario ℝ) 7).Jobs.map (fun j => j.Id)) = [1] := by
  refine ⟨fun rt sc day => ⟨buildVroom_active_eq rt sc day, ?_⟩,
    fun rt cfg sc day h => heatmapAccounts_eq rt cfg sc day h, rfl, rfl,
    zeroCycle_heatmap_day7, ?_, zeroCycle_sim_day7, ?_, ?_⟩
  · rw [buildVroom_jobs_length, buildVroom_active_eq]
  · apply List.eq_nil_iff_forall_not_mem.mpr
    intro c hc
    obtain ⟨⟨a, ha, _⟩, _⟩ :=
      (heatmapFor_mem (runtimeAt 0) (oneCellH3 ℝ) (insertionOrder ℝ) (bareConfig ℝ)
        (zeroCycleScenario ℝ) "service_stop_time" 7 5 (by decide) c).mp hc
    rw [zeroCycle_heatmap_day7] at ha
    exact absurd ha (List.not_mem_nil a)
  · rw [buildVroom_active_eq]
    exact zeroCycle_sim_day7
  · have h : buildVroom_active (runtimeAt 0) (zeroCycleScenario ℝ) 7 =
        (zeroCycleScenario ℝ).Accounts := by
      rw [buildVroom_active_eq]
      exact zeroCycle_sim_day7
    unfold buildVroom
    simp only [h, List.map_map]
    rfl

end SpePoc
